import Mathlib

/-!
The RTU packet reader and the RTU server of modbusone.

A shallow embedding of `packet_reader.go`, `rtu_server.go` and `serial.go`.
Byte slices are lists of `Fin 256`; Go `int` values that stay small are `Nat`;
a Go `error` value is an `Option Error` (`none` is `nil`).
-/

namespace modbusone

/-- A Go `byte`. -/
abbrev Byte := Fin 256

/-- Modelled from the spec: the function-code type of the function code table (its
source file is not available). A 7-bit code; the high bit marks an exception. -/
abbrev FunctionCode := Fin 256

/-- Modelled from the spec: `FunctionCode.SeparateError` of the function code table:
"the high bit (0x80) on a reply marks an exception". Returns the exception flag and
the code without the high bit. -/
def FunctionCode.SeparateError (f : FunctionCode) : Bool × FunctionCode :=
  (decide (f.val > 0x7f), ⟨f.val % 0x80, by omega⟩)

/-- Modelled from the spec: `FunctionCode.Valid` of the function code table.
Recognized values: 1, 2, 3, 4, 5, 6, 15, 16. -/
def FunctionCode.Valid (f : FunctionCode) : Bool :=
  decide (f.val = 1 ∨ f.val = 2 ∨ f.val = 3 ∨ f.val = 4 ∨ f.val = 5 ∨ f.val = 6
    ∨ f.val = 15 ∨ f.val = 16)

/-- Modelled from the spec: `FunctionCode.IsWriteToServer` of the function code table:
5 write single coil, 6 write single register, 15 write multiple coils,
16 write multiple registers. -/
def FunctionCode.IsWriteToServer (f : FunctionCode) : Bool :=
  decide (f.val = 5 ∨ f.val = 6 ∨ f.val = 15 ∨ f.val = 16)

/-- Modelled from the spec: `FunctionCode.IsReadToServer` of the function code table:
1 read coils, 2 read discrete inputs, 3 read holding registers, 4 read input
registers. -/
def FunctionCode.IsReadToServer (f : FunctionCode) : Bool :=
  decide (f.val = 1 ∨ f.val = 2 ∨ f.val = 3 ∨ f.val = 4)

/-- Modelled from the spec: `FunctionCode.IsSingle` of the function code table:
"Single-element write (fc 5 or 6)". -/
def FunctionCode.IsSingle (f : FunctionCode) : Bool :=
  decide (f.val = 5 ∨ f.val = 6)

/-- Modelled from the spec: `FunctionCode.IsUint16` of the function code table:
register-addressed codes 3, 4, 6 and 16 (the others are bit-addressed). -/
def FunctionCode.IsUint16 (f : FunctionCode) : Bool :=
  decide (f.val = 3 ∨ f.val = 4 ∨ f.val = 6 ∨ f.val = 16)

namespace crc

/-- Modelled from the spec: one bit step of the Modbus CRC-16 of package `crc`
(reflected polynomial 0xA001); the package source is not available. -/
def shiftStep (c : Nat) : Nat :=
  if c % 2 = 1 then (c / 2) ^^^ 0xA001 else c / 2

/-- Modelled from the spec: the CRC register after one more byte. -/
def pushByte (c : Nat) (b : Byte) : Nat :=
  shiftStep (shiftStep (shiftStep (shiftStep (shiftStep (shiftStep (shiftStep
    (shiftStep (c ^^^ b.val))))))))

/-- Modelled from the spec: the Modbus CRC-16 of a byte string, initial value
0xFFFF. -/
def Sum (bs : List Byte) : Nat :=
  bs.foldl pushByte 0xFFFF

/-- Modelled from the spec: `crc.Append` of package `crc`: "append the two CRC bytes
to a buffer", "trailer stored low byte then high byte". -/
def Append (bs : List Byte) : List Byte :=
  bs ++ [Fin.ofNat (Sum bs % 256), Fin.ofNat (Sum bs / 256 % 256)]

/-- Modelled from the spec: `crc.Validate` of package `crc`: "validate that a
buffer's last two bytes match a freshly computed CRC of its prefix", with
"no error mode other than insufficient length" (a buffer without a byte before
the trailer does not validate). -/
def Validate (bs : List Byte) : Bool :=
  if bs.length ≤ 2 then false
  else decide (Append (bs.take (bs.length - 2)) = bs)

end crc

/-- `GetPDUSizeFromHeader` of `packet_reader.go`. The process-wide flag
`OverSizeSupport` is the first argument. -/
def GetPDUSizeFromHeader (OverSizeSupport : Bool) (header : List Byte) (isClient : Bool) : Nat :=
  if header.length < 2 then 2
  else
    let (ec, f) := FunctionCode.SeparateError (header.getD 0 0)
    if ec || !f.Valid then 2
    else if isClient == f.IsWriteToServer then 5
    else if isClient then 2 + (header.getD 1 0).val
    else if f.IsSingle then 5
    else if header.length < 6 then 6
    else if OverSizeSupport then
      let n : Nat := (header.getD 3 0).val * 256 + (header.getD 4 0).val
      if f.IsUint16 then 6 + n * 2
      else (6 + Int.tdiv ((n : Int) - 1) 8 + 1).toNat
    else 6 + (header.getD 5 0).val

/-- `GetRTUSizeFromHeader` of `packet_reader.go`. -/
def GetRTUSizeFromHeader (OverSizeSupport : Bool) (header : List Byte) (isClient : Bool) : Nat :=
  if header.length < 3 then 3
  else GetPDUSizeFromHeader OverSizeSupport (header.drop 1) isClient + 3

/-- `GetRTUBidirectionalSizeFromHeader` of `packet_reader.go`. -/
def GetRTUBidirectionalSizeFromHeader (OverSizeSupport : Bool) (header : List Byte) : Nat :=
  let s := GetRTUSizeFromHeader OverSizeSupport header false
  let l := GetRTUSizeFromHeader OverSizeSupport header true
  if s = l then s
  else
    let (s, l) := if s > l then (l, s) else (s, l)
    if s > header.length then s
    else if l ≤ header.length && crc.Validate (header.take l) then l
    else if crc.Validate (header.take s) then s
    else l

/-- The request frames of the size-predictor contract: `[id, fc, 4 bytes, crc(2)]`
with fc in 1..6, or `[id, fc, addr(2), qty(2), bc, bc data bytes, crc(2)]` with fc 15
or 16. The byte count `bc` is the byte at index 6. -/
def isRequestADU (a : List Byte) : Bool :=
  let fc := (a.getD 1 0).val
  if 1 ≤ fc ∧ fc ≤ 6 then a.length == 8
  else if fc = 15 ∨ fc = 16 then a.length == 9 + (a.getD 6 0).val
  else false

/-- The response frames of the size-predictor contract: `[id, fc, bc, bc data bytes,
crc(2)]` with fc in 1..4, `[id, fc, 4 bytes, crc(2)]` with fc 5, 6, 15 or 16, or an
exception reply `[id, fc|0x80, code, crc(2)]`. -/
def isResponseADU (a : List Byte) : Bool :=
  let fc := (a.getD 1 0).val
  if 1 ≤ fc ∧ fc ≤ 4 then a.length == 5 + (a.getD 2 0).val
  else if fc = 5 ∨ fc = 6 ∨ fc = 15 ∨ fc = 16 then a.length == 8
  else if 0x80 ≤ fc then a.length == 5
  else false

/-- A non-nil Go `error` value. `ErrorCrc` is the sentinel that `RTU.GetPDU` returns
on a CRC mismatch; `exception` is an `ExceptionCode` used as an error; `other` stands
for every other error value (I/O errors of the transport, handler errors). -/
inductive Error where
  | ErrorCrc
  | exception (code : Byte)
  | other (tag : Nat)
  deriving DecidableEq, Repr

/-- `Stats` of `serial.go`: the eight `int64` counters, as integers (a counter does
not reach 2^63 increments). -/
structure Stats where
  ReadPackets : Int
  CrcErrors : Int
  RemoteErrors : Int
  OtherErrors : Int
  LongReadWarnings : Int
  FormateWarnings : Int
  IDDrops : Int
  OtherDrops : Int
  deriving DecidableEq, Repr

/-- One call of the transport's `Read(p[read:])` as the packet reader sees it: the
`n = data.length` bytes it stored at the head of the offered slice, its error value,
and the value of `time.Now()` taken right after it returned (in nanoseconds). -/
structure TransportRead where
  data : List Byte
  err : Option Error
  now : Int
  deriving DecidableEq, Repr

/-- `rtuPacketReader` of `packet_reader.go`. The field `r` (the transport) is the
script of transport reads that the functions below take as an argument. -/
structure rtuPacketReader where
  isClient : Bool
  bidirectional : Bool
  last : List Byte
  lastReadAt : Int
  deriving DecidableEq, Repr

/-- Modelled from the spec: the constant `smallestRTUSize`, whose declaration is not
available: "Begin with `expected = 4` (smallest possible ADU)". -/
def smallestRTUSize : Nat := 4

/-- The variables of `rtuPacketReader.Read` while its loop runs: the caller's buffer
`p` (its content), `read`, `expected`, the reader and the stats block. -/
structure ReadState where
  p : List Byte
  read : Nat
  expected : Nat
  s : rtuPacketReader
  stats : Stats
  deriving DecidableEq, Repr

/-- What is left when `Read` returns: the buffer, the reader, the stats block and the
transport reads that have not been made. -/
structure ReadEnd where
  p : List Byte
  s : rtuPacketReader
  stats : Stats
  rest : List TransportRead
  deriving DecidableEq, Repr

/-- How a call of `rtuPacketReader.Read` ends. `returned n err` is `return n, err`;
`blocked` is a transport read that never returns (the script has no further read);
`fault` is a transport read that reports more bytes than the slice it was offered
(outside the `io.Reader` contract, not followed further); `outOfFuel` is the loop
bound of the embedding. -/
inductive ReadResult where
  | returned (n : Nat) (err : Option Error) (e : ReadEnd)
  | blocked
  | fault
  | outOfFuel
  deriving DecidableEq, Repr

/-- One pass through the loop body either goes back to the loop head or returns. -/
inductive ReadStep where
  | next (st : ReadState) (rest : List TransportRead)
  | done (r : ReadResult)
  deriving DecidableEq, Repr

/-- The end of the loop body of `Read`, from `if read < expected` on: go round again,
recomputing `expected` from the header when enough has been read. The sleep of
`BytesDelay(expected - read)` only lets time pass and is not a state change. -/
def Read.more (OverSizeSupport : Bool) (st : ReadState) (rest : List TransportRead) : ReadStep :=
  if st.read < st.expected then .next st rest
  else if st.s.bidirectional then
    .next { st with expected := GetRTUBidirectionalSizeFromHeader OverSizeSupport (st.p.take st.read) } rest
  else
    .next { st with expected := GetRTUSizeFromHeader OverSizeSupport (st.p.take st.read) st.s.isClient } rest

/-- The loop body of `Read`. `cutoff n` is
`GetPacketCutoffDurationFromSerialContext(s.r, n)`, whose source is not available. -/
def Read.body (OverSizeSupport : Bool) (cutoff : Nat → Int) (st : ReadState)
    (script : List TransportRead) : ReadStep :=
  if st.s.last.length ≠ 0 then
    -- read += copy(p, s.last); s.last = s.last[:0]
    let n := min st.p.length st.s.last.length
    Read.more OverSizeSupport
      { st with p := st.s.last.take n ++ st.p.drop n, read := st.read + n,
                s := { st.s with last := [] } } script
  else
    match script with
    | [] => .done .blocked
    | t :: rest =>
      let n := t.data.length
      if st.p.length < st.read + n then .done .fault
      else
        let p := st.p.take st.read ++ t.data ++ st.p.drop (st.read + n)
        if st.read ≠ 0 ∧ t.now - st.s.lastReadAt > cutoff n then
          .done (.returned st.read t.err
            { p := p
              s := { st.s with last := (p.drop st.read).take n, lastReadAt := t.now }
              stats := { st.stats with OtherDrops := st.stats.OtherDrops + 1 }
              rest := rest })
        else
          let st1 : ReadState :=
            { st with p := p, read := st.read + n, s := { st.s with lastReadAt := t.now } }
          if t.err ≠ none ∨ st1.read = st1.p.length then
            .done (.returned st1.read t.err
              { p := st1.p, s := st1.s, stats := st1.stats, rest := rest })
          else Read.more OverSizeSupport st1 rest

/-- The statements of `Read` after its loop. -/
def Read.finish (st : ReadState) (rest : List TransportRead) : ReadResult :=
  if st.read > st.expected then
    if crc.Validate (st.p.take st.expected) then
      .returned st.expected none
        { p := st.p
          s := { st.s with last := (st.p.take st.read).drop st.expected }
          stats := { st.stats with LongReadWarnings := st.stats.LongReadWarnings + 1 }
          rest := rest }
    else if crc.Validate (st.p.take st.read) then
      .returned st.read none
        { p := st.p, s := st.s,
          stats := { st.stats with FormateWarnings := st.stats.FormateWarnings + 1 },
          rest := rest }
    else .returned st.read none { p := st.p, s := st.s, stats := st.stats, rest := rest }
  else .returned st.read none { p := st.p, s := st.s, stats := st.stats, rest := rest }

/-- The loop `for read < expected` of `Read`, run for at most `fuel` evaluations of
its condition. -/
def Read.loop (OverSizeSupport : Bool) (cutoff : Nat → Int) :
    Nat → List TransportRead → ReadState → ReadResult
  | 0, _, _ => .outOfFuel
  | fuel + 1, script, st =>
    if st.read < st.expected then
      match Read.body OverSizeSupport cutoff st script with
      | .next st1 rest => Read.loop OverSizeSupport cutoff fuel rest st1
      | .done r => r
    else Read.finish st script

/-- `rtuPacketReader.Read` of `packet_reader.go`, called with a buffer whose content
is `p`, on a transport that will answer its reads by `script`. Every pass through the
loop empties the stash or makes one transport read, so `script.length + 2`
evaluations of the loop condition are enough. -/
def rtuPacketReader.Read (OverSizeSupport : Bool) (cutoff : Nat → Int) (s : rtuPacketReader)
    (stats : Stats) (p : List Byte) (script : List TransportRead) : ReadResult :=
  Read.loop OverSizeSupport cutoff (script.length + 2) script
    { p := p, read := 0, expected := smallestRTUSize, s := s,
      stats := { stats with ReadPackets := stats.ReadPackets + 1 } }

/-- No gap above the cutoff between the previous transport read, made at `prev`, and
the reads of the script, nor between two consecutive reads of the script. -/
def gapsFrom (cutoff : Nat → Int) : Int → List TransportRead → Bool
  | _, [] => true
  | prev, c :: cs => decide (c.now - prev ≤ cutoff c.data.length) && gapsFrom cutoff c.now cs

/-- No gap above the cutoff between two consecutive reads of the script. -/
def gapsWithin (cutoff : Nat → Int) : List TransportRead → Bool
  | [] => true
  | c :: cs => gapsFrom cutoff c.now cs

/-- The bytes that the reads of a script deliver, in order. -/
def delivered (script : List TransportRead) : List Byte :=
  (script.map fun c => c.data).flatten

/-- An RTU frame (ADU): `[slave_id | PDU | CRC_lo | CRC_hi]`. -/
abbrev RTU := List Byte

/-- A PDU: `[function_code | body...]`. -/
abbrev PDU := List Byte

/-- The functions of this repository that `RTUServer.Serve` calls and whose source is
not available. `Serve` is modelled for any such functions; each field has the name
of the Go function it stands for. A Go result pair `(value, error)` is an `Except`,
since `Serve` never looks at the value when the error is not nil. -/
structure Lib where
  GetPDU : RTU → Except Error PDU
  ValidateRequest : PDU → Option Error
  GetFunctionCode : PDU → FunctionCode
  IsReadToServer : FunctionCode → Bool
  IsWriteToServer : FunctionCode → Bool
  GetRequestValues : PDU → Except Error (List Byte)
  MakeReadReply : PDU → List Byte → PDU
  MakeWriteReply : PDU → PDU
  ExceptionReplyPacket : PDU → Byte → PDU
  ToExceptionCode : Error → Byte
  MakeRTU : Byte → PDU → RTU

/-- What one call `s.packetReader.Read(rb)` gives back: the world and the stats block
after it, the content of `rb`, and the results `n` and `err`. -/
structure PacketRead (W : Type) where
  w : W
  stats : Stats
  rb : List Byte
  n : Nat
  err : Option Error
  deriving DecidableEq

/-- The collaborators of `RTUServer.Serve`, as state machines over a world `W`: the
packet reader (`Read`, which also updates the shared stats block; `none` is a call
that never returns), the serial context (`MinDelay`, `Write`) and the protocol
handler (`OnRead`, `OnWrite`). -/
structure Env (W : Type) where
  MinDelay : W → Int
  Read : W → Stats → List Byte → Option (PacketRead W)
  Write : W → RTU → W × Option Error
  OnRead : W → PDU → W × Except Error (List Byte)
  OnWrite : W → PDU → List Byte → W × Option Error

/-- `RTUServer` of `rtu_server.go`: the fields `com` and `packetReader` are the
environment, `SlaveID` is the configured address. -/
structure RTUServer (W : Type) where
  env : Env W
  SlaveID : Byte

/-- What `Serve` does between two packet reads, in order: handler calls, the sleep
before a transmission, and transport writes (with the error the write returned). -/
inductive Event where
  | OnRead (p : PDU)
  | OnWrite (p : PDU) (values : List Byte)
  | Sleep (d : Int)
  | Write (adu : RTU) (err : Option Error)
  deriving DecidableEq, Repr

/-- The state that the body of the serve loop threads through one frame: the world,
the stats block, the events so far and the variable `ioErr`. -/
structure Handled (W : Type) where
  w : W
  stats : Stats
  events : List Event
  ioErr : Option Error

/-- The closure `wp` of `Serve`: no reply to slave id 0, otherwise sleep `delay` and
write `MakeRTU(slaveId, pdu)`, storing the write's error in `ioErr`. -/
def Serve.wp {W : Type} (lib : Lib) (env : Env W) (delay : Int) (h : Handled W) (pdu : PDU)
    (slaveId : Byte) : Handled W :=
  if slaveId = 0 then h
  else
    let out := env.Write h.w (lib.MakeRTU slaveId pdu)
    { h with w := out.1
             events := h.events ++ [.Sleep delay, .Write (lib.MakeRTU slaveId pdu) out.2]
             ioErr := out.2 }

/-- The closure `wec` of `Serve`, for the current PDU `p`. -/
def Serve.wec {W : Type} (lib : Lib) (env : Env W) (delay : Int) (h : Handled W) (p : PDU)
    (err : Error) (slaveId : Byte) : Handled W :=
  Serve.wp lib env delay h (lib.ExceptionReplyPacket p (lib.ToExceptionCode err)) slaveId

/-- The body of the serve loop after a successful packet read of the frame `r`, up to
the next evaluation of the loop condition. `none` is the run-time panic of `r[0]` on
an empty frame. -/
def Serve.handle {W : Type} (lib : Lib) (s : RTUServer W) (delay : Int) (w : W) (stats : Stats)
    (r : RTU) : Option (Handled W) :=
  match lib.GetPDU r with
  | .error err =>
    if err = Error.ErrorCrc then
      some { w := w, stats := { stats with CrcErrors := stats.CrcErrors + 1 },
             events := [], ioErr := none }
    else
      some { w := w, stats := { stats with OtherErrors := stats.OtherErrors + 1 },
             events := [], ioErr := none }
  | .ok p =>
    match r with
    | [] => none
    | r0 :: _ =>
      if r0 ≠ 0 ∧ r0 ≠ s.SlaveID then
        some { w := w, stats := { stats with IDDrops := stats.IDDrops + 1 },
               events := [], ioErr := none }
      else
        match lib.ValidateRequest p with
        | some err =>
          some (Serve.wec lib s.env delay
            { w := w, stats := { stats with OtherErrors := stats.OtherErrors + 1 },
              events := [], ioErr := none } p err r0)
        | none =>
          let fc := lib.GetFunctionCode p
          if lib.IsReadToServer fc then
            let out := s.env.OnRead w p
            match out.2 with
            | .error err =>
              some (Serve.wec lib s.env delay
                { w := out.1, stats := { stats with OtherErrors := stats.OtherErrors + 1 },
                  events := [.OnRead p], ioErr := none } p err r0)
            | .ok data =>
              some (Serve.wp lib s.env delay
                { w := out.1, stats := stats, events := [.OnRead p], ioErr := none }
                (lib.MakeReadReply p data) r0)
          else if lib.IsWriteToServer fc then
            match lib.GetRequestValues p with
            | .error err =>
              some (Serve.wec lib s.env delay
                { w := w, stats := { stats with OtherErrors := stats.OtherErrors + 1 },
                  events := [], ioErr := none } p err r0)
            | .ok data =>
              let out := s.env.OnWrite w p data
              match out.2 with
              | some err =>
                some (Serve.wec lib s.env delay
                  { w := out.1, stats := { stats with OtherErrors := stats.OtherErrors + 1 },
                    events := [.OnWrite p data], ioErr := none } p err r0)
              | none =>
                some (Serve.wp lib s.env delay
                  { w := out.1, stats := stats, events := [.OnWrite p data], ioErr := none }
                  (lib.MakeWriteReply p) r0)
          else some { w := w, stats := stats, events := [], ioErr := none }

/-- One pass of the serve loop: the bytes `rb[:n]` and the error that the packet read
reported, and what `Serve` did before the next evaluation of the loop condition. -/
structure Round where
  frame : RTU
  err : Option Error
  events : List Event
  deriving DecidableEq, Repr

/-- How far a run of `Serve` got: `returned err` is `return err`; `running` is a loop
that has not ended after the passes the embedding was asked to follow; `blocked` is a
packet read that never returns; `panicked` is a run-time panic (`rb[:n]` with
`n > len(rb)`, or `r[0]` on an empty frame). -/
inductive ServeResult where
  | returned (err : Option Error)
  | running
  | blocked
  | panicked
  deriving DecidableEq, Repr

/-- A run of `Serve`: its passes in order, the world and stats block it leaves, and
how far it got. -/
structure ServeRun (W : Type) where
  rounds : List Round
  w : W
  stats : Stats
  result : ServeResult

/-- The loop `for ioErr == nil` of `Serve` followed by `return ioErr`, followed for at
most `fuel` passes. -/
def Serve.loop {W : Type} (lib : Lib) (s : RTUServer W) (delay : Int) :
    Nat → W → Stats → List Byte → Option Error → ServeRun W
  | _, w, stats, _, some e => { rounds := [], w := w, stats := stats, result := .returned (some e) }
  | 0, w, stats, _, none => { rounds := [], w := w, stats := stats, result := .running }
  | fuel + 1, w, stats, rb, none =>
    match s.env.Read w stats rb with
    | none => { rounds := [], w := w, stats := stats, result := .blocked }
    | some pr =>
      match pr.err with
      | some e =>
        { rounds := [{ frame := pr.rb.take pr.n, err := some e, events := [] }],
          w := pr.w, stats := pr.stats, result := .returned (some e) }
      | none =>
        if pr.rb.length < pr.n then
          { rounds := [], w := pr.w, stats := pr.stats, result := .panicked }
        else
          match Serve.handle lib s delay pr.w pr.stats (pr.rb.take pr.n) with
          | none =>
            { rounds := [{ frame := pr.rb.take pr.n, err := none, events := [] }],
              w := pr.w, stats := pr.stats, result := .panicked }
          | some h =>
            let run := Serve.loop lib s delay fuel h.w h.stats pr.rb h.ioErr
            { run with rounds :=
                { frame := pr.rb.take pr.n, err := none, events := h.events } :: run.rounds }

/-- Modelled from the spec: the constant `MaxRTUSize`, whose declaration is not
available: "Standard maximum 256 bytes". -/
def MaxRTUSize : Nat := 256

/-- `RTUServer.Serve` of `rtu_server.go`, followed for at most `fuel` passes of its
loop, from the world `w` and the stats block `stats`. `OverSizeSupport` and
`OverSizeMaxRTU` are the process-wide settings. -/
def RTUServer.Serve {W : Type} (lib : Lib) (OverSizeSupport : Bool) (OverSizeMaxRTU : Nat)
    (s : RTUServer W) (fuel : Nat) (w : W) (stats : Stats) : ServeRun W :=
  Serve.loop lib s (s.env.MinDelay w) fuel w stats
    (List.replicate (if OverSizeSupport then OverSizeMaxRTU else MaxRTUSize) 0) none

/-- Modelled from the spec: `PDU.GetFunctionCode`, whose source is not available:
the PDU is `[function_code | body...]`. -/
def PDU.GetFunctionCode (p : PDU) : FunctionCode := p.getD 0 0

/-- Modelled from the spec: `RTU.GetPDU`, whose source is not available. An ADU is
`[slave_id(1) | PDU | CRC_lo(1) | CRC_hi(1)]` of "minimum size 4 bytes"; a CRC
mismatch is `ErrorCrc`; otherwise the PDU is the ADU minus the address and CRC. -/
def RTU.GetPDU (r : RTU) : Except Error PDU :=
  if r.length < 4 then .error (Error.other 0)
  else if !crc.Validate r then .error Error.ErrorCrc
  else .ok ((r.drop 1).take (r.length - 3))

/-- Modelled from the spec: `MakeRTU`, whose source is not available: the ADU
`[slave_id | PDU | CRC_lo | CRC_hi]` with the CRC "over all bytes preceding the
CRC". -/
def MakeRTU (slaveID : Byte) (p : PDU) : RTU := crc.Append (slaveID :: p)

/-- Modelled from the spec: `PDU.ValidateRequest`, whose source is not available: it
"checks length, quantity range, and byte-count consistency". With `OverSizeSupport`
off the quantity ranges are: bit operations 1..2000, register reads 1..125, register
writes 1..123; single-element writes carry a data value instead. With
`OverSizeSupport` on, the payload size is derived "from the 16-bit quantity field
rather than the 8-bit byte count", which is ignored, and the quantity has no upper
limit of its own: "a write-multiple-registers PDU targeting 200 registers must be
accepted", and so must the read of 200 registers that follows it. The error is the
exception code (1 illegal function, 3 illegal data value). -/
def PDU.ValidateRequest (OverSizeSupport : Bool) (p : PDU) : Option Error :=
  let fc := PDU.GetFunctionCode p
  let qty := (p.getD 3 0).val * 256 + (p.getD 4 0).val
  if !fc.Valid then some (Error.exception 1)
  else if p.length < 5 then some (Error.exception 3)
  else if fc.IsSingle then
    if p.length = 5 then none else some (Error.exception 3)
  else if fc.IsReadToServer then
    if OverSizeSupport then
      if p.length = 5 ∧ 1 ≤ qty then none else some (Error.exception 3)
    else
      if p.length = 5 ∧ 1 ≤ qty ∧ qty ≤ (if fc.IsUint16 then 125 else 2000) then none
      else some (Error.exception 3)
  else
    if OverSizeSupport then
      if 1 ≤ qty ∧ p.length = 6 + (if fc.IsUint16 then qty * 2 else (qty + 7) / 8) then none
      else some (Error.exception 3)
    else
      if 1 ≤ qty ∧ qty ≤ (if fc.IsUint16 then 123 else 2000) ∧
          p.length = 6 + (p.getD 5 0).val ∧
          (p.getD 5 0).val = (if fc.IsUint16 then qty * 2 else (qty + 7) / 8) then none
      else some (Error.exception 3)

/-- Modelled from the spec: `PDU.GetRequestValues`, whose source is not available:
the data value of a single-element write (bytes 3 and 4), or the value bytes that
follow the byte count of a multi-element write. -/
def PDU.GetRequestValues (p : PDU) : Except Error (List Byte) :=
  if (PDU.GetFunctionCode p).IsSingle then .ok (p.drop 3) else .ok (p.drop 6)

/-- Modelled from the spec: `PDU.MakeReadReply`, whose source is not available: the
reply `[fc | byte_count | data]`, the byte count taken modulo 256. -/
def PDU.MakeReadReply (p : PDU) (data : List Byte) : PDU :=
  PDU.GetFunctionCode p :: Fin.ofNat data.length :: data

/-- Modelled from the spec: `PDU.MakeWriteReply`, whose source is not available:
it "echoes `fc | address | qty` (the first 5 bytes of the request PDU)". -/
def PDU.MakeWriteReply (p : PDU) : PDU := p.take 5

/-- Modelled from the spec: `ExceptionReplyPacket`, whose source is not available:
it "builds `fc|0x80 | code`". -/
def ExceptionReplyPacket (req : PDU) (code : Byte) : PDU :=
  [Fin.ofNat ((PDU.GetFunctionCode req).val ||| 0x80), code]

/-- Modelled from the spec: `ToExceptionCode`, whose source is not available: an
error tagged with an explicit exception code gives that code, "otherwise the
generic device failure (4) is used". -/
def ToExceptionCode (err : Error) : Byte :=
  match err with
  | .exception code => code
  | _ => 4

/-- Modelled from the spec: the functions that `Serve` calls, as the spec describes
them, for either setting of `OverSizeSupport`. -/
def specLib (OverSizeSupport : Bool) : Lib where
  GetPDU := RTU.GetPDU
  ValidateRequest := PDU.ValidateRequest OverSizeSupport
  GetFunctionCode := PDU.GetFunctionCode
  IsReadToServer := FunctionCode.IsReadToServer
  IsWriteToServer := FunctionCode.IsWriteToServer
  GetRequestValues := PDU.GetRequestValues
  MakeReadReply := PDU.MakeReadReply
  MakeWriteReply := PDU.MakeWriteReply
  ExceptionReplyPacket := ExceptionReplyPacket
  ToExceptionCode := ToExceptionCode
  MakeRTU := MakeRTU

/-- The world of a server made by `NewRTUServer(com, slaveID)` on a serial context
that is not itself a packet reader: the packet reader
`NewRTUPacketReader(com, false)`, the transport reads still to come, and the frames
written so far. -/
structure SerialWorld where
  reader : rtuPacketReader
  script : List TransportRead
  written : List RTU
  deriving DecidableEq, Repr

/-- The environment of such a server: the packet read is `rtuPacketReader.Read` on
the scripted transport (a read that does not return is `none`), a write is recorded
and answered with `writeErr`, and the handler is the pair `onRead`, `onWrite`. -/
def serialEnv (OverSizeSupport : Bool) (cutoff : Nat → Int) (minDelay : Int)
    (writeErr : RTU → Option Error) (onRead : PDU → Except Error (List Byte))
    (onWrite : PDU → List Byte → Option Error) : Env SerialWorld where
  MinDelay := fun _ => minDelay
  Read := fun w stats rb =>
    match rtuPacketReader.Read OverSizeSupport cutoff w.reader stats rb w.script with
    | .returned n err e =>
      some { w := { w with reader := e.s, script := e.rest }, stats := e.stats, rb := e.p,
             n := n, err := err }
    | _ => none
  Write := fun w adu => ({ w with written := w.written ++ [adu] }, writeErr adu)
  OnRead := fun w p => (w, onRead p)
  OnWrite := fun w p values => (w, onWrite p values)

/-- Whether an event is a call of a handler method. -/
def Event.isHandlerCall : Event → Bool
  | .OnRead _ => true
  | .OnWrite _ _ => true
  | _ => false

/-- Whether an event is a transport write. -/
def Event.isWrite : Event → Bool
  | .Write _ _ => true
  | _ => false

/-- Whether an event is a transport write that returned an error. -/
def Event.isFailedWrite : Event → Bool
  | .Write _ (some _) => true
  | _ => false

/-- A pass of the serve loop without I/O error: the packet read returned nil and no
write returned an error. -/
def Round.clean (r : Round) : Bool :=
  r.err.isNone && r.events.all (fun x => !x.isFailedWrite)

/-- A pass of the serve loop that ends in the I/O error `e`: either its packet read
returned `e` and nothing followed, or its packet read returned nil and its last
event is a write that returned `e`, the only write of the pass. -/
def Round.endsIn (r : Round) (e : Error) : Prop :=
  (r.err = some e ∧ r.events = []) ∨
    (r.err = none ∧ ∃ evs adu, r.events = evs ++ [Event.Write adu (some e)] ∧
      evs.all (fun x => !x.isWrite) = true)

/-- Whether an event is a transport write or the sleep before it. -/
def Event.isTransmit : Event → Bool
  | .Sleep _ => true
  | .Write _ _ => true
  | _ => false

/-- Example data: a stats block with every counter at zero. -/
def zeroStats : Stats := ⟨0, 0, 0, 0, 0, 0, 0, 0⟩

/-- Example data: a fresh server-side packet reader, as `NewRTUPacketReader(r, false)`
makes it. -/
def serverReader : rtuPacketReader :=
  { isClient := false, bidirectional := false, last := [], lastReadAt := 0 }

/-- Example data: the write-single-register request `11 06 00 01 00 03 9A 9B`. -/
def writeSingleRequest : List Byte := [0x11, 0x06, 0x00, 0x01, 0x00, 0x03, 0x9A, 0x9B]

/-- Example data: the request above delivered by two transport reads, 2 ns apart. -/
def twoChunks : List TransportRead :=
  [⟨[0x11, 0x06, 0x00], none, 5⟩, ⟨[0x01, 0x00, 0x03, 0x9A, 0x9B], none, 7⟩]

/-- Example data: the loop state of `Read` after one transport read delivered the
request above together with the first byte of the next frame. -/
def longReadState : ReadState :=
  { p := writeSingleRequest ++ [0x11, 0, 0, 0, 0, 0, 0, 0], read := 9, expected := 8,
    s := { serverReader with lastReadAt := 5 }, stats := { zeroStats with ReadPackets := 1 } }

/-- Example data: the loop state of `Read` after a first transport read of three
bytes at time 5. -/
def threeBytesState : ReadState :=
  { p := [0x11, 0x06, 0x00, 0, 0, 0, 0, 0, 0, 0, 0, 0, 0, 0, 0, 0], read := 3, expected := 4,
    s := { serverReader with lastReadAt := 5 }, stats := { zeroStats with ReadPackets := 1 } }

/-- Example data: a server with slave id 0x11 on a serial context whose writes
succeed, with a handler that answers every read with the two bytes `00 03` and
accepts every write. -/
def sampleServer : RTUServer SerialWorld :=
  { env := serialEnv false (fun _ => 1000) 1750000 (fun _ => none) (fun _ => .ok [0, 3])
      (fun _ _ => none),
    SlaveID := 0x11 }

/-- Example data: a transport that delivers the write-single-register request in two
reads and then nothing more. -/
def sampleWorld : SerialWorld :=
  { reader := serverReader, script := twoChunks, written := [] }

/-- Example data: the pass of the serve loop in which the sample server answers the
write-single-register request. -/
def sampleRound : Round :=
  { frame := writeSingleRequest, err := none,
    events := [Event.OnWrite [6, 0, 1, 0, 3] [0, 3], Event.Sleep 1750000,
      Event.Write [0x11, 6, 0, 1, 0, 3, 0x9A, 0x9B] none] }

/-- Example data: a transport that delivers, in one read, the write-single-register
request with its last CRC byte changed. -/
def badCrcWorld : SerialWorld :=
  { reader := serverReader,
    script := [⟨[0x11, 0x06, 0x00, 0x01, 0x00, 0x03, 0x9A, 0x9C], none, 5⟩], written := [] }

/-- Example data: what the packet read of the sample server returns in `badCrcWorld`
on a 16-byte buffer of zeros. -/
def badCrcRead : PacketRead SerialWorld :=
  { w := { reader := { serverReader with lastReadAt := 5 }, script := [], written := [] },
    stats := { zeroStats with ReadPackets := 1 },
    rb := [0x11, 0x06, 0x00, 0x01, 0x00, 0x03, 0x9A, 0x9C, 0, 0, 0, 0, 0, 0, 0, 0],
    n := 8, err := none }

/-- Example data: a read-holding-registers request for slave 0x11 with quantity 0,
which the spec-modelled `ValidateRequest` rejects with exception code 3 under either
setting of `OverSizeSupport`. -/
def zeroQuantityTail : List Byte := [0x03, 0x00, 0x6B, 0x00, 0x00, 0x36, 0x86]

/-- Example data: the exception reply `11 83 03` with its CRC. -/
def exceptionReply : RTU := [0x11, 0x83, 0x03, 0x00, 0xF4]

/-- Example data: the write-single-register request sent to the broadcast address,
`00 06 00 01 00 03` with its CRC. -/
def broadcastRequest : RTU := [0x00, 0x06, 0x00, 0x01, 0x00, 0x03, 0x99, 0xDA]

/-- Example data: a transport that delivers the broadcast request in one read and
then nothing more. -/
def broadcastWorld : SerialWorld :=
  { reader := serverReader, script := [⟨broadcastRequest, none, 5⟩], written := [] }

/-- Example data: the pass of the serve loop for the broadcast request. -/
def broadcastRound : Round :=
  { frame := broadcastRequest, err := none,
    events := [Event.OnWrite [6, 0, 1, 0, 3] [0, 3]] }

/-- Example data: a ten-byte header with function code 3 and byte-count byte 5 whose
first eight bytes carry a valid CRC and whose ten bytes carry a valid CRC too. -/
def doublyValidHeader : List Byte :=
  [0x11, 0x03, 0x05, 0xCD, 0x6B, 0xB2, 0x79, 0x2C, 0x00, 0x00]

/-- A Go `int64` result: the integer `x` reduced to the range `-2^63 .. 2^63 - 1`
(two's complement wrap-around). -/
def wrapInt64 (x : Int) : Int :=
  (x + 9223372036854775808) % 18446744073709551616 - 9223372036854775808

/-- `MinDelay` of `serial.go`, in nanoseconds (`time.Duration` is an `int64`); the
argument is an `int64`. `time.Second*11*7` is the constant 77000000000 and
`1750 * time.Microsecond` is 1750000. `none` is the run-time panic of an integer
division by zero. -/
def MinDelay (baudRate : Int) : Option Int :=
  let br := baudRate
  if br ≤ 19200 then
    if wrapInt64 (br * 2) = 0 then none
    else
      some (wrapInt64 (Int.tdiv
        (wrapInt64 (wrapInt64 (77000000000 + wrapInt64 (br * 2)) - 1))
        (wrapInt64 (br * 2))))
  else some 1750000

/-- `BytesDelay` of `serial.go`, in nanoseconds; the arguments are an `int64` and an
`int`. `time.Second*11` is the constant 11000000000. `none` is the run-time panic of
an integer division by zero. -/
def BytesDelay (baudRate : Int) (n : Int) : Option Int :=
  let br := baudRate
  let cs := n
  if br = 0 then none
  else
    some (wrapInt64 (Int.tdiv
      (wrapInt64 (wrapInt64 (wrapInt64 (11000000000 * cs) + br) - 1)) br))

/-- The read-holding-registers reply PDU that carries the `2q` data bytes `data`:
`[3, (2q) mod 256, data]`. -/
def registersReply (q : Nat) (data : List Byte) : PDU :=
  3 :: Fin.ofNat (2 * q) :: data

/-- Example data: the read-holding-registers request `11 03 00 6B 00 03 76 87`
(quantity 3) for slave 0x11. -/
def readRegistersRequest : RTU := [0x11, 0x03, 0x00, 0x6B, 0x00, 0x03, 0x76, 0x87]

/-- Example data: a transport that delivers, in one read, the write-single-register
request followed by the first byte of another frame. -/
def longReadWorld : SerialWorld :=
  { reader := serverReader, script := [⟨writeSingleRequest ++ [0x11], none, 5⟩], written := [] }

/-- Example data: a transport that delivers, in one read, a valid
write-single-register request addressed to slave 0x12. -/
def otherIdWorld : SerialWorld :=
  { reader := serverReader,
    script := [⟨[0x12, 0x06, 0x00, 0x01, 0x00, 0x03, 0x9A, 0xA8], none, 5⟩], written := [] }

/-- Example data: what the packet read of the sample server returns in `otherIdWorld`
on a 16-byte buffer of zeros. -/
def otherIdRead : PacketRead SerialWorld :=
  { w := { reader := { serverReader with lastReadAt := 5 }, script := [], written := [] },
    stats := { zeroStats with ReadPackets := 1 },
    rb := [0x12, 0x06, 0x00, 0x01, 0x00, 0x03, 0x9A, 0xA8, 0, 0, 0, 0, 0, 0, 0, 0],
    n := 8, err := none }

/-- Example data: a transport that delivers, in one read, a nine-byte frame with
function code 6 and a valid CRC over its first seven bytes. -/
def formatWarningWorld : SerialWorld :=
  { reader := serverReader,
    script := [⟨[0x11, 0x06, 0x00, 0x01, 0x00, 0x03, 0x00, 0x1B, 0x6B], none, 5⟩],
    written := [] }

/-- Example data: a transport that delivers the five-byte frame `11 03 00 21 35`
(valid CRC) and, 5000 ns later, one more byte. -/
def cutoffWorld : SerialWorld :=
  { reader := serverReader,
    script := [⟨[0x11, 0x03, 0x00, 0x21, 0x35], none, 5⟩, ⟨[0x11], none, 5005⟩],
    written := [] }

/-- `Uint64ToSlaveID` of `rtu_server.go`; the argument is a `uint64`. The error is
`errors.New("slaveID must be less than 248")`. -/
def Uint64ToSlaveID (n : Nat) : Byte × Option Error :=
  if n > 247 then (0, some (Error.other 248))
  else (Fin.ofNat n, none)

/-- Example data: the read-coils response `11 01 05 CD 6B B2 0E 1B 45 E6`. -/
def readCoilsResponse : List Byte := [0x11, 0x01, 0x05, 0xCD, 0x6B, 0xB2, 0x0E, 0x1B, 0x45, 0xE6]

/-- `Stats.Reset` of `serial.go`: every counter is stored as zero. -/
def Stats.Reset (_s : Stats) : Stats :=
  { ReadPackets := 0, CrcErrors := 0, RemoteErrors := 0, OtherErrors := 0,
    LongReadWarnings := 0, FormateWarnings := 0, IDDrops := 0, OtherDrops := 0 }

/-- `Stats.TotalDrops` of `serial.go`. -/
def Stats.TotalDrops (s : Stats) : Int :=
  s.CrcErrors + s.RemoteErrors + s.OtherErrors + s.LongReadWarnings + s.FormateWarnings +
    s.IDDrops + s.OtherDrops

/-- Every counter of `a` is at most the same counter of `b`. -/
def Stats.le (a b : Stats) : Bool :=
  decide (a.ReadPackets ≤ b.ReadPackets) && decide (a.CrcErrors ≤ b.CrcErrors) &&
    decide (a.RemoteErrors ≤ b.RemoteErrors) && decide (a.OtherErrors ≤ b.OtherErrors) &&
    decide (a.LongReadWarnings ≤ b.LongReadWarnings) &&
    decide (a.FormateWarnings ≤ b.FormateWarnings) && decide (a.IDDrops ≤ b.IDDrops) &&
    decide (a.OtherDrops ≤ b.OtherDrops)

/-- What a sequence of `Read` calls leaves: the byte slices `p[:n]` that the calls
returned, in order, and the reader, stats block and unread transport script after the
last of them. -/
structure ReadCalls where
  returned : List (List Byte)
  s : rtuPacketReader
  stats : Stats
  rest : List TransportRead
  deriving DecidableEq, Repr

/-- A sequence of `rtuPacketReader.Read` calls on the same reader, one call per
buffer of `ps`. A call that does not return ends the sequence; what is reported then
is the state before that call. -/
def readCalls (OverSizeSupport : Bool) (cutoff : Nat → Int) :
    List (List Byte) → rtuPacketReader → Stats → List TransportRead → ReadCalls
  | [], s, stats, script => { returned := [], s := s, stats := stats, rest := script }
  | p :: ps, s, stats, script =>
    match rtuPacketReader.Read OverSizeSupport cutoff s stats p script with
    | .returned n _ e =>
      let c := readCalls OverSizeSupport cutoff ps e.s e.stats e.rest
      { c with returned := e.p.take n :: c.returned }
    | _ => { returned := [], s := s, stats := stats, rest := script }

/-- Modelled from the spec: `FunctionCode.MakeRequestHeader`, whose source is not
available: the request header `[fc | start_addr_hi | start_addr_lo | qty_hi | qty_lo]`
for a `uint16` address and a `uint16` quantity. -/
def FunctionCode.MakeRequestHeader (fc : FunctionCode) (address quantity : Nat) : PDU :=
  [fc, Fin.ofNat (address / 256), Fin.ofNat address, Fin.ofNat (quantity / 256),
    Fin.ofNat quantity]

/-- Modelled from the spec: the number of elements that each request of a split but
the last carries: the per-frame limit, which "for bit operations ... respects byte
boundaries" (a limit of 8 or more is rounded down to a multiple of 8). -/
def splitStep (fc : FunctionCode) (limit : Nat) : Nat :=
  if fc.IsUint16 then limit
  else if 8 ≤ limit then limit - limit % 8
  else limit

/-- Modelled from the spec: the loop of the request splitter: requests of `step`
elements from `address` on while more than `step` elements remain, then one request
for the rest. The first argument bounds the number of requests. -/
def splitRequests (fc : FunctionCode) (step : Nat) : Nat → Nat → Nat → List PDU
  | 0, _, _ => []
  | fuel + 1, address, quantity =>
    if quantity = 0 then []
    else if quantity ≤ step then [fc.MakeRequestHeader address quantity]
    else fc.MakeRequestHeader address step ::
      splitRequests fc step fuel (address + step) (quantity - step)

/-- Modelled from the spec: `MakePDURequestHeadersSized`, whose source is not
available: "given a logical operation `(fc, start, qty)` and a per-frame `limit` on
element count ..., produce an ordered list of request headers covering
`[start, start+qty)`", appended to `appendTO`. It fails for a limit of 0, for an
unsupported function code, and for a range that leaves the 16-bit address space. -/
def MakePDURequestHeadersSized (fc : FunctionCode) (address quantity maxPerPacket : Nat)
    (appendTO : List PDU) : Except Error (List PDU) :=
  if maxPerPacket = 0 then .error (Error.other 1)
  else if !fc.Valid then .error (Error.exception 1)
  else if 65536 < address + quantity then .error (Error.exception 2)
  else .ok (appendTO ++ splitRequests fc (splitStep fc maxPerPacket) quantity address quantity)

/-- The start address and the quantity that a request header carries. -/
def headerRange (h : PDU) : Nat × Nat :=
  ((h.getD 1 0).val * 256 + (h.getD 2 0).val, (h.getD 3 0).val * 256 + (h.getD 4 0).val)

/-- The ranges `(a_i, q_i)` tile `[start, start+qty)` in order with no gap and no
overlap, each with `1 <= q_i <= limit`: `a_0 = start`, `a_(i+1) = a_i + q_i`, and the
quantities add up to `qty`. -/
def tiles (limit : Nat) : Nat → Nat → List (Nat × Nat) → Bool
  | _, qty, [] => qty == 0
  | start, qty, (a, q) :: rest =>
    a == start && decide (1 ≤ q) && decide (q ≤ limit) && decide (q ≤ qty) &&
      tiles limit (start + q) (qty - q) rest

/-- Example data: the write-multiple-registers PDU of `over_size_test.go`: 200
registers from address 0, byte count 0, and 400 zero bytes of data. -/
def overSizeWritePDU : PDU := [0x10, 0, 0, 0, 200, 0] ++ List.replicate 400 0

/-- Example data: the read-holding-registers request of `over_size_test.go` for slave
0x11, 200 registers from address 0: `11 03 00 00 00 C8` with its CRC. -/
def overSizeReadRequest : RTU := [0x11, 0x03, 0x00, 0x00, 0x00, 0xC8, 0x46, 0xCC]

/-- Example data: the server of `over_size_test.go` with `OverSizeSupport` on: slave
id 0x11, writes succeed, and the handler answers every read with as many zero
registers as the request asks for and accepts every write. -/
def overSizeServer : RTUServer SerialWorld :=
  { env := serialEnv true (fun _ => 1000) 1750000 (fun _ => none)
      (fun p => .ok (List.replicate (2 * ((p.getD 3 0).val * 256 + (p.getD 4 0).val)) 0))
      (fun _ _ => none),
    SlaveID := 0x11 }

/-- Example data: a transport on which nothing has been written and nothing more
arrives. -/
def quietWorld : SerialWorld :=
  { reader := serverReader, script := [], written := [] }

/-- Example data: the request of `over_size_test.go`, `MakeRTU(0x11, pdu)` for the
PDU `overSizeWritePDU`, without its first byte: the PDU followed by the two CRC bytes
of the frame. -/
def overSizeWriteTail : List Byte := (MakeRTU 0x11 overSizeWritePDU).tail

/-- Example data: the sample server on a serial context whose every write fails with
the same error. -/
def brokenWriteServer : RTUServer SerialWorld :=
  { env := serialEnv false (fun _ => 1000) 1750000 (fun _ => some (Error.other 32))
      (fun _ => .ok [0, 3]) (fun _ _ => none),
    SlaveID := 0x11 }

/-- Example data: a transport whose first read delivers no byte and reports an
error, as a closed connection does. -/
def closedWorld : SerialWorld :=
  { reader := serverReader, script := [⟨[], some (Error.other 6), 3⟩], written := [] }

/-- Example data: what the packet read of the sample server returns in `closedWorld`
on the fresh 256-byte buffer: no byte and the transport's error. -/
def closedRead : PacketRead SerialWorld :=
  { w := { reader := { serverReader with lastReadAt := 3 }, script := [], written := [] },
    stats := { zeroStats with ReadPackets := 1 },
    rb := List.replicate 256 0, n := 0, err := some (Error.other 6) }

/-- Example data: what the packet read returns in `sampleWorld` on the fresh 256-byte
buffer: the write-single-register request. -/
def sampleRead : PacketRead SerialWorld :=
  { w := { reader := { serverReader with lastReadAt := 7 }, script := [], written := [] },
    stats := { zeroStats with ReadPackets := 1 },
    rb := writeSingleRequest ++ List.replicate 248 0, n := 8, err := none }

/-- Example data: what `brokenWriteServer` has done when it has processed the
write-single-register request: the handler call, the sleep and the failed write. -/
def brokenWriteHandled : Handled SerialWorld :=
  { w := { reader := { serverReader with lastReadAt := 7 }, script := [],
           written := [writeSingleRequest] },
    stats := { zeroStats with ReadPackets := 1 },
    events := [Event.OnWrite [6, 0, 1, 0, 3] [0, 3], Event.Sleep 1750000,
      Event.Write writeSingleRequest (some (Error.other 32))],
    ioErr := some (Error.other 32) }

end modbusone

namespace modbusone

theorem getD_drop (l : List Byte) (k i : Nat) (d : Byte) :
    (l.drop k).getD i d = l.getD (k + i) d := by
  simp [List.getD_eq_getElem?_getD, List.getElem?_drop]

theorem size_request (a : List Byte) (h : isRequestADU a = true) :
    GetRTUSizeFromHeader false a false = a.length := by
  simp only [isRequestADU] at h
  simp only [GetRTUSizeFromHeader, GetPDUSizeFromHeader, FunctionCode.SeparateError,
    FunctionCode.Valid, FunctionCode.IsWriteToServer, FunctionCode.IsSingle,
    FunctionCode.IsUint16, getD_drop, List.length_drop, Nat.add_zero, Nat.reduceAdd]
  generalize a.getD 1 0 = fc at h ⊢
  generalize a.getD 6 0 = bc at h ⊢
  generalize a.length = n at h ⊢
  have hfc := fc.isLt
  split at h
  · simp at h
    subst h
    have h1 : (fc : Nat) % 128 = fc := by omega
    simp [h1]
    split_ifs <;> omega
  · split at h
    · simp at h
      subst h
      have h1 : (fc : Nat) % 128 = fc := by omega
      simp [h1]
      split_ifs <;> omega
    · simp at h

theorem size_response (a : List Byte) (h : isResponseADU a = true) :
    GetRTUSizeFromHeader false a true = a.length := by
  simp only [isResponseADU] at h
  simp only [GetRTUSizeFromHeader, GetPDUSizeFromHeader, FunctionCode.SeparateError,
    FunctionCode.Valid, FunctionCode.IsWriteToServer, FunctionCode.IsSingle,
    FunctionCode.IsUint16, getD_drop, List.length_drop, Nat.add_zero, Nat.reduceAdd]
  generalize a.getD 1 0 = fc at h ⊢
  generalize a.getD 2 0 = bc at h ⊢
  generalize a.length = n at h ⊢
  have hfc := fc.isLt
  split at h
  · simp at h
    subst h
    have h1 : (fc : Nat) % 128 = fc := by omega
    simp [h1]
    split_ifs <;> omega
  · split at h
    · simp at h
      subst h
      have h1 : (fc : Nat) % 128 = fc := by omega
      simp [h1]
      split_ifs <;> omega
    · split at h
      · simp at h
        subst h
        simp
        split_ifs <;> omega
      · simp at h

theorem getD_take (l : List Byte) (k i : Nat) (d : Byte) (h : i < k) :
    (l.take k).getD i d = l.getD i d := by
  simp [List.getD_eq_getElem?_getD, List.getElem?_take, h]

theorem predict_request (a : List Byte) (h : isRequestADU a = true) (k : Nat) (h4 : 4 ≤ k)
    (hk : k ≤ a.length) :
    GetRTUSizeFromHeader false (a.take k) false ≤ a.length ∧
      (GetRTUSizeFromHeader false (a.take k) false ≤ k →
        GetRTUSizeFromHeader false (a.take k) false = a.length) := by
  simp only [isRequestADU] at h
  have e1 : (a.take k).getD 1 0 = a.getD 1 0 := getD_take a k 1 0 (by omega)
  have e6 : 7 ≤ k → (a.take k).getD 6 0 = a.getD 6 0 := fun h7 => getD_take a k 6 0 (by omega)
  simp only [GetRTUSizeFromHeader, GetPDUSizeFromHeader, FunctionCode.SeparateError,
    FunctionCode.Valid, FunctionCode.IsWriteToServer, FunctionCode.IsSingle,
    FunctionCode.IsUint16, getD_drop, List.length_drop, Nat.add_zero, Nat.reduceAdd,
    List.length_take, Nat.min_eq_left hk, e1]
  generalize a.getD 1 0 = fc at h ⊢
  by_cases h7 : 7 ≤ k
  · rw [e6 h7]
    generalize a.getD 6 0 = bc at h ⊢
    generalize a.length = n at h hk ⊢
    have hfc := fc.isLt
    split at h
    · simp at h
      subst h
      have h1 : (fc : Nat) % 128 = fc := by omega
      simp [h1]
      split_ifs <;> omega
    · split at h
      · simp at h
        subst h
        have h1 : (fc : Nat) % 128 = fc := by omega
        simp [h1]
        split_ifs <;> omega
      · simp at h
  · generalize (a.take k).getD 6 0 = bc6 at h ⊢
    generalize a.getD 6 0 = bc at h ⊢
    generalize a.length = n at h hk ⊢
    have hfc := fc.isLt
    split at h
    · simp at h
      subst h
      have h1 : (fc : Nat) % 128 = fc := by omega
      simp [h1]
      split_ifs <;> omega
    · split at h
      · simp at h
        subst h
        have h1 : (fc : Nat) % 128 = fc := by omega
        simp [h1]
        split_ifs <;> omega
      · simp at h

theorem predict_response (a : List Byte) (h : isResponseADU a = true) (k : Nat) (h4 : 4 ≤ k)
    (hk : k ≤ a.length) :
    GetRTUSizeFromHeader false (a.take k) true ≤ a.length ∧
      (GetRTUSizeFromHeader false (a.take k) true ≤ k →
        GetRTUSizeFromHeader false (a.take k) true = a.length) := by
  simp only [isResponseADU] at h
  have e1 : (a.take k).getD 1 0 = a.getD 1 0 := getD_take a k 1 0 (by omega)
  have e2 : (a.take k).getD 2 0 = a.getD 2 0 := getD_take a k 2 0 (by omega)
  simp only [GetRTUSizeFromHeader, GetPDUSizeFromHeader, FunctionCode.SeparateError,
    FunctionCode.Valid, FunctionCode.IsWriteToServer, FunctionCode.IsSingle,
    FunctionCode.IsUint16, getD_drop, List.length_drop, Nat.add_zero, Nat.reduceAdd,
    List.length_take, Nat.min_eq_left hk, e1, e2]
  generalize a.getD 1 0 = fc at h ⊢
  generalize a.getD 2 0 = bc at h ⊢
  generalize a.length = n at h hk ⊢
  have hfc := fc.isLt
  split at h
  · simp at h
    subst h
    have h1 : (fc : Nat) % 128 = fc := by omega
    simp [h1]
    split_ifs <;> omega
  · split at h
    · simp at h
      subst h
      have h1 : (fc : Nat) % 128 = fc := by omega
      simp [h1]
      split_ifs <;> omega
    · split at h
      · simp at h
        subst h
        simp
        split_ifs <;> omega
      · simp at h

theorem delivered_cons (c : TransportRead) (cs : List TransportRead) :
    delivered (c :: cs) = c.data ++ delivered cs := by
  simp [delivered]

theorem delivered_nil_of_nonempty (cs : List TransportRead)
    (hne : ∀ c ∈ cs, c.data ≠ [] ∧ c.err = none) (h : delivered cs = []) : cs = [] := by
  cases cs with
  | nil => rfl
  | cons c cs =>
    rw [delivered_cons] at h
    have := (hne c (List.mem_cons_self _ _)).1
    simp_all

theorem take_write (p a data tail : List Byte) (k : Nat) (hk : k ≤ p.length)
    (hp : p.take k = a.take k) (ha : a.drop k = data ++ tail) (q : List Byte) :
    (p.take k ++ data ++ q).take (k + data.length) = a.take (k + data.length) := by
  have hlen : (p.take k).length = k := by simp [hk]
  have h1 : (p.take k ++ data ++ q).take (k + data.length) = p.take k ++ data := by
    rw [List.append_assoc, List.take_append_eq_append_take]
    simp [hlen, hk]
  rw [h1, hp, List.take_add, ha]
  simp

theorem loop_wellformed (cutoff : Nat → Int) (isClient : Bool) (a : List Byte) (L : Nat)
    (hwf : ∀ k, 4 ≤ k → k ≤ a.length →
      GetRTUSizeFromHeader false (a.take k) isClient ≤ a.length ∧
        (GetRTUSizeFromHeader false (a.take k) isClient ≤ k →
          GetRTUSizeFromHeader false (a.take k) isClient = a.length))
    (hL : a.length ≤ L) (rest : List TransportRead) :
    ∀ (cs : List TransportRead) (fuel : Nat) (st : ReadState),
      cs.length + 1 ≤ fuel →
      st.p.length = L → st.read ≤ a.length → st.p.take st.read = a.take st.read →
      delivered cs = a.drop st.read →
      (∀ c ∈ cs, c.data ≠ [] ∧ c.err = none) →
      (if st.read = 0 then gapsWithin cutoff cs else gapsFrom cutoff st.s.lastReadAt cs) = true →
      st.s.last = [] → st.s.bidirectional = false → st.s.isClient = isClient →
      (4 ≤ st.expected ∨ 4 ≤ st.read) → st.expected ≤ a.length →
      (st.expected ≤ st.read → st.expected = a.length) →
      ∃ p1 at1, Read.loop false cutoff fuel (cs ++ rest) st =
          .returned a.length none
            { p := p1, s := { st.s with lastReadAt := at1 }, stats := st.stats, rest := rest } ∧
        p1.take a.length = a ∧ p1.length = L := by
  intro cs
  induction cs with
  | nil =>
    intro fuel st hfuel hpL hrd hp hdel _ _ hlast hbi hcl h4 hexp hinv
    obtain ⟨fuel, rfl⟩ : ∃ f, fuel = f + 1 := ⟨fuel - 1, by simp at hfuel; omega⟩
    have hrN : st.read = a.length := by
      have : (a.drop st.read).length = 0 := by rw [← hdel]; simp [delivered]
      simp at this
      omega
    have heq : st.expected = a.length := hinv (by omega)
    refine ⟨st.p, st.s.lastReadAt, ?_, ?_, hpL⟩
    · simp [Read.loop, Read.finish, hrN, heq]
    · rw [← hrN, hp, hrN]; simp
  | cons c cs ih =>
    intro fuel st hfuel hpL hrd hp hdel hne hgap hlast hbi hcl h4 hexp hinv
    subst hcl
    obtain ⟨fuel, rfl⟩ : ∃ f, fuel = f + 1 := ⟨fuel - 1, by simp at hfuel; omega⟩
    have hc := hne c (List.mem_cons_self _ _)
    have hnpos : 0 < c.data.length := List.length_pos.mpr hc.1
    rw [delivered_cons] at hdel
    have hlen : c.data.length + (delivered cs).length = a.length - st.read := by
      have := congrArg List.length hdel
      simpa using this
    have hlt : st.read < st.expected := by
      by_contra hcon
      have := hinv (by omega)
      omega
    have hnocut : ¬ (st.read ≠ 0 ∧ c.now - st.s.lastReadAt > cutoff c.data.length) := by
      rintro ⟨h0, hg⟩
      simp [h0, gapsFrom] at hgap
      omega
    have hgap1 : gapsFrom cutoff c.now cs = true := by
      by_cases h0 : st.read = 0
      · simpa [h0, gapsWithin] using hgap
      · simp [h0, gapsFrom] at hgap
        exact hgap.2
    have hp1 : (st.p.take st.read ++ c.data ++ st.p.drop (st.read + c.data.length)).take
        (st.read + c.data.length) = a.take (st.read + c.data.length) :=
      take_write st.p a c.data (delivered cs) st.read (by omega) hp hdel.symm _
    have hlen1 : (st.p.take st.read ++ c.data ++ st.p.drop (st.read + c.data.length)).length
        = L := by
      simp
      omega
    have hdel1 : delivered cs = a.drop (st.read + c.data.length) := by
      rw [← List.drop_drop, ← hdel]
      simp
    have hbody : Read.body false cutoff st (c :: (cs ++ rest)) =
        if st.read + c.data.length = L then
          .done (.returned (st.read + c.data.length) none
            { p := st.p.take st.read ++ c.data ++ st.p.drop (st.read + c.data.length)
              s := { st.s with lastReadAt := c.now }, stats := st.stats, rest := cs ++ rest })
        else
          Read.more false
            { st with p := st.p.take st.read ++ c.data ++ st.p.drop (st.read + c.data.length),
                      read := st.read + c.data.length,
                      s := { st.s with lastReadAt := c.now } } (cs ++ rest) := by
      have hfit : ¬ (st.p.length < st.read + c.data.length) := by omega
      simp only [Read.body, hlast, List.length_nil, ne_eq, not_true_eq_false, if_false, hfit,
        hnocut, hc.2, false_or, hlen1]
    have hne1 : ∀ x ∈ cs, x.data ≠ [] ∧ x.err = none :=
      fun x hx => hne x (List.mem_cons_of_mem _ hx)
    have hloop : Read.loop false cutoff (fuel + 1) (c :: cs ++ rest) st =
        match Read.body false cutoff st (c :: (cs ++ rest)) with
        | .next st1 rest1 => Read.loop false cutoff fuel rest1 st1
        | .done r => r := by
      simp only [List.cons_append, Read.loop, hlt, if_true]
    rw [hloop, hbody]
    have hpos : st.read + c.data.length ≠ 0 := by omega
    by_cases hfull : st.read + c.data.length = L
    · have hN : st.read + c.data.length = a.length := by omega
      have hcs : cs = [] :=
        delivered_nil_of_nonempty cs hne1 (by rw [hdel1, hN]; simp)
      subst hcs
      refine ⟨_, c.now, ?_, ?_, hlen1⟩
      · rw [if_pos hfull]; simp [hN]
      · rw [← hN, hp1]; simp [hN]
    · simp only [hfull, if_false]
      by_cases hmore : st.read + c.data.length < st.expected
      · simp only [Read.more, hmore, if_true]
        obtain ⟨p1, at1, h1, h2, h3⟩ := ih fuel
          { st with p := st.p.take st.read ++ c.data ++ st.p.drop (st.read + c.data.length),
                    read := st.read + c.data.length,
                    s := { st.s with lastReadAt := c.now } }
          (by simpa using hfuel) hlen1 (by simp; omega) hp1 hdel1 hne1
          (by simp [hpos, hgap1]) hlast hbi rfl (by simp; omega) hexp
          (by intro h; simp at h; omega)
        exact ⟨p1, at1, h1, h2, h3⟩
      · have h4k : 4 ≤ st.read + c.data.length := by omega
        have hpred := hwf (st.read + c.data.length) h4k (by omega)
        have hm : Read.more false
            { st with p := st.p.take st.read ++ c.data ++ st.p.drop (st.read + c.data.length),
                      read := st.read + c.data.length,
                      s := { st.s with lastReadAt := c.now } } (cs ++ rest) =
            .next
              { st with p := st.p.take st.read ++ c.data ++ st.p.drop (st.read + c.data.length),
                        read := st.read + c.data.length,
                        s := { st.s with lastReadAt := c.now },
                        expected := GetRTUSizeFromHeader false
                          (a.take (st.read + c.data.length)) st.s.isClient } (cs ++ rest) := by
          simp only [Read.more, hmore, if_false, hbi, Bool.false_eq_true, hp1]
        rw [hm]
        obtain ⟨p1, at1, h1, h2, h3⟩ := ih fuel
          { st with p := st.p.take st.read ++ c.data ++ st.p.drop (st.read + c.data.length),
                    read := st.read + c.data.length,
                    s := { st.s with lastReadAt := c.now },
                    expected := GetRTUSizeFromHeader false
                      (a.take (st.read + c.data.length)) st.s.isClient }
          (by simpa using hfuel) hlen1 (by simp; omega) hp1 hdel1 hne1
          (by simp [hpos, hgap1]) hlast hbi rfl (Or.inr h4k) hpred.1 hpred.2
        exact ⟨p1, at1, h1, h2, h3⟩

theorem more_next (OverSizeSupport : Bool) (st : ReadState) (rest : List TransportRead) :
    ∃ e, Read.more OverSizeSupport st rest = .next { st with expected := e } rest := by
  unfold Read.more
  split
  · exact ⟨st.expected, rfl⟩
  · split
    · exact ⟨_, rfl⟩
    · exact ⟨_, rfl⟩

theorem body_fuel (OverSizeSupport : Bool) (cutoff : Nat → Int) (st : ReadState)
    (script : List TransportRead) :
    (∀ st1 rest1, Read.body OverSizeSupport cutoff st script = .next st1 rest1 →
      st1.s.last = [] ∧
        rest1.length + (if st.s.last = [] then 2 else 1) ≤ script.length + 1) ∧
    (∀ r, Read.body OverSizeSupport cutoff st script = .done r → r ≠ .outOfFuel) := by
  unfold Read.body
  split
  · rename_i hl
    have hl1 : st.s.last ≠ [] := by
      intro h0
      simp [h0] at hl
    obtain ⟨e, he⟩ := more_next OverSizeSupport
      { st with p := st.s.last.take (min st.p.length st.s.last.length) ++
                  st.p.drop (min st.p.length st.s.last.length),
                read := st.read + min st.p.length st.s.last.length,
                s := { st.s with last := [] } } script
    rw [he]
    refine ⟨fun st1 rest1 h => ?_, fun r h => by simp at h⟩
    simp only [ReadStep.next.injEq] at h
    obtain ⟨h1, h2⟩ := h
    subst h1 h2
    simp [hl1]
  · rename_i hl
    have hl1 : st.s.last = [] := by simpa using hl
    cases script with
    | nil =>
      refine ⟨fun st1 rest1 h => by simp at h, fun r h => ?_⟩
      simp only [ReadStep.done.injEq] at h
      subst h
      simp
    | cons t rest =>
      simp only
      split
      · refine ⟨fun st1 rest1 h => by simp at h, fun r h => ?_⟩
        simp only [ReadStep.done.injEq] at h
        subst h
        simp
      · split
        · refine ⟨fun st1 rest1 h => by simp at h, fun r h => ?_⟩
          simp only [ReadStep.done.injEq] at h
          subst h
          simp
        · split
          · refine ⟨fun st1 rest1 h => by simp at h, fun r h => ?_⟩
            simp only [ReadStep.done.injEq] at h
            subst h
            simp
          · obtain ⟨e, he⟩ := more_next OverSizeSupport
              { st with p := st.p.take st.read ++ t.data ++ st.p.drop (st.read + t.data.length),
                        read := st.read + t.data.length,
                        s := { st.s with lastReadAt := t.now } } rest
            rw [he]
            refine ⟨fun st1 rest1 h => ?_, fun r h => by simp at h⟩
            simp only [ReadStep.next.injEq] at h
            obtain ⟨h1, h2⟩ := h
            subst h1 h2
            simp [hl1]

theorem finish_ne_outOfFuel (st : ReadState) (rest : List TransportRead) :
    Read.finish st rest ≠ .outOfFuel := by
  unfold Read.finish
  split
  · split
    · simp
    · split <;> simp
  · simp

theorem loop_fuel (OverSizeSupport : Bool) (cutoff : Nat → Int) :
    ∀ (fuel : Nat) (script : List TransportRead) (st : ReadState),
      script.length + (if st.s.last = [] then 1 else 2) ≤ fuel →
      Read.loop OverSizeSupport cutoff fuel script st ≠ .outOfFuel := by
  intro fuel
  induction fuel with
  | zero =>
    intro script st h
    split at h <;> omega
  | succ fuel ih =>
    intro script st h
    obtain ⟨hnext, hdone⟩ := body_fuel OverSizeSupport cutoff st script
    by_cases hlt : st.read < st.expected
    · cases hb : Read.body OverSizeSupport cutoff st script with
      | next st1 rest1 =>
        obtain ⟨h1, h2⟩ := hnext st1 rest1 hb
        have : Read.loop OverSizeSupport cutoff (fuel + 1) script st =
            Read.loop OverSizeSupport cutoff fuel rest1 st1 := by
          simp only [Read.loop, hlt, if_true, hb]
        rw [this]
        apply ih
        rw [if_pos h1]
        split at h <;> split at h2 <;> simp_all <;> omega
      | done r =>
        have : Read.loop OverSizeSupport cutoff (fuel + 1) script st = r := by
          simp only [Read.loop, hlt, if_true, hb]
        rw [this]
        exact hdone r hb
    · have : Read.loop OverSizeSupport cutoff (fuel + 1) script st = Read.finish st script := by
        simp only [Read.loop, hlt, if_false]
      rw [this]
      exact finish_ne_outOfFuel st script

theorem Read_ne_outOfFuel (OverSizeSupport : Bool) (cutoff : Nat → Int) (s : rtuPacketReader)
    (stats : Stats) (p : List Byte) (script : List TransportRead) :
    rtuPacketReader.Read OverSizeSupport cutoff s stats p script ≠ .outOfFuel := by
  unfold rtuPacketReader.Read
  exact loop_fuel OverSizeSupport cutoff _ _ _ (by simp only; split <;> omega)

theorem length_of_wellformed (isClient : Bool) (a : List Byte)
    (h : (if isClient then isResponseADU a else isRequestADU a) = true) : 4 ≤ a.length := by
  cases isClient
  · simp only [Bool.false_eq_true, if_false, isRequestADU] at h
    split at h
    · simp at h; omega
    · split at h
      · simp at h; omega
      · simp at h
  · simp only [if_true, isResponseADU] at h
    split at h
    · simp at h; omega
    · split at h
      · simp at h; omega
      · split at h
        · simp at h; omega
        · simp at h

/-- C1: with `OverSizeSupport` off, the size predictor returns the true length of
every well-formed frame: `GetRTUSizeFromHeader(req, false) = len(req)` for every
request ADU `[id, fc, 4 bytes, crc]` (fc 1..6) or `[id, fc, addr, qty, bc, bc data
bytes, crc]` (fc 15, 16), and `GetRTUSizeFromHeader(res, true) = len(res)` for every
response ADU `[id, fc, bc, bc data bytes, crc]` (fc 1..4), `[id, fc, 4 bytes, crc]`
(fc 5, 6, 15, 16) or exception reply `[id, fc|0x80, code, crc]`. -/
theorem GetRTUSizeFromHeader_wellformed_frame (isClient : Bool) (a : List Byte)
    (h : (if isClient then isResponseADU a else isRequestADU a) = true) :
    GetRTUSizeFromHeader false a isClient = a.length := by
  cases isClient
  · exact size_request a (by simpa using h)
  · exact size_response a (by simpa using h)

theorem GetRTUSizeFromHeader_wellformed_frame_witness :
    GetRTUSizeFromHeader false
        [0x11, 0x10, 0x00, 0x01, 0x00, 0x02, 0x04, 0x00, 0x0A, 0x01, 0x02, 0xC6, 0xF0] false = 13 ∧
      GetRTUSizeFromHeader false
        [0x11, 0x01, 0x05, 0xCD, 0x6B, 0xB2, 0x0E, 0x1B, 0x45, 0xE6] true = 10 :=
  ⟨GetRTUSizeFromHeader_wellformed_frame false
      [0x11, 0x10, 0x00, 0x01, 0x00, 0x02, 0x04, 0x00, 0x0A, 0x01, 0x02, 0xC6, 0xF0] (by decide),
    GetRTUSizeFromHeader_wellformed_frame true
      [0x11, 0x01, 0x05, 0xCD, 0x6B, 0xB2, 0x0E, 0x1B, 0x45, 0xE6] (by decide)⟩

/-- C2: one `Read` call returns exactly one ADU. For a packet reader in server mode
(resp. client mode) with an empty stash and `OverSizeSupport` off, every well-formed
request (resp. response) ADU `a` with `len(a) <= len(p)`, delivered as consecutive
non-empty transport reads with nil error and no inter-read gap above the cutoff:
`Read` returns `(len(a), nil)` with `p[:len(a)] = a`, the stash stays empty, the
transport reads after the last byte of `a` are not made (`rest` is left), and no
counter other than `ReadPackets` changes. -/
theorem Read_returns_one_ADU (cutoff : Nat → Int) (s : rtuPacketReader) (stats : Stats)
    (p a : List Byte) (chunks rest : List TransportRead)
    (hbi : s.bidirectional = false) (hstash : s.last = [])
    (hwf : (if s.isClient then isResponseADU a else isRequestADU a) = true)
    (hlen : a.length ≤ p.length)
    (hdel : delivered chunks = a)
    (hchunks : ∀ c ∈ chunks, c.data ≠ [] ∧ c.err = none)
    (hgaps : gapsWithin cutoff chunks = true) :
    ∃ p1 at1, rtuPacketReader.Read false cutoff s stats p (chunks ++ rest) =
        .returned a.length none
          { p := p1
            s := { isClient := s.isClient, bidirectional := false, last := [], lastReadAt := at1 }
            stats := { stats with ReadPackets := stats.ReadPackets + 1 }
            rest := rest } ∧
      p1.take a.length = a ∧ p1.length = p.length := by
  have h4 := length_of_wellformed s.isClient a hwf
  have hpred : ∀ k, 4 ≤ k → k ≤ a.length →
      GetRTUSizeFromHeader false (a.take k) s.isClient ≤ a.length ∧
        (GetRTUSizeFromHeader false (a.take k) s.isClient ≤ k →
          GetRTUSizeFromHeader false (a.take k) s.isClient = a.length) := by
    intro k hk4 hk
    cases hc : s.isClient
    · exact predict_request a (by simpa [hc] using hwf) k hk4 hk
    · exact predict_response a (by simpa [hc] using hwf) k hk4 hk
  obtain ⟨p1, at1, h1, h2, h3⟩ := loop_wellformed cutoff s.isClient a p.length hpred hlen rest
    chunks ((chunks ++ rest).length + 2)
    { p := p, read := 0, expected := smallestRTUSize, s := s,
      stats := { stats with ReadPackets := stats.ReadPackets + 1 } }
    (by simp; omega) rfl (by simp) (by simp) (by simpa using hdel) hchunks
    (by simpa using hgaps) hstash hbi rfl (Or.inl (by simp [smallestRTUSize]))
    (by simpa [smallestRTUSize] using h4) (by simp [smallestRTUSize])
  refine ⟨p1, at1, ?_, h2, h3⟩
  rw [rtuPacketReader.Read, h1]
  simp [hbi, hstash]

theorem Read_returns_one_ADU_witness :
    ∃ p1 at1, rtuPacketReader.Read false (fun _ => 10) serverReader zeroStats
        (List.replicate 16 0) (twoChunks ++ [⟨[0x01], none, 9⟩]) =
        .returned 8 none
          { p := p1
            s := { isClient := false, bidirectional := false, last := [], lastReadAt := at1 }
            stats := { zeroStats with ReadPackets := 0 + 1 }
            rest := [⟨[0x01], none, 9⟩] } ∧
      p1.take 8 = writeSingleRequest ∧ p1.length = 16 :=
  Read_returns_one_ADU (fun _ => 10) serverReader zeroStats (List.replicate 16 0)
    writeSingleRequest twoChunks [⟨[0x01], none, 9⟩] (by decide) (by decide) (by decide)
    (by decide) (by decide) (by decide) (by decide)

/-- C3: when the accumulation loop of `Read` ends with `read > expected`, exactly one
of three outcomes occurs. If `crc.Validate(p[:expected])` holds, `Read` returns
`(expected, nil)`, the stash becomes exactly `p[expected:read]` and
`LongReadWarnings` increases by one while `FormateWarnings` is unchanged. Otherwise,
if `crc.Validate(p[:read])` holds, `Read` returns `(read, nil)` and `FormateWarnings`
increases by one. Otherwise `Read` returns `(read, nil)` and neither warning counter
changes. -/
theorem Read_long_read_outcomes (OverSizeSupport : Bool) (cutoff : Nat → Int) (fuel : Nat)
    (script : List TransportRead) (st : ReadState) (h : st.expected < st.read) :
    Read.loop OverSizeSupport cutoff (fuel + 1) script st =
      if crc.Validate (st.p.take st.expected) = true then
        .returned st.expected none
          { p := st.p
            s := { st.s with last := (st.p.drop st.expected).take (st.read - st.expected) }
            stats := { st.stats with LongReadWarnings := st.stats.LongReadWarnings + 1 }
            rest := script }
      else if crc.Validate (st.p.take st.read) = true then
        .returned st.read none
          { p := st.p, s := st.s,
            stats := { st.stats with FormateWarnings := st.stats.FormateWarnings + 1 },
            rest := script }
      else .returned st.read none { p := st.p, s := st.s, stats := st.stats, rest := script } := by
  have hnot : ¬ st.read < st.expected := by omega
  simp only [Read.loop, hnot, if_false, Read.finish, gt_iff_lt, h, if_true, List.drop_take]

set_option maxRecDepth 100000 in
theorem Read_long_read_outcomes_witness :
    longReadState.expected < longReadState.read ∧
      Read.loop false (fun _ => 10) 1 [] longReadState =
        .returned 8 none
          { p := longReadState.p
            s := { serverReader with last := [0x11], lastReadAt := 5 }
            stats := { zeroStats with ReadPackets := 1, LongReadWarnings := 1 }
            rest := [] } :=
  ⟨by decide, (Read_long_read_outcomes false (fun _ => 10) 0 [] longReadState
    (by decide)).trans (by decide)⟩

/-- C4: timing cutoff in `Read`. Whenever a transport read delivers `n` bytes while
`read > 0` bytes are already accumulated and the time since the previous transport
read exceeds the packet cutoff duration for `n`, `Read` returns the previously
accumulated `read` bytes (the buffer below `read` is untouched) together with the
transport read's error value, the stash becomes exactly those `n` new bytes, and
`OtherDrops` increases by exactly one. When no bytes are accumulated yet (`read = 0`)
the cutoff is not applied: the bytes are accumulated, no counter changes, and the
pass through the loop body does not depend on the cutoff duration or on the time of
the previous read. -/
theorem Read_timing_cutoff (OverSizeSupport : Bool) (cutoff : Nat → Int) (fuel : Nat)
    (st : ReadState) (t : TransportRead) (rest : List TransportRead)
    (hloop : st.read < st.expected) (hstash : st.s.last = [])
    (hfit : st.read + t.data.length ≤ st.p.length) :
    (st.read ≠ 0 → t.now - st.s.lastReadAt > cutoff t.data.length →
      ∃ p1, Read.loop OverSizeSupport cutoff (fuel + 1) (t :: rest) st =
          .returned st.read t.err
            { p := p1
              s := { st.s with last := t.data, lastReadAt := t.now }
              stats := { st.stats with OtherDrops := st.stats.OtherDrops + 1 }
              rest := rest } ∧
        p1.take st.read = st.p.take st.read ∧ p1.length = st.p.length) ∧
    (st.read = 0 →
      Read.body OverSizeSupport cutoff st (t :: rest) =
        (if t.err ≠ none ∨ t.data.length = st.p.length then
          .done (.returned t.data.length t.err
            { p := t.data ++ st.p.drop t.data.length
              s := { st.s with lastReadAt := t.now }, stats := st.stats, rest := rest })
        else
          Read.more OverSizeSupport
            { st with p := t.data ++ st.p.drop t.data.length, read := t.data.length,
                      s := { st.s with lastReadAt := t.now } } rest) ∧
      ∀ (cutoff1 : Nat → Int) (lastReadAt1 : Int),
        Read.body OverSizeSupport cutoff1
            { st with s := { st.s with lastReadAt := lastReadAt1 } } (t :: rest) =
          Read.body OverSizeSupport cutoff st (t :: rest)) := by
  have hfit1 : ¬ (st.p.length < st.read + t.data.length) := by omega
  refine ⟨fun h0 hgap => ?_, fun h0 => ⟨?_, fun cutoff1 lastReadAt1 => ?_⟩⟩
  · refine ⟨st.p.take st.read ++ t.data ++ st.p.drop (st.read + t.data.length), ?_, ?_, ?_⟩
    · have hc : st.read ≠ 0 ∧ t.now - st.s.lastReadAt > cutoff t.data.length := ⟨h0, hgap⟩
      have hlen : (st.p.take st.read).length = st.read := by simp; omega
      simp only [Read.loop, hloop, if_true, Read.body, hstash, List.length_nil, ne_eq,
        not_true_eq_false, if_false, hfit1, hc, and_self, List.append_assoc,
        List.drop_append_eq_append_drop, hlen, Nat.sub_self, List.drop_zero]
      simp [List.drop_eq_nil_of_le, hlen]
    · rw [List.append_assoc, List.take_append_of_le_length (by simp; omega)]
      simp
    · simp; omega
  · have hfit2 : ¬ (st.p.length < t.data.length) := by omega
    simp only [Read.body, hstash, List.length_nil, ne_eq, not_true_eq_false, if_false, hfit2,
      h0, false_and, List.take_zero, List.nil_append, Nat.zero_add, List.length_append,
      List.length_drop]
    have : t.data.length + (st.p.length - t.data.length) = st.p.length := by omega
    simp only [this]
  · simp only [Read.body, hstash, List.length_nil, ne_eq, not_true_eq_false, if_false, hfit1,
      h0, false_and]

theorem Read_timing_cutoff_witness :
    ∃ p1, Read.loop false (fun _ => 10) 1
          [⟨[0x01, 0x00, 0x03, 0x9A, 0x9B], some (Error.other 1), 37⟩] threeBytesState =
          .returned 3 (some (Error.other 1))
            { p := p1
              s := { serverReader with last := [0x01, 0x00, 0x03, 0x9A, 0x9B], lastReadAt := 37 }
              stats := { zeroStats with ReadPackets := 1, OtherDrops := 0 + 1 }
              rest := [] } ∧
        p1.take 3 = [0x11, 0x06, 0x00] ∧ p1.length = 16 :=
  (Read_timing_cutoff false (fun _ => 10) 0 threeBytesState
    ⟨[0x01, 0x00, 0x03, 0x9A, 0x9B], some (Error.other 1), 37⟩ [] (by decide) (by decide)
    (by decide)).1 (by decide) (by decide)


theorem wp_events {W : Type} (lib : Lib) (env : Env W) (delay : Int) (h : Handled W) (pdu : PDU)
    (slaveId : Byte) :
    (Serve.wp lib env delay h pdu slaveId).events =
      h.events ++ (if slaveId = 0 then []
        else [.Sleep delay, .Write (lib.MakeRTU slaveId pdu)
          (env.Write h.w (lib.MakeRTU slaveId pdu)).2]) := by
  unfold Serve.wp
  split <;> simp

theorem handle_calls {W : Type} (lib : Lib) (s : RTUServer W) (delay : Int) (w : W)
    (stats : Stats) (r : RTU) (h : Handled W)
    (hh : Serve.handle lib s delay w stats r = some h) :
    (∀ p, Event.OnRead p ∈ h.events →
      lib.GetPDU r = .ok p ∧ (r.head? = some 0 ∨ r.head? = some s.SlaveID) ∧
        lib.ValidateRequest p = none ∧ lib.IsReadToServer (lib.GetFunctionCode p) = true) ∧
    (∀ p v, Event.OnWrite p v ∈ h.events →
      lib.GetPDU r = .ok p ∧ (r.head? = some 0 ∨ r.head? = some s.SlaveID) ∧
        lib.ValidateRequest p = none ∧ lib.IsWriteToServer (lib.GetFunctionCode p) = true ∧
        lib.GetRequestValues p = .ok v) ∧
    (h.events.filter Event.isHandlerCall).length ≤ 1 := by
  unfold Serve.handle at hh
  split at hh
  · split at hh <;> (cases hh; simp)
  · rename_i p hp
    split at hh
    · simp at hh
    · rename_i r0 tl
      split at hh
      · cases hh; simp
      · rename_i hid
        have hid1 : r0 = 0 ∨ r0 = s.SlaveID := by
          by_cases h0 : r0 = 0
          · exact Or.inl h0
          · right
            by_contra h1
            exact hid ⟨h0, h1⟩
        split at hh
        · cases hh
          simp only [Serve.wec, wp_events]
          split <;> simp [Event.isHandlerCall]
        · rename_i hv
          simp only at hh
          split at hh
          · rename_i hrd
            split at hh
            · cases hh
              simp only [Serve.wec, wp_events]
              split <;> simp [Event.isHandlerCall, hv, hrd, hid1, hp]
            · cases hh
              simp only [wp_events]
              split <;> simp [Event.isHandlerCall, hv, hrd, hid1, hp]
          · split at hh
            · rename_i hwr
              split at hh
              · cases hh
                simp only [Serve.wec, wp_events]
                split <;> simp [Event.isHandlerCall]
              · rename_i data hg
                split at hh
                · cases hh
                  simp only [Serve.wec, wp_events]
                  split <;> simp [Event.isHandlerCall, hv, hwr, hid1, hg, hp]
                · cases hh
                  simp only [wp_events]
                  split <;> simp [Event.isHandlerCall, hv, hwr, hid1, hg, hp]
            · cases hh; simp

theorem loop_rounds {W : Type} (lib : Lib) (s : RTUServer W) (delay : Int) :
    ∀ (fuel : Nat) (w : W) (stats : Stats) (rb : List Byte) (ioErr : Option Error),
      ∀ round ∈ (Serve.loop lib s delay fuel w stats rb ioErr).rounds,
        round.events = [] ∨ ∃ w1 stats1 h, round.err = none ∧
          Serve.handle lib s delay w1 stats1 round.frame = some h ∧ round.events = h.events := by
  intro fuel
  induction fuel with
  | zero =>
    intro w stats rb ioErr round hr
    cases ioErr <;> simp [Serve.loop] at hr
  | succ fuel ih =>
    intro w stats rb ioErr round hr
    cases ioErr with
    | some e => simp [Serve.loop] at hr
    | none =>
      simp only [Serve.loop] at hr
      split at hr
      · simp at hr
      · rename_i pr _
        split at hr
        · simp at hr
          subst hr
          exact Or.inl rfl
        · split at hr
          · simp at hr
          · split at hr
            · simp at hr
              subst hr
              exact Or.inl rfl
            · rename_i h hh
              simp only [List.mem_cons] at hr
              rcases hr with hr | hr
              · subst hr
                exact Or.inr ⟨pr.w, pr.stats, h, rfl, hh, rfl⟩
              · exact ih _ _ _ _ round hr

/-- C5: nothing reaches the handler unvalidated. In every run of `Serve`, for every
pass of the loop with frame `r`: `OnRead` or `OnWrite` is invoked only if `GetPDU`
succeeded on `r`, `r[0]` is 0 or the server's `SlaveID`, and `ValidateRequest`
returned no error; `OnRead` only when the function code `IsReadToServer`, `OnWrite`
only when it `IsWriteToServer` and `GetRequestValues` succeeded; and at most one
handler method is invoked per frame. -/
theorem Serve_handler_only_validated {W : Type} (lib : Lib) (OverSizeSupport : Bool)
    (OverSizeMaxRTU : Nat) (s : RTUServer W) (fuel : Nat) (w : W) (stats : Stats) :
    ∀ round ∈ (RTUServer.Serve lib OverSizeSupport OverSizeMaxRTU s fuel w stats).rounds,
      (∀ p, Event.OnRead p ∈ round.events →
        lib.GetPDU round.frame = .ok p ∧
          (round.frame.head? = some 0 ∨ round.frame.head? = some s.SlaveID) ∧
          lib.ValidateRequest p = none ∧ lib.IsReadToServer (lib.GetFunctionCode p) = true) ∧
      (∀ p v, Event.OnWrite p v ∈ round.events →
        lib.GetPDU round.frame = .ok p ∧
          (round.frame.head? = some 0 ∨ round.frame.head? = some s.SlaveID) ∧
          lib.ValidateRequest p = none ∧ lib.IsWriteToServer (lib.GetFunctionCode p) = true ∧
          lib.GetRequestValues p = .ok v) ∧
      (round.events.filter Event.isHandlerCall).length ≤ 1 := by
  intro round hr
  rcases loop_rounds lib s _ fuel w stats _ none round hr with h0 | ⟨w1, stats1, h, _, hh, he⟩
  · simp [h0]
  · rw [he]
    exact handle_calls lib s _ w1 stats1 round.frame h hh


set_option maxRecDepth 100000 in
theorem Serve_handler_only_validated_witness :
    sampleRound ∈ (RTUServer.Serve (specLib false) false 512 sampleServer 2 sampleWorld zeroStats).rounds ∧
    (∀ p v, Event.OnWrite p v ∈ sampleRound.events →
      RTU.GetPDU sampleRound.frame = .ok p ∧
        (sampleRound.frame.head? = some 0 ∨ sampleRound.frame.head? = some 0x11) ∧
        PDU.ValidateRequest false p = none ∧
        FunctionCode.IsWriteToServer (PDU.GetFunctionCode p) = true ∧
        PDU.GetRequestValues p = .ok v) :=
  have hmem : sampleRound ∈
      (RTUServer.Serve (specLib false) false 512 sampleServer 2 sampleWorld zeroStats).rounds :=
    (by decide : (RTUServer.Serve (specLib false) false 512 sampleServer 2 sampleWorld zeroStats).rounds
      = [sampleRound]) ▸ List.mem_singleton_self sampleRound
  ⟨hmem, (Serve_handler_only_validated (specLib false) false 512 sampleServer 2 sampleWorld zeroStats
    sampleRound hmem).2.1⟩

/-- C6: server drop accounting. For every frame `r = rb[:n]` that the packet read
returns without error: if `GetPDU` fails with `ErrorCrc` then `CrcErrors` increases by
exactly one; if it fails with any other error then `OtherErrors` increases by exactly
one; if it succeeds and `r[0]` is neither 0 nor `SlaveID` then `IDDrops` increases by
exactly one. In all three cases no other counter changes, the pass has no event
(nothing is written, no handler method is invoked), the world is the one the packet
read left, and `Serve` goes on with the loop condition true (`ioErr` nil), that is,
to the next packet read. -/
theorem Serve_drop_accounting {W : Type} (lib : Lib) (s : RTUServer W) (delay : Int)
    (fuel : Nat) (w : W) (stats : Stats) (rb : List Byte) (pr : PacketRead W)
    (hread : s.env.Read w stats rb = some pr) (herr : pr.err = none)
    (hn : pr.n ≤ pr.rb.length) :
    (lib.GetPDU (pr.rb.take pr.n) = .error Error.ErrorCrc →
      Serve.loop lib s delay (fuel + 1) w stats rb none =
        let next := Serve.loop lib s delay fuel pr.w
          { pr.stats with CrcErrors := pr.stats.CrcErrors + 1 } pr.rb none
        { next with rounds :=
            { frame := pr.rb.take pr.n, err := none, events := [] } :: next.rounds }) ∧
    (∀ e, lib.GetPDU (pr.rb.take pr.n) = .error e → e ≠ Error.ErrorCrc →
      Serve.loop lib s delay (fuel + 1) w stats rb none =
        let next := Serve.loop lib s delay fuel pr.w
          { pr.stats with OtherErrors := pr.stats.OtherErrors + 1 } pr.rb none
        { next with rounds :=
            { frame := pr.rb.take pr.n, err := none, events := [] } :: next.rounds }) ∧
    (∀ p r0, lib.GetPDU (pr.rb.take pr.n) = .ok p → (pr.rb.take pr.n).head? = some r0 →
      r0 ≠ 0 → r0 ≠ s.SlaveID →
      Serve.loop lib s delay (fuel + 1) w stats rb none =
        let next := Serve.loop lib s delay fuel pr.w
          { pr.stats with IDDrops := pr.stats.IDDrops + 1 } pr.rb none
        { next with rounds :=
            { frame := pr.rb.take pr.n, err := none, events := [] } :: next.rounds }) := by
  have hn1 : ¬ pr.rb.length < pr.n := by omega
  refine ⟨fun hg => ?_, fun e hg he => ?_, fun p r0 hg hhead h0 h1 => ?_⟩
  · simp [Serve.loop, hread, herr, hn1, Serve.handle, hg]
  · simp [Serve.loop, hread, herr, hn1, Serve.handle, hg, he]
  · cases hr : pr.rb.take pr.n with
    | nil => simp [hr] at hhead
    | cons a tl =>
      simp only [hr, List.head?_cons, Option.some.injEq] at hhead hg
      subst hhead
      simp [Serve.loop, hread, herr, hn1, Serve.handle, hr, hg, h0, h1]

set_option maxRecDepth 100000 in
theorem Serve_drop_accounting_witness :
    Serve.loop (specLib false) sampleServer 1750000 (1 + 1) badCrcWorld zeroStats (List.replicate 16 0)
        none =
      { rounds := [{ frame := [0x11, 0x06, 0x00, 0x01, 0x00, 0x03, 0x9A, 0x9C], err := none,
                     events := [] }],
        w := badCrcRead.w,
        stats := { zeroStats with ReadPackets := 1, CrcErrors := 1 },
        result := .blocked } :=
  ((Serve_drop_accounting (specLib false) sampleServer 1750000 1 badCrcWorld zeroStats
    (List.replicate 16 0) badCrcRead (by decide) (by decide) (by decide)).1 (by rfl)).trans
    (by rfl)

/-- C7: errors become exception replies. For every frame addressed to the server's
own non-zero `SlaveID` whose PDU `p` `GetPDU` accepts, if `ValidateRequest(p)`,
`handler.OnRead(p)`, `GetRequestValues(p)` or `handler.OnWrite(p, values)` returns an
error `err` (the first of these that `Serve` calls and that fails), then `Serve`
increments `OtherErrors` by exactly one and changes no other counter, and transmits
exactly one ADU, `MakeRTU(SlaveID, ExceptionReplyPacket(p, ToExceptionCode(err)))`,
after the sleep, and no normal reply. -/
theorem Serve_errors_become_exception_replies {W : Type} (lib : Lib) (s : RTUServer W)
    (delay : Int) (w : W) (stats : Stats) (tl : List Byte) (p : PDU) (hid : s.SlaveID ≠ 0)
    (hget : lib.GetPDU (s.SlaveID :: tl) = .ok p) :
    (∀ err, lib.ValidateRequest p = some err →
      Serve.handle lib s delay w stats (s.SlaveID :: tl) =
        let adu := lib.MakeRTU s.SlaveID (lib.ExceptionReplyPacket p (lib.ToExceptionCode err))
        some { w := (s.env.Write w adu).1
               stats := { stats with OtherErrors := stats.OtherErrors + 1 }
               events := [.Sleep delay, .Write adu (s.env.Write w adu).2]
               ioErr := (s.env.Write w adu).2 }) ∧
    (∀ err, lib.ValidateRequest p = none → lib.IsReadToServer (lib.GetFunctionCode p) = true →
      (s.env.OnRead w p).2 = .error err →
      Serve.handle lib s delay w stats (s.SlaveID :: tl) =
        let adu := lib.MakeRTU s.SlaveID (lib.ExceptionReplyPacket p (lib.ToExceptionCode err))
        let w1 := (s.env.OnRead w p).1
        some { w := (s.env.Write w1 adu).1
               stats := { stats with OtherErrors := stats.OtherErrors + 1 }
               events := [.OnRead p, .Sleep delay, .Write adu (s.env.Write w1 adu).2]
               ioErr := (s.env.Write w1 adu).2 }) ∧
    (∀ err, lib.ValidateRequest p = none → lib.IsReadToServer (lib.GetFunctionCode p) = false →
      lib.IsWriteToServer (lib.GetFunctionCode p) = true →
      lib.GetRequestValues p = .error err →
      Serve.handle lib s delay w stats (s.SlaveID :: tl) =
        let adu := lib.MakeRTU s.SlaveID (lib.ExceptionReplyPacket p (lib.ToExceptionCode err))
        some { w := (s.env.Write w adu).1
               stats := { stats with OtherErrors := stats.OtherErrors + 1 }
               events := [.Sleep delay, .Write adu (s.env.Write w adu).2]
               ioErr := (s.env.Write w adu).2 }) ∧
    (∀ err values, lib.ValidateRequest p = none →
      lib.IsReadToServer (lib.GetFunctionCode p) = false →
      lib.IsWriteToServer (lib.GetFunctionCode p) = true →
      lib.GetRequestValues p = .ok values → (s.env.OnWrite w p values).2 = some err →
      Serve.handle lib s delay w stats (s.SlaveID :: tl) =
        let adu := lib.MakeRTU s.SlaveID (lib.ExceptionReplyPacket p (lib.ToExceptionCode err))
        let w1 := (s.env.OnWrite w p values).1
        some { w := (s.env.Write w1 adu).1
               stats := { stats with OtherErrors := stats.OtherErrors + 1 }
               events := [.OnWrite p values, .Sleep delay, .Write adu (s.env.Write w1 adu).2]
               ioErr := (s.env.Write w1 adu).2 }) := by
  refine ⟨fun err hv => ?_, fun err hv hr he => ?_, fun err hv hr hw hg => ?_,
    fun err values hv hr hw hg he => ?_⟩
  · simp [Serve.handle, hget, hid, hv, Serve.wec, Serve.wp]
  · simp [Serve.handle, hget, hid, hv, hr, he, Serve.wec, Serve.wp]
  · simp [Serve.handle, hget, hid, hv, hr, hw, hg, Serve.wec, Serve.wp]
  · simp [Serve.handle, hget, hid, hv, hr, hw, hg, he, Serve.wec, Serve.wp]

set_option maxRecDepth 100000 in
theorem Serve_errors_become_exception_replies_witness :
    Serve.handle (specLib false) sampleServer 1750000 sampleWorld zeroStats (0x11 :: zeroQuantityTail) =
      some { w := { sampleWorld with written := [exceptionReply] }
             stats := { zeroStats with OtherErrors := 0 + 1 }
             events := [.Sleep 1750000, .Write exceptionReply none]
             ioErr := none } :=
  (Serve_errors_become_exception_replies (specLib false) sampleServer 1750000 sampleWorld zeroStats
    zeroQuantityTail [0x03, 0x00, 0x6B, 0x00, 0x00] (by decide) (by rfl)).1
    (Error.exception 3) (by decide)

theorem wp_zero {W : Type} (lib : Lib) (env : Env W) (delay : Int) (h : Handled W) (pdu : PDU) :
    Serve.wp lib env delay h pdu 0 = h := by
  simp [Serve.wp]

theorem handle_broadcast {W : Type} (lib : Lib) (s : RTUServer W) (delay : Int) (w : W)
    (stats : Stats) (r : RTU) (h : Handled W) (hr : r.head? = some 0)
    (hh : Serve.handle lib s delay w stats r = some h) :
    ∀ e ∈ h.events, e.isTransmit = false := by
  unfold Serve.handle at hh
  split at hh
  · split at hh <;> (cases hh; simp)
  · split at hh
    · simp at hh
    · rename_i r0 tl
      simp only [List.head?_cons, Option.some.injEq] at hr
      subst hr
      simp only [Serve.wec, wp_zero] at hh
      split at hh
      · cases hh; simp
      · split at hh
        · cases hh; simp
        · split at hh
          · split at hh <;> (cases hh; simp [Event.isTransmit])
          · split at hh
            · split at hh
              · cases hh; simp
              · split at hh <;> (cases hh; simp [Event.isTransmit])
            · cases hh; simp

/-- C8: broadcasts are never answered. In every run of `Serve`, a pass whose frame
has address byte 0 contains no transport write and no pre-transmit sleep, whether the
request is valid, fails validation, or the handler returns an error. A valid
broadcast request is still dispatched to the handler: a read request reaches
`OnRead`, a write request whose values `GetRequestValues` extracts reaches
`OnWrite`. -/
theorem Serve_broadcast_silent {W : Type} (lib : Lib) (OverSizeSupport : Bool)
    (OverSizeMaxRTU : Nat) (s : RTUServer W) (fuel : Nat) (w : W) (stats : Stats) :
    (∀ round ∈ (RTUServer.Serve lib OverSizeSupport OverSizeMaxRTU s fuel w stats).rounds,
      round.frame.head? = some 0 → ∀ e ∈ round.events, e.isTransmit = false) ∧
    (∀ (delay : Int) (w1 : W) (stats1 : Stats) (tl : List Byte) (p : PDU),
      lib.GetPDU (0 :: tl) = .ok p → lib.ValidateRequest p = none →
      (lib.IsReadToServer (lib.GetFunctionCode p) = true →
        ∃ h, Serve.handle lib s delay w1 stats1 (0 :: tl) = some h ∧
          h.events = [.OnRead p] ∧ h.ioErr = none) ∧
      (lib.IsReadToServer (lib.GetFunctionCode p) = false →
        lib.IsWriteToServer (lib.GetFunctionCode p) = true →
        ∀ values, lib.GetRequestValues p = .ok values →
          ∃ h, Serve.handle lib s delay w1 stats1 (0 :: tl) = some h ∧
            h.events = [.OnWrite p values] ∧ h.ioErr = none)) := by
  refine ⟨fun round hr h0 => ?_, fun delay w1 stats1 tl p hget hv => ⟨fun hrd => ?_,
    fun hrd hwr values hg => ?_⟩⟩
  · rcases loop_rounds lib s _ fuel w stats _ none round hr with he | ⟨w1, stats1, h, _, hh, he⟩
    · simp [he]
    · rw [he]
      exact handle_broadcast lib s _ w1 stats1 round.frame h h0 hh
  · cases hres : (s.env.OnRead w1 p).2 <;>
      simp [Serve.handle, hget, hv, hrd, hres, Serve.wec, wp_zero]
  · cases hres : (s.env.OnWrite w1 p values).2 <;>
      simp [Serve.handle, hget, hv, hrd, hwr, hg, hres, Serve.wec, wp_zero]

set_option maxRecDepth 100000 in
theorem Serve_broadcast_silent_witness :
    broadcastRound ∈
        (RTUServer.Serve (specLib false) false 512 sampleServer 2 broadcastWorld zeroStats).rounds ∧
      broadcastRound.frame.head? = some 0 ∧
      ∀ e ∈ broadcastRound.events, e.isTransmit = false :=
  have hmem : broadcastRound ∈
      (RTUServer.Serve (specLib false) false 512 sampleServer 2 broadcastWorld zeroStats).rounds :=
    (by decide : (RTUServer.Serve (specLib false) false 512 sampleServer 2 broadcastWorld
      zeroStats).rounds = [broadcastRound]) ▸ List.mem_singleton_self broadcastRound
  ⟨hmem, by decide,
    (Serve_broadcast_silent (specLib false) false 512 sampleServer 2 broadcastWorld zeroStats).1
      broadcastRound hmem (by decide)⟩

theorem wp_io {W : Type} (lib : Lib) (env : Env W) (delay : Int) (h0 : Handled W) (pdu : PDU)
    (slaveId : Byte) (hio : h0.ioErr = none)
    (hev : h0.events.all (fun x => !x.isWrite) = true) :
    ((Serve.wp lib env delay h0 pdu slaveId).ioErr = none ∧
      (Serve.wp lib env delay h0 pdu slaveId).events.all (fun x => !x.isFailedWrite) = true) ∨
    (∃ e evs adu, (Serve.wp lib env delay h0 pdu slaveId).ioErr = some e ∧
      (Serve.wp lib env delay h0 pdu slaveId).events = evs ++ [Event.Write adu (some e)] ∧
      evs.all (fun x => !x.isWrite) = true) := by
  have hev1 : h0.events.all (fun x => !x.isFailedWrite) = true := by
    simp only [List.all_eq_true] at hev ⊢
    intro x hx
    have := hev x hx
    cases x <;> simp_all [Event.isWrite, Event.isFailedWrite]
  unfold Serve.wp
  split
  · exact Or.inl ⟨hio, hev1⟩
  · cases hres : (env.Write h0.w (lib.MakeRTU slaveId pdu)).2 with
    | none =>
      left
      simp [hres, Event.isFailedWrite]
      simpa using hev1
    | some e =>
      right
      refine ⟨e, h0.events ++ [Event.Sleep delay], lib.MakeRTU slaveId pdu, by simp [hres], ?_, ?_⟩
      · simp [hres]
      · simp [Event.isWrite]
        simpa using hev

theorem handle_io {W : Type} (lib : Lib) (s : RTUServer W) (delay : Int) (w : W)
    (stats : Stats) (r : RTU) (h : Handled W)
    (hh : Serve.handle lib s delay w stats r = some h) :
    (h.ioErr = none ∧ h.events.all (fun x => !x.isFailedWrite) = true) ∨
    (∃ e evs adu, h.ioErr = some e ∧ h.events = evs ++ [Event.Write adu (some e)] ∧
      evs.all (fun x => !x.isWrite) = true) := by
  unfold Serve.handle at hh
  split at hh
  · split at hh <;> (cases hh; simp)
  · split at hh
    · simp at hh
    · split at hh
      · cases hh; simp
      · split at hh
        · cases hh
          exact wp_io _ _ _ _ _ _ rfl (by simp)
        · simp only at hh
          split at hh
          · split at hh <;>
              (cases hh; exact wp_io _ _ _ _ _ _ rfl (by simp [Event.isWrite]))
          · split at hh
            · split at hh
              · cases hh
                exact wp_io _ _ _ _ _ _ rfl (by simp)
              · split at hh <;>
                  (cases hh; exact wp_io _ _ _ _ _ _ rfl (by simp [Event.isWrite]))
            · cases hh; simp

theorem loop_io {W : Type} (lib : Lib) (s : RTUServer W) (delay : Int) :
    ∀ (fuel : Nat) (w : W) (stats : Stats) (rb : List Byte),
      ((∀ err, (Serve.loop lib s delay fuel w stats rb none).result ≠ .returned err) ∧
        (Serve.loop lib s delay fuel w stats rb none).rounds.all Round.clean = true) ∨
      (∃ pre last e, (Serve.loop lib s delay fuel w stats rb none).rounds = pre ++ [last] ∧
        pre.all Round.clean = true ∧ last.endsIn e ∧
        (Serve.loop lib s delay fuel w stats rb none).result = .returned (some e)) := by
  intro fuel
  induction fuel with
  | zero =>
    intro w stats rb
    left
    simp [Serve.loop]
  | succ fuel ih =>
    intro w stats rb
    simp only [Serve.loop]
    split
    · left; simp
    · rename_i pr _
      split
      · rename_i e he
        right
        exact ⟨[], _, e, rfl, by simp, Or.inl ⟨rfl, rfl⟩, rfl⟩
      · rename_i he
        split
        · left; simp
        · split
          · left; simp [Round.clean]
          · rename_i h hh
            rcases handle_io lib s delay pr.w pr.stats _ h hh with ⟨hio, hev⟩ | ⟨e, evs, adu, hio, hev, hpre⟩
            · rw [hio]
              have hclean : Round.clean
                  { frame := pr.rb.take pr.n, err := none, events := h.events } = true := by
                simp only [Round.clean, Option.isNone_none, Bool.true_and]
                exact hev
              rcases ih h.w h.stats pr.rb with ⟨hres, hcl⟩ | ⟨pre, last, e, hr, hcl, hend, hres⟩
              · left
                refine ⟨hres, ?_⟩
                simp only [List.all_cons, hcl, Bool.and_true]
                exact hclean
              · right
                refine ⟨{ frame := pr.rb.take pr.n, err := none, events := h.events } :: pre,
                  last, e, by simp [hr], ?_, hend, hres⟩
                simp only [List.all_cons, hcl, Bool.and_true]
                exact hclean
            · right
              rw [hio]
              have hloop : Serve.loop lib s delay fuel h.w h.stats pr.rb (some e) =
                  { rounds := [], w := h.w, stats := h.stats, result := .returned (some e) } := by
                cases fuel <;> simp [Serve.loop]
              rw [hloop]
              exact ⟨[], { frame := pr.rb.take pr.n, err := none, events := h.events }, e, rfl,
                by simp, Or.inr ⟨rfl, evs, adu, hev, hpre⟩, rfl⟩

theorem validate_append (bs : List Byte) (h : bs ≠ []) : crc.Validate (crc.Append bs) = true := by
  have hlen : 0 < bs.length := List.length_pos.mpr h
  have hl : (crc.Append bs).length = bs.length + 2 := by simp [crc.Append]
  have ht : (crc.Append bs).take ((crc.Append bs).length - 2) = bs := by
    rw [hl]
    simp [crc.Append]
  have hnot : ¬ (crc.Append bs).length ≤ 2 := by omega
  simp only [crc.Validate, hnot, if_false, ht, decide_True]

theorem append_of_validate (r : List Byte) (h : crc.Validate r = true) :
    crc.Append (r.take (r.length - 2)) = r := by
  unfold crc.Validate at h
  split at h
  · simp at h
  · simpa using h

theorem getPDU_ok (r : RTU) (p : PDU) (h : RTU.GetPDU r = .ok p) :
    4 ≤ r.length ∧ crc.Validate r = true ∧ p = (r.drop 1).take (r.length - 3) := by
  unfold RTU.GetPDU at h
  split at h
  · simp at h
  · split at h
    · simp at h
    · rename_i h4 hv
      simp only [Except.ok.injEq] at h
      refine ⟨by omega, by simpa using hv, h.symm⟩

theorem makeRTU_of_getPDU (r0 : Byte) (tl : List Byte) (p : PDU)
    (h : RTU.GetPDU (r0 :: tl) = .ok p) : MakeRTU r0 p = r0 :: tl := by
  obtain ⟨h4, hv, hp⟩ := getPDU_ok _ _ h
  have := append_of_validate _ hv
  simp only [List.length_cons] at h4 this hp
  have e1 : tl.length + 1 - 2 = (tl.length - 2) + 1 := by omega
  have e2 : tl.length + 1 - 3 = tl.length - 2 := by omega
  rw [e1, List.take_succ_cons] at this
  rw [e2, List.drop_one, List.tail_cons] at hp
  rw [MakeRTU, hp]
  exact this

theorem shiftStep_lt (c : Nat) (h : c < 65536) : crc.shiftStep c < 65536 := by
  unfold crc.shiftStep
  split
  · exact Nat.xor_lt_two_pow (n := 16) (by omega) (by norm_num)
  · omega

theorem pushByte_lt (c : Nat) (b : Byte) (h : c < 65536) : crc.pushByte c b < 65536 := by
  unfold crc.pushByte
  have h0 : c ^^^ b.val < 65536 := Nat.xor_lt_two_pow (n := 16) h (by omega)
  exact shiftStep_lt _ (shiftStep_lt _ (shiftStep_lt _ (shiftStep_lt _ (shiftStep_lt _
    (shiftStep_lt _ (shiftStep_lt _ (shiftStep_lt _ h0)))))))

theorem foldl_pushByte_lt (bs : List Byte) : ∀ c, c < 65536 → bs.foldl crc.pushByte c < 65536 := by
  induction bs with
  | nil => intro c h; simpa using h
  | cons b bs ih => intro c h; exact ih _ (pushByte_lt c b h)

theorem Sum_lt (bs : List Byte) : crc.Sum bs < 65536 :=
  foldl_pushByte_lt bs 0xFFFF (by norm_num)

/-- C11 (against the spec-modelled package `crc`): CRC round trip. For every non-empty
byte string `b`, `crc.Append(b)` is `b` followed by two bytes `lo`, `hi` with
`hi*256 + lo` the Modbus CRC-16 of `b` (reflected polynomial 0xA001, initial value
0xFFFF), and `crc.Validate(crc.Append(b))` is true; conversely, for every frame `f`
with `crc.Validate(f)` true, `crc.Append(f[:len(f)-2]) = f`. -/
theorem crc_round_trip (b f : List Byte) (hb : b ≠ []) (hf : crc.Validate f = true) :
    (∃ lo hi : Byte, crc.Append b = b ++ [lo, hi] ∧ hi.val * 256 + lo.val = crc.Sum b ∧
      crc.Validate (crc.Append b) = true) ∧
    crc.Append (f.take (f.length - 2)) = f := by
  have hlt := Sum_lt b
  refine ⟨⟨Fin.ofNat (crc.Sum b % 256), Fin.ofNat (crc.Sum b / 256 % 256), rfl, ?_,
    validate_append b hb⟩, append_of_validate f hf⟩
  simp only [Fin.ofNat, Fin.val_mk]
  omega

set_option maxRecDepth 100000 in
theorem crc_round_trip_witness :
    ((∃ lo hi : Byte, crc.Append [0x02, 0x07] = [0x02, 0x07] ++ [lo, hi] ∧
        hi.val * 256 + lo.val = crc.Sum [0x02, 0x07] ∧
        crc.Validate (crc.Append [0x02, 0x07]) = true) ∧
      crc.Append [0x02, 0x07] = [0x02, 0x07, 0x41, 0x12]) ∧
    ((∃ lo hi : Byte, crc.Append [0x11, 0x01, 0x00, 0x13, 0x00, 0x25] =
          [0x11, 0x01, 0x00, 0x13, 0x00, 0x25] ++ [lo, hi] ∧
        hi.val * 256 + lo.val = crc.Sum [0x11, 0x01, 0x00, 0x13, 0x00, 0x25] ∧
        crc.Validate (crc.Append [0x11, 0x01, 0x00, 0x13, 0x00, 0x25]) = true) ∧
      crc.Append [0x11, 0x01, 0x00, 0x13, 0x00, 0x25] =
        [0x11, 0x01, 0x00, 0x13, 0x00, 0x25, 0x0E, 0x84]) ∧
    ((∃ lo hi : Byte, crc.Append [0x11, 0x01, 0x05, 0xCD, 0x6B, 0xB2, 0x0E, 0x1B] =
          [0x11, 0x01, 0x05, 0xCD, 0x6B, 0xB2, 0x0E, 0x1B] ++ [lo, hi] ∧
        hi.val * 256 + lo.val = crc.Sum [0x11, 0x01, 0x05, 0xCD, 0x6B, 0xB2, 0x0E, 0x1B] ∧
        crc.Validate (crc.Append [0x11, 0x01, 0x05, 0xCD, 0x6B, 0xB2, 0x0E, 0x1B]) = true) ∧
      crc.Append [0x11, 0x01, 0x05, 0xCD, 0x6B, 0xB2, 0x0E, 0x1B] =
        [0x11, 0x01, 0x05, 0xCD, 0x6B, 0xB2, 0x0E, 0x1B, 0x45, 0xE6]) :=
  ⟨crc_round_trip [0x02, 0x07] [0x02, 0x07, 0x41, 0x12] (by decide) (by decide),
   crc_round_trip [0x11, 0x01, 0x00, 0x13, 0x00, 0x25]
     [0x11, 0x01, 0x00, 0x13, 0x00, 0x25, 0x0E, 0x84] (by decide) (by decide),
   crc_round_trip [0x11, 0x01, 0x05, 0xCD, 0x6B, 0xB2, 0x0E, 0x1B]
     [0x11, 0x01, 0x05, 0xCD, 0x6B, 0xB2, 0x0E, 0x1B, 0x45, 0xE6] (by decide) (by decide)⟩

theorem oversize_multi_write (header : List Byte) (h6 : 6 ≤ header.length) :
    ((header.getD 0 0).val = 16 →
      GetPDUSizeFromHeader true header false =
        6 + 2 * ((header.getD 3 0).val * 256 + (header.getD 4 0).val)) ∧
    ((header.getD 0 0).val = 15 →
      GetPDUSizeFromHeader true header false =
        if (header.getD 3 0).val * 256 + (header.getD 4 0).val = 0 then 7
        else 6 + ((header.getD 3 0).val * 256 + (header.getD 4 0).val + 7) / 8) := by
  have h2 : ¬ header.length < 2 := by omega
  have h6' : ¬ header.length < 6 := by omega
  simp only [GetPDUSizeFromHeader, FunctionCode.SeparateError, FunctionCode.Valid,
    FunctionCode.IsWriteToServer, FunctionCode.IsSingle, FunctionCode.IsUint16, h2, h6',
    if_false, if_true]
  generalize (header.getD 0 0) = fc
  generalize (header.getD 3 0).val * 256 + (header.getD 4 0).val = n
  constructor
  · intro hfc
    simp [hfc]
    omega
  · intro hfc
    simp [hfc]
    by_cases hn : n = 0
    · subst hn
      simp
      decide
    · simp [hn]
      have : Int.tdiv ((n : Int) - 1) 8 = ((n : Int) - 1) / 8 :=
        Int.tdiv_eq_ediv (by omega) (by norm_num)
      rw [this]
      omega

/-- C12: with `OverSizeSupport` on, the server-side prediction for a multi-element
write header of at least 6 bytes with quantity 0 and function code 15 should be
`6 + ceil(0/8) = 6`; the code returns 7, because Go's `(n-1)/8 + 1` truncates
`(-1)/8` to 0. With `OverSizeSupport` off the same header is predicted as
`6 + header[5] = 6`. -/
theorem GetPDUSizeFromHeader_oversize_zero_coils :
    GetPDUSizeFromHeader true [0x0F, 0x00, 0x13, 0x00, 0x00, 0x00] false = 7 ∧
      GetPDUSizeFromHeader false [0x0F, 0x00, 0x13, 0x00, 0x00, 0x00] false = 6 := by
  decide

set_option maxRecDepth 100000 in
theorem bidirectional_prefers_longer_counterexample :
    GetRTUSizeFromHeader false doublyValidHeader false = 8 ∧
      GetRTUSizeFromHeader false doublyValidHeader true = 10 ∧
      8 ≤ doublyValidHeader.length ∧
      crc.Validate (doublyValidHeader.take 8) = true ∧
      GetRTUBidirectionalSizeFromHeader false doublyValidHeader = 10 := by
  decide

/-- C13 (amended): bidirectional disambiguation rule. For every header on which the
server-side and client-side predictions of `GetRTUSizeFromHeader` differ, writing `s`
for the smaller and `l` for the larger and assuming `len(header) >= s`,
`GetRTUBidirectionalSizeFromHeader` returns `l` if `len(header) >= l` and
`crc.Validate(header[:l])` holds; otherwise it returns `s` if
`crc.Validate(header[:s])` holds, and `l` otherwise (in particular `l` when neither
candidate's CRC validates). -/
theorem GetRTUBidirectionalSizeFromHeader_rule (OverSizeSupport : Bool) (header : List Byte)
    (hne : GetRTUSizeFromHeader OverSizeSupport header false ≠
      GetRTUSizeFromHeader OverSizeSupport header true)
    (hlen : min (GetRTUSizeFromHeader OverSizeSupport header false)
      (GetRTUSizeFromHeader OverSizeSupport header true) ≤ header.length) :
    GetRTUBidirectionalSizeFromHeader OverSizeSupport header =
      let s := min (GetRTUSizeFromHeader OverSizeSupport header false)
        (GetRTUSizeFromHeader OverSizeSupport header true)
      let l := max (GetRTUSizeFromHeader OverSizeSupport header false)
        (GetRTUSizeFromHeader OverSizeSupport header true)
      if l ≤ header.length ∧ crc.Validate (header.take l) = true then l
      else if crc.Validate (header.take s) = true then s
      else l := by
  simp only [GetRTUBidirectionalSizeFromHeader]
  generalize GetRTUSizeFromHeader OverSizeSupport header false = a at hne hlen ⊢
  generalize GetRTUSizeFromHeader OverSizeSupport header true = b at hne hlen ⊢
  rw [if_neg hne]
  by_cases hab : a > b
  · have hmin : min a b = b := Nat.min_eq_right (by omega)
    have hmax : max a b = a := Nat.max_eq_left (by omega)
    rw [hmin] at hlen
    have hnot : ¬ b > header.length := by omega
    simp only [hab, if_true, hmin, hmax, hnot, if_false, Bool.and_eq_true, decide_eq_true_eq]
  · have hmin : min a b = a := Nat.min_eq_left (by omega)
    have hmax : max a b = b := Nat.max_eq_right (by omega)
    rw [hmin] at hlen
    have hnot : ¬ a > header.length := by omega
    simp only [hab, if_false, hmin, hmax, hnot, Bool.and_eq_true, decide_eq_true_eq]

set_option maxRecDepth 100000 in
theorem GetRTUBidirectionalSizeFromHeader_rule_witness :
    GetRTUBidirectionalSizeFromHeader false
        [0x11, 0x03, 0x05, 0xCD, 0x6B, 0xB2, 0x79, 0x2C, 0x01] = 8 :=
  (GetRTUBidirectionalSizeFromHeader_rule false
    [0x11, 0x03, 0x05, 0xCD, 0x6B, 0xB2, 0x79, 0x2C, 0x01] (by decide) (by decide)).trans
    (by decide)

theorem wrapInt64_id (x : Int) (h1 : -9223372036854775808 ≤ x) (h2 : x < 9223372036854775808) :
    wrapInt64 x = x := by
  unfold wrapInt64
  omega

theorem ceil_div_eq (X m : Int) (hm : 0 < m) :
    (X + m - 1) / m = ⌈(X : ℚ) / (m : ℚ)⌉ := by
  symm
  rw [Int.ceil_eq_iff]
  have hmq : (0 : ℚ) < (m : ℚ) := by exact_mod_cast hm
  have h1 : m * ((X + m - 1) / m) ≤ X + m - 1 := Int.mul_ediv_self_le (by omega)
  have h2 : X + m - 1 < m * ((X + m - 1) / m) + m := Int.lt_mul_ediv_self_add hm
  constructor
  · rw [lt_div_iff₀ hmq]
    have : ((X + m - 1) / m - 1) * m < X := by nlinarith
    exact_mod_cast this
  · rw [div_le_iff₀ hmq]
    have : X ≤ ((X + m - 1) / m) * m := by nlinarith
    exact_mod_cast this

theorem MinDelay_low (b : Int) (h1 : 1 ≤ b) (h2 : b ≤ 19200) :
    MinDelay b = some ((77000000000 + 2 * b - 1) / (2 * b)) := by
  have hw : wrapInt64 (b * 2) = 2 * b := by rw [wrapInt64_id _ (by omega) (by omega)]; ring
  have hw1 : wrapInt64 (77000000000 + 2 * b) = 77000000000 + 2 * b :=
    wrapInt64_id _ (by omega) (by omega)
  have hw2 : wrapInt64 (77000000000 + 2 * b - 1) = 77000000000 + 2 * b - 1 :=
    wrapInt64_id _ (by omega) (by omega)
  have hne : ¬ (2 * b = 0) := by omega
  have hq0 : 0 ≤ (77000000000 + 2 * b - 1) / (2 * b) := Int.ediv_nonneg (by omega) (by omega)
  have hq1 : (77000000000 + 2 * b - 1) / (2 * b) ≤ 77000000000 + 2 * b - 1 :=
    Int.ediv_le_self _ (by omega)
  simp only [MinDelay, h2, if_true, hw, hne, if_false, hw1, hw2]
  rw [Int.tdiv_eq_ediv (by omega) (by omega), wrapInt64_id _ (by omega) (by omega)]

theorem MinDelay_high (b : Int) (h : 19200 < b) : MinDelay b = some 1750000 := by
  have : ¬ b ≤ 19200 := by omega
  simp only [MinDelay, this, if_false]

theorem MinDelay_low_bounds (b : Int) (h1 : 1 ≤ b) (h2 : b ≤ 19200) :
    1750000 ≤ (77000000000 + 2 * b - 1) / (2 * b) := by
  rw [Int.le_ediv_iff_mul_le (by omega)]
  omega

theorem MinDelay_low_antitone (b b2 : Int) (h1 : 1 ≤ b) (h2 : b ≤ b2) :
    (77000000000 + 2 * b2 - 1) / (2 * b2) ≤ (77000000000 + 2 * b - 1) / (2 * b) := by
  have hq : 0 ≤ (77000000000 + 2 * b - 1) / (2 * b) := Int.ediv_nonneg (by omega) (by omega)
  have hc : 77000000000 + 2 * b - 1 < 2 * b * ((77000000000 + 2 * b - 1) / (2 * b)) + 2 * b :=
    Int.lt_mul_ediv_self_add (by omega)
  rw [← Int.lt_add_one_iff, Int.ediv_lt_iff_lt_mul (by omega)]
  nlinarith

/-- C19: for every baud rate `b >= 1`, `MinDelay(b)` equals `ceil(77 * 10^9 / (2*b))`
nanoseconds when `b <= 19200` and exactly 1,750,000 nanoseconds when `b > 19200`;
consequently `MinDelay(b) >= 1750` microseconds for every `b >= 1`, and `MinDelay` is
non-increasing in `b`. -/
theorem MinDelay_formula (b : Int) (hb : 1 ≤ b) :
    (b ≤ 19200 → MinDelay b = some ⌈(77000000000 : ℚ) / ((2 * b : Int) : ℚ)⌉) ∧
    (19200 < b → MinDelay b = some 1750000) ∧
    (∃ d, MinDelay b = some d ∧ 1750000 ≤ d) ∧
    (∀ b2 d d2, b ≤ b2 → MinDelay b = some d → MinDelay b2 = some d2 → d2 ≤ d) := by
  refine ⟨fun h => ?_, MinDelay_high b, ?_, ?_⟩
  · rw [MinDelay_low b hb h]
    have := ceil_div_eq 77000000000 (2 * b) (by omega)
    rw [this]
    norm_num
  · by_cases h : b ≤ 19200
    · exact ⟨_, MinDelay_low b hb h, MinDelay_low_bounds b hb h⟩
    · exact ⟨_, MinDelay_high b (by omega), le_refl _⟩
  · intro b2 d d2 hle hd hd2
    by_cases h : b ≤ 19200
    · rw [MinDelay_low b hb h] at hd
      by_cases h' : b2 ≤ 19200
      · rw [MinDelay_low b2 (by omega) h'] at hd2
        simp only [Option.some.injEq] at hd hd2
        subst hd hd2
        exact MinDelay_low_antitone b b2 hb hle
      · rw [MinDelay_high b2 (by omega)] at hd2
        simp only [Option.some.injEq] at hd hd2
        subst hd hd2
        exact MinDelay_low_bounds b hb h
    · rw [MinDelay_high b (by omega)] at hd
      rw [MinDelay_high b2 (by omega)] at hd2
      simp only [Option.some.injEq] at hd hd2
      omega

theorem MinDelay_formula_witness :
    MinDelay 9600 = some ⌈(77000000000 : ℚ) / ((2 * 9600 : Int) : ℚ)⌉ ∧
      MinDelay 9600 = some 4010417 ∧ MinDelay 115200 = some 1750000 :=
  ⟨(MinDelay_formula 9600 (by decide)).1 (by decide), by decide,
    (MinDelay_formula 115200 (by decide)).2.1 (by decide)⟩

theorem BytesDelay_value (b n : Int) (hb : 1 ≤ b) (hn : 0 ≤ n)
    (hfit : 11000000000 * n + b < 9223372036854775808) :
    BytesDelay b n = some ((11000000000 * n + b - 1) / b) := by
  have hw : wrapInt64 (11000000000 * n) = 11000000000 * n :=
    wrapInt64_id _ (by omega) (by omega)
  have hw1 : wrapInt64 (11000000000 * n + b) = 11000000000 * n + b :=
    wrapInt64_id _ (by omega) (by omega)
  have hw2 : wrapInt64 (11000000000 * n + b - 1) = 11000000000 * n + b - 1 :=
    wrapInt64_id _ (by omega) (by omega)
  have hne : ¬ b = 0 := by omega
  have hq0 : 0 ≤ (11000000000 * n + b - 1) / b := Int.ediv_nonneg (by omega) (by omega)
  have hq1 : (11000000000 * n + b - 1) / b ≤ 11000000000 * n + b - 1 :=
    Int.ediv_le_self _ (by omega)
  simp only [BytesDelay, hne, if_false, hw, hw1, hw2]
  rw [Int.tdiv_eq_ediv (by omega) (by omega), wrapInt64_id _ (by omega) (by omega)]

/-- C20: for every baud rate `b >= 1` and every byte count `n >= 0` (small enough that
`11 * 10^9 * n + b` fits in 63 bits), `BytesDelay(b, n)` equals
`ceil(11 * 10^9 * n / b)` nanoseconds; in particular `BytesDelay(b, 0) = 0` and
`BytesDelay` is non-decreasing in `n`. -/
theorem BytesDelay_formula (b n : Int) (hb : 1 ≤ b) (hn : 0 ≤ n)
    (hfit : 11000000000 * n + b < 9223372036854775808) :
    BytesDelay b n = some ⌈((11000000000 * n : Int) : ℚ) / (b : ℚ)⌉ ∧
    BytesDelay b 0 = some 0 ∧
    (∀ n2 d d2, n ≤ n2 → 11000000000 * n2 + b < 9223372036854775808 →
      BytesDelay b n = some d → BytesDelay b n2 = some d2 → d ≤ d2) := by
  refine ⟨?_, ?_, ?_⟩
  · rw [BytesDelay_value b n hb hn hfit, ceil_div_eq (11000000000 * n) b (by omega)]
  · rw [BytesDelay_value b 0 hb (le_refl _) (by omega)]
    simp only [mul_zero, zero_add, Option.some.injEq]
    exact Int.ediv_eq_zero_of_lt (by omega) (by omega)
  · intro n2 d d2 hle hfit2 hd hd2
    rw [BytesDelay_value b n hb hn hfit] at hd
    rw [BytesDelay_value b n2 hb (by omega) hfit2] at hd2
    simp only [Option.some.injEq] at hd hd2
    subst hd hd2
    exact Int.ediv_le_ediv (by omega) (by omega)

theorem BytesDelay_formula_witness :
    BytesDelay 9600 8 = some ⌈((11000000000 * 8 : Int) : ℚ) / ((9600 : Int) : ℚ)⌉ ∧
      BytesDelay 9600 8 = some 9166667 :=
  ⟨(BytesDelay_formula 9600 8 (by decide) (by decide) (by decide)).1, by decide⟩

theorem client_prediction_value (OverSizeSupport : Bool) (q : Nat) (data : List Byte) :
    GetPDUSizeFromHeader OverSizeSupport (registersReply q data) true = 2 + (2 * q) % 256 := by
  have h3 : ((3 : Byte) : Nat) = 3 := rfl
  simp [GetPDUSizeFromHeader, registersReply, FunctionCode.SeparateError,
    FunctionCode.Valid, FunctionCode.IsWriteToServer, Fin.ofNat, h3]

theorem client_prediction_oversize_counterexample :
    (registersReply 200 (List.replicate 400 0)).length = 2 + 2 * 200 ∧
      (registersReply 200 (List.replicate 400 0)).getD 1 0 = 0x90 ∧
      GetPDUSizeFromHeader true (registersReply 200 (List.replicate 400 0)) true = 146 :=
  ⟨by rw [registersReply, List.length_cons, List.length_cons, List.length_replicate], by decide,
    client_prediction_value true 200 (List.replicate 400 0)⟩

/-- C15 (amended): the client-side prediction reads the byte count whether
`OverSizeSupport` is on or off. For every read-holding-registers reply PDU carrying
`q` registers, `[3, (2q) mod 256, 2q data bytes]` with `1 <= q <= 65535`,
`GetPDUSizeFromHeader(reply, true)` equals `2 + (2q mod 256)`; it equals the reply's
true length `2 + 2q` exactly when `2q <= 255`, that is, when `q <= 127`. -/
theorem GetPDUSizeFromHeader_client_reply (OverSizeSupport : Bool) (q : Nat) (data : List Byte)
    (hq1 : 1 ≤ q) (hq2 : q ≤ 65535) (hdata : data.length = 2 * q) :
    GetPDUSizeFromHeader OverSizeSupport (registersReply q data) true = 2 + (2 * q) % 256 ∧
    (GetPDUSizeFromHeader OverSizeSupport (registersReply q data) true =
        (registersReply q data).length ↔ q ≤ 127) := by
  refine ⟨client_prediction_value OverSizeSupport q data, ?_⟩
  rw [client_prediction_value]
  simp only [registersReply, List.length_cons, hdata]
  omega

theorem GetPDUSizeFromHeader_client_reply_witness :
    GetPDUSizeFromHeader true (registersReply 3 [0xAE, 0x41, 0x56, 0x52, 0x43, 0x40]) true =
        2 + (2 * 3) % 256 ∧
      (GetPDUSizeFromHeader true (registersReply 3 [0xAE, 0x41, 0x56, 0x52, 0x43, 0x40]) true =
        (registersReply 3 [0xAE, 0x41, 0x56, 0x52, 0x43, 0x40]).length ↔ 3 ≤ 127) :=
  GetPDUSizeFromHeader_client_reply true 3 [0xAE, 0x41, 0x56, 0x52, 0x43, 0x40] (by decide)
    (by decide) (by decide)

theorem wp_transmit {W : Type} (lib : Lib) (env : Env W) (delay : Int) (h0 : Handled W)
    (pdu : PDU) (slaveId : Byte) (hev : h0.events.all (fun x => !x.isTransmit) = true) :
    (Serve.wp lib env delay h0 pdu slaveId).events.all (fun x => !x.isTransmit) = true ∨
    ∃ pre adu err, (Serve.wp lib env delay h0 pdu slaveId).events =
        pre ++ [Event.Sleep delay, Event.Write adu err] ∧
      pre.all (fun x => !x.isTransmit) = true := by
  rw [wp_events]
  split
  · left; simpa using hev
  · right; exact ⟨h0.events, _, _, rfl, hev⟩

theorem handle_transmit {W : Type} (lib : Lib) (s : RTUServer W) (delay : Int) (w : W)
    (stats : Stats) (r : RTU) (h : Handled W)
    (hh : Serve.handle lib s delay w stats r = some h) :
    h.events.all (fun x => !x.isTransmit) = true ∨
    ∃ pre adu err, h.events = pre ++ [Event.Sleep delay, Event.Write adu err] ∧
      pre.all (fun x => !x.isTransmit) = true := by
  unfold Serve.handle at hh
  split at hh
  · split at hh <;> (cases hh; simp)
  · split at hh
    · simp at hh
    · split at hh
      · cases hh; simp
      · split at hh
        · cases hh
          exact wp_transmit _ _ _ _ _ _ (by simp)
        · simp only at hh
          split at hh
          · split at hh <;>
              (cases hh; exact wp_transmit _ _ _ _ _ _ (by simp [Event.isTransmit]))
          · split at hh
            · split at hh
              · cases hh
                exact wp_transmit _ _ _ _ _ _ (by simp)
              · split at hh <;>
                  (cases hh; exact wp_transmit _ _ _ _ _ _ (by simp [Event.isTransmit]))
            · cases hh; simp

/-- C18: transmit discipline. In every run of `Serve`, the I/O events of a pass (the
events between two consecutive packet reads) are either none, or exactly one sleep of
`MinDelay` (the value sampled once when `Serve` starts) immediately followed by
exactly one transport write, which is the last event of the pass. So every reply is
preceded by the mandatory inter-frame sleep and at most one ADU is transmitted per
frame read. -/
theorem Serve_transmit_discipline {W : Type} (lib : Lib) (OverSizeSupport : Bool)
    (OverSizeMaxRTU : Nat) (s : RTUServer W) (fuel : Nat) (w : W) (stats : Stats) :
    ∀ round ∈ (RTUServer.Serve lib OverSizeSupport OverSizeMaxRTU s fuel w stats).rounds,
      round.events.all (fun x => !x.isTransmit) = true ∨
      ∃ pre adu err,
        round.events = pre ++ [Event.Sleep (s.env.MinDelay w), Event.Write adu err] ∧
        pre.all (fun x => !x.isTransmit) = true := by
  intro round hr
  rcases loop_rounds lib s _ fuel w stats _ none round hr with h0 | ⟨w1, stats1, h, _, hh, he⟩
  · left; simp [h0]
  · rw [he]
    exact handle_transmit lib s _ w1 stats1 round.frame h hh

set_option maxRecDepth 100000 in
theorem Serve_transmit_discipline_witness :
    sampleRound ∈ (RTUServer.Serve (specLib false) false 512 sampleServer 2 sampleWorld zeroStats).rounds ∧
      (sampleRound.events.all (fun x => !x.isTransmit) = true ∨
        ∃ pre adu err,
          sampleRound.events = pre ++ [Event.Sleep 1750000, Event.Write adu err] ∧
          pre.all (fun x => !x.isTransmit) = true) :=
  have hmem : sampleRound ∈
      (RTUServer.Serve (specLib false) false 512 sampleServer 2 sampleWorld zeroStats).rounds :=
    (by decide : (RTUServer.Serve (specLib false) false 512 sampleServer 2 sampleWorld zeroStats).rounds
      = [sampleRound]) ▸ List.mem_singleton_self sampleRound
  ⟨hmem, Serve_transmit_discipline (specLib false) false 512 sampleServer 2 sampleWorld zeroStats
    sampleRound hmem⟩

theorem finish_bound (st : ReadState) (rest : List TransportRead) (hrd : st.read ≤ st.p.length)
    (n : Nat) (err : Option Error) (e : ReadEnd) (h : Read.finish st rest = .returned n err e) :
    n ≤ st.p.length ∧ e.p.length = st.p.length := by
  unfold Read.finish at h
  split at h
  · split at h
    · simp only [ReadResult.returned.injEq] at h
      obtain ⟨h1, _, h3⟩ := h
      subst h1 h3
      exact ⟨by omega, rfl⟩
    · split at h <;>
      · simp only [ReadResult.returned.injEq] at h
        obtain ⟨h1, _, h3⟩ := h
        subst h1 h3
        exact ⟨hrd, rfl⟩
  · simp only [ReadResult.returned.injEq] at h
    obtain ⟨h1, _, h3⟩ := h
    subst h1 h3
    exact ⟨hrd, rfl⟩

theorem body_bound (OverSizeSupport : Bool) (cutoff : Nat → Int) (st : ReadState)
    (script : List TransportRead) (hrd : st.read ≤ st.p.length)
    (hlast : st.s.last ≠ [] → st.read = 0) :
    (∀ st1 rest1, Read.body OverSizeSupport cutoff st script = .next st1 rest1 →
      st1.read ≤ st1.p.length ∧ st1.s.last = [] ∧ st1.p.length = st.p.length) ∧
    (∀ n err e, Read.body OverSizeSupport cutoff st script = .done (.returned n err e) →
      n ≤ st.p.length ∧ e.p.length = st.p.length) := by
  unfold Read.body
  split
  · rename_i hl
    have hl1 : st.s.last ≠ [] := by
      intro h0
      simp [h0] at hl
    have h0 := hlast hl1
    obtain ⟨e, he⟩ := more_next OverSizeSupport
      { st with p := st.s.last.take (min st.p.length st.s.last.length) ++
                  st.p.drop (min st.p.length st.s.last.length),
                read := st.read + min st.p.length st.s.last.length,
                s := { st.s with last := [] } } script
    rw [he]
    refine ⟨fun st1 rest1 h => ?_, fun n err e h => by simp at h⟩
    simp only [ReadStep.next.injEq] at h
    obtain ⟨h1, _⟩ := h
    subst h1
    refine ⟨?_, rfl, ?_⟩
    · simp only [List.length_append, List.length_take, List.length_drop, h0]
      omega
    · simp only [List.length_append, List.length_take, List.length_drop]
      omega
  · rename_i hl
    have hl1 : st.s.last = [] := by simpa using hl
    cases script with
    | nil => exact ⟨fun st1 rest1 h => by simp at h, fun n err e h => by simp at h⟩
    | cons t rest =>
      simp only
      split
      · exact ⟨fun st1 rest1 h => by simp at h, fun n err e h => by simp at h⟩
      · rename_i hfit
        have hlen : (st.p.take st.read ++ t.data ++ st.p.drop (st.read + t.data.length)).length
            = st.p.length := by
          simp only [List.length_append, List.length_take, List.length_drop]
          omega
        split
        · refine ⟨fun st1 rest1 h => by simp at h, fun n err e h => ?_⟩
          simp only [ReadStep.done.injEq, ReadResult.returned.injEq] at h
          obtain ⟨h1, _, h3⟩ := h
          subst h1 h3
          exact ⟨hrd, hlen⟩
        · split
          · refine ⟨fun st1 rest1 h => by simp at h, fun n err e h => ?_⟩
            simp only [ReadStep.done.injEq, ReadResult.returned.injEq] at h
            obtain ⟨h1, _, h3⟩ := h
            subst h1 h3
            exact ⟨by omega, hlen⟩
          · obtain ⟨e, he⟩ := more_next OverSizeSupport
              { st with p := st.p.take st.read ++ t.data ++ st.p.drop (st.read + t.data.length),
                        read := st.read + t.data.length,
                        s := { st.s with lastReadAt := t.now } } rest
            rw [he]
            refine ⟨fun st1 rest1 h => ?_, fun n err e h => by simp at h⟩
            simp only [ReadStep.next.injEq] at h
            obtain ⟨h1, _⟩ := h
            subst h1
            exact ⟨by simp only [hlen]; omega, hl1, hlen⟩

theorem loop_bound (OverSizeSupport : Bool) (cutoff : Nat → Int) :
    ∀ (fuel : Nat) (script : List TransportRead) (st : ReadState),
      st.read ≤ st.p.length → (st.s.last ≠ [] → st.read = 0) →
      ∀ n err e, Read.loop OverSizeSupport cutoff fuel script st = .returned n err e →
        n ≤ st.p.length ∧ e.p.length = st.p.length := by
  intro fuel
  induction fuel with
  | zero =>
    intro script st _ _ n err e h
    simp [Read.loop] at h
  | succ fuel ih =>
    intro script st hrd hlast n err e h
    obtain ⟨hnext, hdone⟩ := body_bound OverSizeSupport cutoff st script hrd hlast
    by_cases hlt : st.read < st.expected
    · cases hb : Read.body OverSizeSupport cutoff st script with
      | next st1 rest1 =>
        obtain ⟨h1, h2, h3⟩ := hnext st1 rest1 hb
        have hl : Read.loop OverSizeSupport cutoff (fuel + 1) script st =
            Read.loop OverSizeSupport cutoff fuel rest1 st1 := by
          simp only [Read.loop, hlt, if_true, hb]
        rw [hl] at h
        have := ih rest1 st1 h1 (fun hne => absurd h2 hne) n err e h
        rw [h3] at this
        exact this
      | done r =>
        have hl : Read.loop OverSizeSupport cutoff (fuel + 1) script st = r := by
          simp only [Read.loop, hlt, if_true, hb]
        rw [hl] at h
        subst h
        exact hdone n err e hb
    · have hl : Read.loop OverSizeSupport cutoff (fuel + 1) script st = Read.finish st script := by
        simp only [Read.loop, hlt, if_false]
      rw [hl] at h
      exact finish_bound st script hrd n err e h

theorem Read_bound (OverSizeSupport : Bool) (cutoff : Nat → Int) (s : rtuPacketReader)
    (stats : Stats) (p : List Byte) (script : List TransportRead) (n : Nat)
    (err : Option Error) (e : ReadEnd)
    (h : rtuPacketReader.Read OverSizeSupport cutoff s stats p script = .returned n err e) :
    n ≤ p.length ∧ e.p.length = p.length :=
  loop_bound OverSizeSupport cutoff _ script _ (Nat.zero_le _) (fun _ => rfl) n err e h

theorem serialEnv_read_bound (OverSizeSupport : Bool) (cutoff : Nat → Int) (minDelay : Int)
    (writeErr : RTU → Option Error) (onRead : PDU → Except Error (List Byte))
    (onWrite : PDU → List Byte → Option Error) (w : SerialWorld) (stats : Stats)
    (rb : List Byte) (pr : PacketRead SerialWorld)
    (h : (serialEnv OverSizeSupport cutoff minDelay writeErr onRead onWrite).Read w stats rb
      = some pr) :
    pr.n ≤ rb.length ∧ pr.rb.length = rb.length := by
  simp only [serialEnv] at h
  split at h
  · rename_i n err e hread
    simp only [Option.some.injEq] at h
    subst h
    exact Read_bound OverSizeSupport cutoff _ _ _ _ n err e hread
  · simp at h

theorem loop_frame_length {W : Type} (lib : Lib) (s : RTUServer W) (delay : Int)
    (henv : ∀ w stats rb pr, s.env.Read w stats rb = some pr → pr.rb.length = rb.length) :
    ∀ (fuel : Nat) (w : W) (stats : Stats) (rb : List Byte) (ioErr : Option Error),
      ∀ round ∈ (Serve.loop lib s delay fuel w stats rb ioErr).rounds,
        round.frame.length ≤ rb.length := by
  intro fuel
  induction fuel with
  | zero =>
    intro w stats rb ioErr round hr
    cases ioErr <;> simp [Serve.loop] at hr
  | succ fuel ih =>
    intro w stats rb ioErr round hr
    cases ioErr with
    | some e => simp [Serve.loop] at hr
    | none =>
      simp only [Serve.loop] at hr
      split at hr
      · simp at hr
      · rename_i pr hread
        have hlen := henv w stats rb pr hread
        have hframe : (pr.rb.take pr.n).length ≤ rb.length := by
          simp only [List.length_take]
          omega
        split at hr
        · simp at hr
          subst hr
          exact hframe
        · split at hr
          · simp at hr
          · split at hr
            · simp at hr
              subst hr
              exact hframe
            · simp only [List.mem_cons] at hr
              rcases hr with hr | hr
              · subst hr
                exact hframe
              · have := ih _ _ _ _ round hr
                omega

/-- C17: frame length ceiling. The packet reader's `Read` never returns `n > len(p)`,
for any buffer `p`, stash content and transport behaviour (a transport read that
reports more bytes than it was offered is a fault, not a return). Hence, in every run
of `Serve` on a server made with `NewRTUPacketReader`, every frame of every pass is
at most `MaxRTUSize` bytes long when `OverSizeSupport` is off and at most
`OverSizeMaxRTU` bytes long when it is on. -/
theorem Read_frame_length_ceiling (lib : Lib) (OverSizeSupport : Bool) (OverSizeMaxRTU : Nat)
    (cutoff : Nat → Int) (minDelay : Int) (writeErr : RTU → Option Error)
    (onRead : PDU → Except Error (List Byte)) (onWrite : PDU → List Byte → Option Error)
    (slaveID : Byte) (fuel : Nat) (w : SerialWorld) (stats : Stats) :
    (∀ (r : rtuPacketReader) (st : Stats) (p : List Byte) (script : List TransportRead)
      (n : Nat) (err : Option Error) (e : ReadEnd),
      rtuPacketReader.Read OverSizeSupport cutoff r st p script = .returned n err e →
        n ≤ p.length) ∧
    (∀ round ∈ (RTUServer.Serve lib OverSizeSupport OverSizeMaxRTU
        { env := serialEnv OverSizeSupport cutoff minDelay writeErr onRead onWrite,
          SlaveID := slaveID } fuel w stats).rounds,
      round.frame.length ≤ if OverSizeSupport then OverSizeMaxRTU else MaxRTUSize) := by
  refine ⟨fun r st p script n err e h => (Read_bound _ _ _ _ _ _ n err e h).1,
    fun round hr => ?_⟩
  have := loop_frame_length lib
    { env := serialEnv OverSizeSupport cutoff minDelay writeErr onRead onWrite,
      SlaveID := slaveID } _
    (fun w stats rb pr h => (serialEnv_read_bound _ _ _ _ _ _ w stats rb pr h).2)
    fuel w stats _ none round hr
  simpa using this

set_option maxRecDepth 100000 in
theorem Read_frame_length_ceiling_witness :
    sampleRound ∈ (RTUServer.Serve (specLib false) false 512 sampleServer 2 sampleWorld zeroStats).rounds ∧
      sampleRound.frame.length ≤ MaxRTUSize :=
  have hmem : sampleRound ∈
      (RTUServer.Serve (specLib false) false 512 sampleServer 2 sampleWorld zeroStats).rounds :=
    (by decide : (RTUServer.Serve (specLib false) false 512 sampleServer 2 sampleWorld zeroStats).rounds
      = [sampleRound]) ▸ List.mem_singleton_self sampleRound
  ⟨hmem, (Read_frame_length_ceiling (specLib false) false 512 (fun _ => 1000) 1750000 (fun _ => none)
    (fun _ => .ok [0, 3]) (fun _ _ => none) 0x11 2 sampleWorld zeroStats).2 sampleRound hmem⟩

set_option maxRecDepth 100000 in
theorem long_read_frame_is_served_counterexample :
    (RTUServer.Serve (specLib false) false 512 sampleServer 1 longReadWorld zeroStats).stats =
        { zeroStats with ReadPackets := 1, LongReadWarnings := 1 } ∧
      (RTUServer.Serve (specLib false) false 512 sampleServer 1 longReadWorld zeroStats).rounds =
        [{ frame := writeSingleRequest, err := none,
           events := [Event.OnWrite [6, 0, 1, 0, 3] [0, 3], Event.Sleep 1750000,
             Event.Write writeSingleRequest none] }] ∧
      (RTUServer.Serve (specLib false) false 512 sampleServer 1 longReadWorld zeroStats).w.written =
        [writeSingleRequest] := by
  decide

/-- C16 (amended): every frame counted as a CRC error or an ID drop is dropped.
Whenever the processing of a frame that the packet read returned without error
increments `CrcErrors` or `IDDrops`, that frame is not delivered to the handler and
no reply is transmitted for it (the pass has no event and leaves the world as the
packet read left it), no other counter changes, and the serve loop continues with
the next packet read. -/
theorem Serve_counted_drops_are_dropped {W : Type} (lib : Lib) (s : RTUServer W) (delay : Int)
    (fuel : Nat) (w : W) (stats : Stats) (rb : List Byte) (pr : PacketRead W) (h : Handled W)
    (hread : s.env.Read w stats rb = some pr) (herr : pr.err = none)
    (hn : pr.n ≤ pr.rb.length)
    (hh : Serve.handle lib s delay pr.w pr.stats (pr.rb.take pr.n) = some h)
    (hcount : h.stats.CrcErrors ≠ pr.stats.CrcErrors ∨ h.stats.IDDrops ≠ pr.stats.IDDrops) :
    h.events = [] ∧ h.w = pr.w ∧ h.ioErr = none ∧
    (h.stats = { pr.stats with CrcErrors := pr.stats.CrcErrors + 1 } ∨
      h.stats = { pr.stats with IDDrops := pr.stats.IDDrops + 1 }) ∧
    Serve.loop lib s delay (fuel + 1) w stats rb none =
      { Serve.loop lib s delay fuel pr.w h.stats pr.rb none with
        rounds := { frame := pr.rb.take pr.n, err := none, events := [] } ::
          (Serve.loop lib s delay fuel pr.w h.stats pr.rb none).rounds } := by
  have hn1 : ¬ pr.rb.length < pr.n := by omega
  have key : h.events = [] ∧ h.w = pr.w ∧ h.ioErr = none ∧
      (h.stats = { pr.stats with CrcErrors := pr.stats.CrcErrors + 1 } ∨
        h.stats = { pr.stats with IDDrops := pr.stats.IDDrops + 1 }) := by
    unfold Serve.handle at hh
    split at hh
    · split at hh
      · cases hh; simp
      · cases hh; simp at hcount
    · split at hh
      · simp at hh
      · split at hh
        · cases hh; simp
        · exfalso
          have hst : ∀ (h0 : Handled W) (pdu : PDU) (id : Byte),
              (Serve.wp lib s.env delay h0 pdu id).stats = h0.stats := by
            intro h0 pdu id
            unfold Serve.wp
            split <;> rfl
          split at hh
          · cases hh
            simp [Serve.wec, hst] at hcount
          · simp only at hh
            split at hh
            · split at hh <;> (cases hh; simp [Serve.wec, hst] at hcount)
            · split at hh
              · split at hh
                · cases hh
                  simp [Serve.wec, hst] at hcount
                · split at hh <;> (cases hh; simp [Serve.wec, hst] at hcount)
              · cases hh
                simp at hcount
  obtain ⟨h1, h2, h3, h4⟩ := key
  refine ⟨h1, h2, h3, h4, ?_⟩
  simp only [Serve.loop, hread, herr, hn1, if_false, hh, h1, h2, h3]

set_option maxRecDepth 100000 in
theorem Serve_counted_drops_are_dropped_witness :
    Serve.loop (specLib false) sampleServer 1750000 (1 + 1) otherIdWorld zeroStats (List.replicate 16 0)
        none =
      { rounds := [{ frame := [0x12, 0x06, 0x00, 0x01, 0x00, 0x03, 0x9A, 0xA8], err := none,
                     events := [] }],
        w := otherIdRead.w,
        stats := { zeroStats with ReadPackets := 1, IDDrops := 1 },
        result := .blocked } :=
  (Serve_counted_drops_are_dropped (specLib false) sampleServer 1750000 1 otherIdWorld zeroStats
    (List.replicate 16 0) otherIdRead
    { w := otherIdRead.w, stats := { zeroStats with ReadPackets := 1, IDDrops := 1 },
      events := [], ioErr := none }
    (by decide) (by decide) (by decide) (by rfl) (Or.inr (by decide))).2.2.2.2.trans (by rfl)

set_option maxRecDepth 100000 in
theorem format_warning_frame_is_answered :
    (RTUServer.Serve (specLib false) false 512 sampleServer 1 formatWarningWorld zeroStats).stats =
        { zeroStats with ReadPackets := 1, FormateWarnings := 1, OtherErrors := 1 } ∧
      (RTUServer.Serve (specLib false) false 512 sampleServer 1 formatWarningWorld zeroStats).w.written =
        [[0x11, 0x86, 0x03, 0x03, 0xA4]] := by
  decide

set_option maxRecDepth 100000 in
theorem other_drop_frame_is_answered :
    (RTUServer.Serve (specLib false) false 512 sampleServer 1 cutoffWorld zeroStats).stats =
        { zeroStats with ReadPackets := 1, OtherDrops := 1, OtherErrors := 1 } ∧
      (RTUServer.Serve (specLib false) false 512 sampleServer 1 cutoffWorld zeroStats).w.written =
        [[0x11, 0x83, 0x03, 0x00, 0xF4]] := by
  decide

/-- C21: `Uint64ToSlaveID(n)` returns an error if and only if `n > 247`; for every
`n <= 247` it returns a nil error and a byte whose numeric value equals `n`, and on
error the returned id is 0. -/
theorem Uint64ToSlaveID_spec (n : Nat) :
    ((Uint64ToSlaveID n).2 ≠ none ↔ n > 247) ∧
    (n ≤ 247 → (Uint64ToSlaveID n).2 = none ∧ (Uint64ToSlaveID n).1.val = n) ∧
    ((Uint64ToSlaveID n).2 ≠ none → (Uint64ToSlaveID n).1 = 0) := by
  unfold Uint64ToSlaveID
  split
  · rename_i h
    refine ⟨by simp [h], fun h' => by omega, fun _ => rfl⟩
  · rename_i h
    refine ⟨by simp [h], fun _ => ⟨rfl, ?_⟩, fun h' => by simp at h'⟩
    simp only [Fin.ofNat, Fin.val_mk]
    omega

theorem Uint64ToSlaveID_spec_witness :
    (Uint64ToSlaveID 17).2 = none ∧ (Uint64ToSlaveID 17).1.val = 17 :=
  (Uint64ToSlaveID_spec 17).2.1 (by decide)

theorem pdu_size_ge_two (OverSizeSupport : Bool) (h : List Byte) (isClient : Bool) :
    2 ≤ GetPDUSizeFromHeader OverSizeSupport h isClient := by
  simp only [GetPDUSizeFromHeader]
  split
  · exact le_refl _
  · split
    · exact le_refl _
    · split
      · omega
      · split
        · omega
        · split
          · omega
          · split
            · omega
            · split
              · split
                · omega
                · have : (0 : Int) ≤ Int.tdiv ((((h.getD 3 0).val * 256 + (h.getD 4 0).val : Nat) : Int) - 1) 8 := by
                    by_cases h0 : (h.getD 3 0).val * 256 + (h.getD 4 0).val = 0
                    · rw [h0]; decide
                    · rw [Int.tdiv_eq_ediv (by omega) (by norm_num)]
                      omega
                  omega
              · omega

theorem pdu_size_first_six (OverSizeSupport : Bool) (h : List Byte) (isClient : Bool)
    (h6 : 6 ≤ h.length) :
    GetPDUSizeFromHeader OverSizeSupport h isClient =
      GetPDUSizeFromHeader OverSizeSupport (h.take 6) isClient := by
  have e : ∀ i, i < 6 → (h.take 6).getD i 0 = h.getD i 0 := fun i hi => getD_take h 6 i 0 hi
  have hl : (h.take 6).length = 6 := by simp [h6]
  have h2 : ¬ h.length < 2 := by omega
  have h6' : ¬ h.length < 6 := by omega
  simp only [GetPDUSizeFromHeader, hl, e 0 (by norm_num), e 1 (by norm_num), e 3 (by norm_num),
    e 4 (by norm_num), e 5 (by norm_num), h2, h6', if_false, Nat.reduceLT]

theorem getD_append_left (h t : List Byte) (i : Nat) (hi : i < h.length) :
    (h ++ t).getD i 0 = h.getD i 0 := by
  simp [List.getD_eq_getElem?_getD, List.getElem?_append_left hi]

theorem tdiv_pred_nonneg (n : Nat) : (0 : Int) ≤ Int.tdiv ((n : Int) - 1) 8 := by
  by_cases h0 : n = 0
  · subst h0; decide
  · rw [Int.tdiv_eq_ediv (by omega) (by norm_num)]
    omega

theorem pdu_size_mono (OverSizeSupport : Bool) (h t : List Byte) (isClient : Bool) :
    GetPDUSizeFromHeader OverSizeSupport h isClient ≤
      GetPDUSizeFromHeader OverSizeSupport (h ++ t) isClient := by
  by_cases h2 : h.length < 2
  · have : GetPDUSizeFromHeader OverSizeSupport h isClient = 2 := by
      simp only [GetPDUSizeFromHeader, h2, if_true]
    rw [this]
    exact pdu_size_ge_two _ _ _
  · by_cases h6 : 6 ≤ h.length
    · rw [pdu_size_first_six _ h _ h6,
        pdu_size_first_six _ (h ++ t) _ (by simp; omega)]
      rw [List.take_append_of_le_length h6]
    · have e0 : (h ++ t).getD 0 0 = h.getD 0 0 := getD_append_left h t 0 (by omega)
      have e1 : (h ++ t).getD 1 0 = h.getD 1 0 := getD_append_left h t 1 (by omega)
      have hl2 : ¬ (h ++ t).length < 2 := by simp; omega
      have hl6 : h.length < 6 := by omega
      have hn := tdiv_pred_nonneg (((h ++ t).getD 3 0).val * 256 + ((h ++ t).getD 4 0).val)
      simp only [GetPDUSizeFromHeader, h2, hl2, hl6, if_false, if_true, e0, e1]
      split_ifs <;> omega

theorem rtu_size_mono (OverSizeSupport : Bool) (h t : List Byte) (isClient : Bool) :
    GetRTUSizeFromHeader OverSizeSupport h isClient ≤
      GetRTUSizeFromHeader OverSizeSupport (h ++ t) isClient := by
  simp only [GetRTUSizeFromHeader]
  by_cases h3 : h.length < 3
  · rw [if_pos h3]
    split
    · exact le_refl _
    · have := pdu_size_ge_two OverSizeSupport ((h ++ t).drop 1) isClient
      omega
  · have h3' : ¬ (h ++ t).length < 3 := by simp; omega
    rw [if_neg h3, if_neg h3']
    have hd : (h ++ t).drop 1 = h.drop 1 ++ t := by
      rw [List.drop_append_of_le_length (by omega)]
    rw [hd]
    have := pdu_size_mono OverSizeSupport (h.drop 1) t isClient
    omega

/-- C26: a short header yields the shortest possible prediction. For every byte string
`f`, every prefix `h` of `f`, both values of `isClient` and both settings of
`OverSizeSupport`: `GetPDUSizeFromHeader(h, isClient) <= GetPDUSizeFromHeader(f,
isClient)` and `GetRTUSizeFromHeader(h, isClient) <= GetRTUSizeFromHeader(f,
isClient)`; the prediction is 2 (PDU) for fewer than 2 bytes, 3 (RTU) for fewer than
3 bytes, never below 2, and once the PDU header has 6 or more bytes it depends only on
its first 6 bytes. -/
theorem size_prediction_prefix_stable (OverSizeSupport : Bool) (isClient : Bool) (h f : List Byte)
    (hpre : h <+: f) :
    GetPDUSizeFromHeader OverSizeSupport h isClient ≤
      GetPDUSizeFromHeader OverSizeSupport f isClient ∧
    GetRTUSizeFromHeader OverSizeSupport h isClient ≤
      GetRTUSizeFromHeader OverSizeSupport f isClient ∧
    (f.length < 2 → GetPDUSizeFromHeader OverSizeSupport f isClient = 2) ∧
    (f.length < 3 → GetRTUSizeFromHeader OverSizeSupport f isClient = 3) ∧
    2 ≤ GetPDUSizeFromHeader OverSizeSupport f isClient ∧
    2 ≤ GetRTUSizeFromHeader OverSizeSupport f isClient ∧
    (6 ≤ f.length → GetPDUSizeFromHeader OverSizeSupport f isClient =
      GetPDUSizeFromHeader OverSizeSupport (f.take 6) isClient) := by
  obtain ⟨t, rfl⟩ := hpre
  refine ⟨pdu_size_mono _ h t _, rtu_size_mono _ h t _, fun h2 => ?_, fun h3 => ?_,
    pdu_size_ge_two _ _ _, ?_, pdu_size_first_six _ _ _⟩
  · simp only [GetPDUSizeFromHeader, h2, if_true]
  · simp only [GetRTUSizeFromHeader, h3, if_true]
  · simp only [GetRTUSizeFromHeader]
    split
    · omega
    · have := pdu_size_ge_two OverSizeSupport ((h ++ t).drop 1) isClient
      omega

theorem size_prediction_prefix_stable_witness :
    GetPDUSizeFromHeader true [0x10, 0x00, 0x01] false ≤
        GetPDUSizeFromHeader true [0x10, 0x00, 0x01, 0x00, 0x02, 0x04, 0x00, 0x0A] false ∧
      GetRTUSizeFromHeader true [0x10, 0x00, 0x01] false ≤
        GetRTUSizeFromHeader true [0x10, 0x00, 0x01, 0x00, 0x02, 0x04, 0x00, 0x0A] false :=
  ⟨(size_prediction_prefix_stable true false [0x10, 0x00, 0x01]
      [0x10, 0x00, 0x01, 0x00, 0x02, 0x04, 0x00, 0x0A] (by decide)).1,
    (size_prediction_prefix_stable true false [0x10, 0x00, 0x01]
      [0x10, 0x00, 0x01, 0x00, 0x02, 0x04, 0x00, 0x0A] (by decide)).2.1⟩

theorem bidirectional_of_one_side (OverSizeSupport : Bool) (f : List Byte)
    (hv : crc.Validate f = true)
    (hside : GetRTUSizeFromHeader OverSizeSupport f false = f.length ∨
      GetRTUSizeFromHeader OverSizeSupport f true = f.length) :
    GetRTUBidirectionalSizeFromHeader OverSizeSupport f = f.length := by
  simp only [GetRTUBidirectionalSizeFromHeader]
  generalize GetRTUSizeFromHeader OverSizeSupport f false = a at hside ⊢
  generalize GetRTUSizeFromHeader OverSizeSupport f true = b at hside ⊢
  have htake : f.take f.length = f := List.take_length f
  by_cases hab : a = b
  · rw [if_pos hab]
    rcases hside with h | h <;> omega
  · rw [if_neg hab]
    by_cases hgt : a > b
    · simp only [hgt, if_true]
      rcases hside with h | h
      · subst h
        have h1 : ¬ b > f.length := by omega
        simp [h1, htake, hv]
      · subst h
        have h2 : ¬ a ≤ f.length := by omega
        simp [h2, htake, hv]
    · simp only [hgt, if_false]
      rcases hside with h | h
      · subst h
        have h2 : ¬ b ≤ f.length := by omega
        simp [h2, htake, hv]
      · subst h
        have h1 : ¬ a > f.length := by omega
        simp [h1, htake, hv]

/-- C25: the bidirectional predictor recognises complete frames of either direction.
With `OverSizeSupport` off, for every complete well-formed ADU `f` of any supported
function code, whether a request, a normal response or an exception reply, such that
`crc.Validate(f)` holds, `GetRTUBidirectionalSizeFromHeader(f) = len(f)`, whatever the
values of the address, quantity, byte-count and CRC bytes. -/
theorem GetRTUBidirectionalSizeFromHeader_complete_frame (f : List Byte)
    (hwf : isRequestADU f = true ∨ isResponseADU f = true) (hv : crc.Validate f = true) :
    GetRTUBidirectionalSizeFromHeader false f = f.length := by
  apply bidirectional_of_one_side false f hv
  rcases hwf with h | h
  · exact Or.inl (size_request f h)
  · exact Or.inr (size_response f h)

set_option maxRecDepth 100000 in
theorem GetRTUBidirectionalSizeFromHeader_complete_frame_witness :
    GetRTUBidirectionalSizeFromHeader false readCoilsResponse = 10 ∧
      GetRTUBidirectionalSizeFromHeader false writeSingleRequest = 8 :=
  ⟨GetRTUBidirectionalSizeFromHeader_complete_frame readCoilsResponse (Or.inr (by decide))
      (by decide),
    GetRTUBidirectionalSizeFromHeader_complete_frame writeSingleRequest (Or.inl (by decide))
      (by decide)⟩

theorem wp_write_id {W : Type} (lib : Lib) (s : RTUServer W) (delay : Int) (h0 : Handled W)
    (pdu : PDU) (slaveId : Byte) (hid : slaveId = 0 ∨ slaveId = s.SlaveID)
    (hev : ∀ adu err, Event.Write adu err ∉ h0.events) :
    ∀ adu err, Event.Write adu err ∈ (Serve.wp lib s.env delay h0 pdu slaveId).events →
      s.SlaveID ≠ 0 ∧ ∃ pdu1, adu = lib.MakeRTU s.SlaveID pdu1 := by
  intro adu err hmem
  rw [wp_events] at hmem
  split at hmem
  · simp only [List.append_nil] at hmem
    exact absurd hmem (hev adu err)
  · rename_i h0'
    rcases hid with hz | hs
    · exact absurd hz h0'
    · simp only [List.mem_append, List.mem_cons, List.mem_singleton, Event.Write.injEq,
        List.not_mem_nil, or_false, false_or] at hmem
      rcases hmem with hm | hm | ⟨hm, _⟩
      · exact absurd hm (hev adu err)
      · cases hm
      · exact ⟨hs ▸ h0', pdu, hs ▸ hm⟩

theorem handle_write_id {W : Type} (lib : Lib) (s : RTUServer W) (delay : Int) (w : W)
    (stats : Stats) (r : RTU) (h : Handled W)
    (hh : Serve.handle lib s delay w stats r = some h) :
    ∀ adu err, Event.Write adu err ∈ h.events →
      s.SlaveID ≠ 0 ∧ ∃ pdu1, adu = lib.MakeRTU s.SlaveID pdu1 := by
  unfold Serve.handle at hh
  split at hh
  · split at hh <;> (cases hh; simp)
  · rename_i p hp
    split at hh
    · simp at hh
    · rename_i r0 tl
      split at hh
      · cases hh; simp
      · rename_i hid
        have hid1 : r0 = 0 ∨ r0 = s.SlaveID := by
          by_cases h0 : r0 = 0
          · exact Or.inl h0
          · right
            by_contra h1
            exact hid ⟨h0, h1⟩
        split at hh
        · cases hh
          exact wp_write_id lib s delay _ _ r0 hid1 (by simp)
        · simp only at hh
          split at hh
          · split at hh <;>
              (cases hh; exact wp_write_id lib s delay _ _ r0 hid1 (by simp))
          · split at hh
            · split at hh
              · cases hh
                exact wp_write_id lib s delay _ _ r0 hid1 (by simp)
              · split at hh <;>
                  (cases hh; exact wp_write_id lib s delay _ _ r0 hid1 (by simp))
            · cases hh; simp

/-- C28: the server only ever speaks as itself. In every run of `Serve`, every ADU
handed to the transport is `MakeRTU(SlaveID, pdu)` for some PDU, with the server's
configured `SlaveID`, and that `SlaveID` is not 0; consequently a server configured
with `SlaveID` 0 never transmits anything. -/
theorem Serve_speaks_as_itself {W : Type} (lib : Lib) (OverSizeSupport : Bool)
    (OverSizeMaxRTU : Nat) (s : RTUServer W) (fuel : Nat) (w : W) (stats : Stats) :
    (∀ round ∈ (RTUServer.Serve lib OverSizeSupport OverSizeMaxRTU s fuel w stats).rounds,
      ∀ adu err, Event.Write adu err ∈ round.events →
        s.SlaveID ≠ 0 ∧ ∃ pdu, adu = lib.MakeRTU s.SlaveID pdu) ∧
    (s.SlaveID = 0 →
      ∀ round ∈ (RTUServer.Serve lib OverSizeSupport OverSizeMaxRTU s fuel w stats).rounds,
        ∀ adu err, Event.Write adu err ∉ round.events) := by
  have key : ∀ round ∈ (RTUServer.Serve lib OverSizeSupport OverSizeMaxRTU s fuel w stats).rounds,
      ∀ adu err, Event.Write adu err ∈ round.events →
        s.SlaveID ≠ 0 ∧ ∃ pdu, adu = lib.MakeRTU s.SlaveID pdu := by
    intro round hr adu err hmem
    rcases loop_rounds lib s _ fuel w stats _ none round hr with h0 | ⟨w1, stats1, h, _, hh, he⟩
    · simp [h0] at hmem
    · rw [he] at hmem
      exact handle_write_id lib s _ w1 stats1 round.frame h hh adu err hmem
  exact ⟨key, fun hz round hr adu err hmem => (key round hr adu err hmem).1 hz⟩

set_option maxRecDepth 100000 in
theorem Serve_speaks_as_itself_witness :
    sampleRound ∈ (RTUServer.Serve (specLib false) false 512 sampleServer 2 sampleWorld zeroStats).rounds ∧
      Event.Write [0x11, 6, 0, 1, 0, 3, 0x9A, 0x9B] none ∈ sampleRound.events ∧
      ((0x11 : Byte) ≠ 0 ∧ ∃ pdu, [0x11, 6, 0, 1, 0, 3, 0x9A, 0x9B] = MakeRTU 0x11 pdu) :=
  have hmem : sampleRound ∈
      (RTUServer.Serve (specLib false) false 512 sampleServer 2 sampleWorld zeroStats).rounds :=
    (by decide : (RTUServer.Serve (specLib false) false 512 sampleServer 2 sampleWorld zeroStats).rounds
      = [sampleRound]) ▸ List.mem_singleton_self sampleRound
  have hev : Event.Write [0x11, 6, 0, 1, 0, 3, 0x9A, 0x9B] none ∈ sampleRound.events := by
    simp [sampleRound]
  ⟨hmem, hev, (Serve_speaks_as_itself (specLib false) false 512 sampleServer 2 sampleWorld
    zeroStats).1 sampleRound hmem _ _ hev⟩

theorem Stats.le_iff (a b : Stats) :
    a.le b = true ↔ a.ReadPackets ≤ b.ReadPackets ∧ a.CrcErrors ≤ b.CrcErrors ∧
      a.RemoteErrors ≤ b.RemoteErrors ∧ a.OtherErrors ≤ b.OtherErrors ∧
      a.LongReadWarnings ≤ b.LongReadWarnings ∧ a.FormateWarnings ≤ b.FormateWarnings ∧
      a.IDDrops ≤ b.IDDrops ∧ a.OtherDrops ≤ b.OtherDrops := by
  simp only [Stats.le, Bool.and_eq_true, decide_eq_true_eq]
  tauto

theorem Stats.le_refl (a : Stats) : a.le a = true := by
  rw [Stats.le_iff]
  simp

theorem Stats.le_trans (a b c : Stats) (h1 : a.le b = true) (h2 : b.le c = true) :
    a.le c = true := by
  rw [Stats.le_iff] at *
  omega

theorem finish_stats (st : ReadState) (rest : List TransportRead) (n : Nat)
    (err : Option Error) (e : ReadEnd) (h : Read.finish st rest = .returned n err e) :
    st.stats.le e.stats = true ∧ e.stats.ReadPackets = st.stats.ReadPackets := by
  unfold Read.finish at h
  split at h
  · split at h
    · simp only [ReadResult.returned.injEq] at h
      obtain ⟨_, _, h3⟩ := h
      subst h3
      exact ⟨by rw [Stats.le_iff]; simp, rfl⟩
    · split at h <;>
      · simp only [ReadResult.returned.injEq] at h
        obtain ⟨_, _, h3⟩ := h
        subst h3
        exact ⟨by rw [Stats.le_iff]; simp, rfl⟩
  · simp only [ReadResult.returned.injEq] at h
    obtain ⟨_, _, h3⟩ := h
    subst h3
    exact ⟨Stats.le_refl _, rfl⟩

theorem body_stats (OverSizeSupport : Bool) (cutoff : Nat → Int) (st : ReadState)
    (script : List TransportRead) :
    (∀ st1 rest1, Read.body OverSizeSupport cutoff st script = .next st1 rest1 →
      st1.stats = st.stats) ∧
    (∀ n err e, Read.body OverSizeSupport cutoff st script = .done (.returned n err e) →
      st.stats.le e.stats = true ∧ e.stats.ReadPackets = st.stats.ReadPackets) := by
  unfold Read.body
  split
  · obtain ⟨e, he⟩ := more_next OverSizeSupport
      { st with p := st.s.last.take (min st.p.length st.s.last.length) ++
                  st.p.drop (min st.p.length st.s.last.length),
                read := st.read + min st.p.length st.s.last.length,
                s := { st.s with last := [] } } script
    rw [he]
    refine ⟨fun st1 rest1 h => ?_, fun n err e h => by simp at h⟩
    simp only [ReadStep.next.injEq] at h
    obtain ⟨h1, _⟩ := h
    subst h1
    rfl
  · cases script with
    | nil => exact ⟨fun st1 rest1 h => by simp at h, fun n err e h => by simp at h⟩
    | cons t rest =>
      simp only
      split
      · exact ⟨fun st1 rest1 h => by simp at h, fun n err e h => by simp at h⟩
      · split
        · refine ⟨fun st1 rest1 h => by simp at h, fun n err e h => ?_⟩
          simp only [ReadStep.done.injEq, ReadResult.returned.injEq] at h
          obtain ⟨_, _, h3⟩ := h
          subst h3
          exact ⟨by rw [Stats.le_iff]; simp, rfl⟩
        · split
          · refine ⟨fun st1 rest1 h => by simp at h, fun n err e h => ?_⟩
            simp only [ReadStep.done.injEq, ReadResult.returned.injEq] at h
            obtain ⟨_, _, h3⟩ := h
            subst h3
            exact ⟨Stats.le_refl _, rfl⟩
          · obtain ⟨e, he⟩ := more_next OverSizeSupport
              { st with p := st.p.take st.read ++ t.data ++ st.p.drop (st.read + t.data.length),
                        read := st.read + t.data.length,
                        s := { st.s with lastReadAt := t.now } } rest
            rw [he]
            refine ⟨fun st1 rest1 h => ?_, fun n err e h => by simp at h⟩
            simp only [ReadStep.next.injEq] at h
            obtain ⟨h1, _⟩ := h
            subst h1
            rfl

theorem loop_stats (OverSizeSupport : Bool) (cutoff : Nat → Int) :
    ∀ (fuel : Nat) (script : List TransportRead) (st : ReadState),
      ∀ n err e, Read.loop OverSizeSupport cutoff fuel script st = .returned n err e →
        st.stats.le e.stats = true ∧ e.stats.ReadPackets = st.stats.ReadPackets := by
  intro fuel
  induction fuel with
  | zero =>
    intro script st n err e h
    simp [Read.loop] at h
  | succ fuel ih =>
    intro script st n err e h
    obtain ⟨hnext, hdone⟩ := body_stats OverSizeSupport cutoff st script
    by_cases hlt : st.read < st.expected
    · cases hb : Read.body OverSizeSupport cutoff st script with
      | next st1 rest1 =>
        have hl : Read.loop OverSizeSupport cutoff (fuel + 1) script st =
            Read.loop OverSizeSupport cutoff fuel rest1 st1 := by
          simp only [Read.loop, hlt, if_true, hb]
        rw [hl] at h
        have := ih rest1 st1 n err e h
        rw [hnext st1 rest1 hb] at this
        exact this
      | done r =>
        have hl : Read.loop OverSizeSupport cutoff (fuel + 1) script st = r := by
          simp only [Read.loop, hlt, if_true, hb]
        rw [hl] at h
        subst h
        exact hdone n err e hb
    · have hl : Read.loop OverSizeSupport cutoff (fuel + 1) script st = Read.finish st script := by
        simp only [Read.loop, hlt, if_false]
      rw [hl] at h
      exact finish_stats st script n err e h

theorem Read_stats (OverSizeSupport : Bool) (cutoff : Nat → Int) (s : rtuPacketReader)
    (stats : Stats) (p : List Byte) (script : List TransportRead) (n : Nat)
    (err : Option Error) (e : ReadEnd)
    (h : rtuPacketReader.Read OverSizeSupport cutoff s stats p script = .returned n err e) :
    stats.le e.stats = true ∧ e.stats.ReadPackets = stats.ReadPackets + 1 := by
  have := loop_stats OverSizeSupport cutoff _ script _ n err e h
  simp only at this
  refine ⟨?_, this.2⟩
  have h1 := this.1
  rw [Stats.le_iff] at h1 ⊢
  simp only at h1
  omega

theorem wp_stats {W : Type} (lib : Lib) (env : Env W) (delay : Int) (h0 : Handled W)
    (pdu : PDU) (slaveId : Byte) : (Serve.wp lib env delay h0 pdu slaveId).stats = h0.stats := by
  unfold Serve.wp
  split <;> rfl

theorem handle_stats {W : Type} (lib : Lib) (s : RTUServer W) (delay : Int) (w : W)
    (stats : Stats) (r : RTU) (h : Handled W)
    (hh : Serve.handle lib s delay w stats r = some h) : stats.le h.stats = true := by
  have hinc : ∀ x : Stats, x = { stats with OtherErrors := stats.OtherErrors + 1 } →
      stats.le x = true := by
    intro x hx
    subst hx
    rw [Stats.le_iff]
    simp
  unfold Serve.handle at hh
  split at hh
  · split at hh <;> (cases hh; rw [Stats.le_iff]; simp)
  · split at hh
    · simp at hh
    · split at hh
      · cases hh; rw [Stats.le_iff]; simp
      · split at hh
        · cases hh
          rw [Serve.wec, wp_stats]
          exact hinc _ rfl
        · simp only at hh
          split at hh
          · split at hh
            · cases hh
              rw [Serve.wec, wp_stats]
              exact hinc _ rfl
            · cases hh
              rw [wp_stats]
              exact Stats.le_refl _
          · split at hh
            · split at hh
              · cases hh
                rw [Serve.wec, wp_stats]
                exact hinc _ rfl
              · split at hh
                · cases hh
                  rw [Serve.wec, wp_stats]
                  exact hinc _ rfl
                · cases hh
                  rw [wp_stats]
                  exact Stats.le_refl _
            · cases hh
              exact Stats.le_refl _

theorem serve_loop_stats {W : Type} (lib : Lib) (s : RTUServer W) (delay : Int)
    (henv : ∀ w stats rb pr, s.env.Read w stats rb = some pr → stats.le pr.stats = true) :
    ∀ (fuel : Nat) (w : W) (stats : Stats) (rb : List Byte) (ioErr : Option Error),
      stats.le (Serve.loop lib s delay fuel w stats rb ioErr).stats = true := by
  intro fuel
  induction fuel with
  | zero =>
    intro w stats rb ioErr
    cases ioErr <;> simp [Serve.loop, Stats.le_refl]
  | succ fuel ih =>
    intro w stats rb ioErr
    cases ioErr with
    | some e => simp [Serve.loop, Stats.le_refl]
    | none =>
      simp only [Serve.loop]
      split
      · exact Stats.le_refl _
      · rename_i pr hread
        have h1 := henv w stats rb pr hread
        split
        · exact h1
        · split
          · exact h1
          · split
            · exact h1
            · rename_i h hh
              have h2 := handle_stats lib s delay pr.w pr.stats _ h hh
              have h3 := ih h.w h.stats pr.rb h.ioErr
              exact Stats.le_trans _ _ _ h1 (Stats.le_trans _ _ _ h2 h3)

theorem serialEnv_read_stats (OverSizeSupport : Bool) (cutoff : Nat → Int) (minDelay : Int)
    (writeErr : RTU → Option Error) (onRead : PDU → Except Error (List Byte))
    (onWrite : PDU → List Byte → Option Error) (w : SerialWorld) (stats : Stats)
    (rb : List Byte) (pr : PacketRead SerialWorld)
    (h : (serialEnv OverSizeSupport cutoff minDelay writeErr onRead onWrite).Read w stats rb
      = some pr) :
    stats.le pr.stats = true := by
  simp only [serialEnv] at h
  split at h
  · rename_i n err e hread
    simp only [Option.some.injEq] at h
    subst h
    exact (Read_stats OverSizeSupport cutoff _ _ _ _ n err e hread).1
  · simp at h

/-- C22: counters only grow. Every call of the packet reader's `Read` that returns
leaves each of the eight `Stats` counters greater than or equal to its previous value
and increases `ReadPackets` by exactly one; the processing of a frame by `Serve`
leaves each counter greater than or equal to its previous value, and so does every
run of `Serve` on a server made with `NewRTUPacketReader`, whatever the number of
passes. `Stats.Reset` sets all eight counters to zero, so that `TotalDrops() = 0`
immediately afterwards. -/
theorem Stats_counters_only_grow (lib : Lib) (OverSizeSupport : Bool) (OverSizeMaxRTU : Nat)
    (cutoff : Nat → Int) (minDelay : Int) (writeErr : RTU → Option Error)
    (onRead : PDU → Except Error (List Byte)) (onWrite : PDU → List Byte → Option Error)
    (slaveID : Byte) (fuel : Nat) (w : SerialWorld) (stats : Stats) :
    (∀ (r : rtuPacketReader) (p : List Byte) (script : List TransportRead) (n : Nat)
      (err : Option Error) (e : ReadEnd),
      rtuPacketReader.Read OverSizeSupport cutoff r stats p script = .returned n err e →
        stats.le e.stats = true ∧ e.stats.ReadPackets = stats.ReadPackets + 1) ∧
    (∀ (delay : Int) (frame : RTU) (h : Handled SerialWorld),
      Serve.handle lib
          { env := serialEnv OverSizeSupport cutoff minDelay writeErr onRead onWrite,
            SlaveID := slaveID } delay w stats frame = some h →
        stats.le h.stats = true) ∧
    stats.le (RTUServer.Serve lib OverSizeSupport OverSizeMaxRTU
        { env := serialEnv OverSizeSupport cutoff minDelay writeErr onRead onWrite,
          SlaveID := slaveID } fuel w stats).stats = true ∧
    (Stats.Reset stats).ReadPackets = 0 ∧ (Stats.Reset stats).CrcErrors = 0 ∧
    (Stats.Reset stats).RemoteErrors = 0 ∧ (Stats.Reset stats).OtherErrors = 0 ∧
    (Stats.Reset stats).LongReadWarnings = 0 ∧ (Stats.Reset stats).FormateWarnings = 0 ∧
    (Stats.Reset stats).IDDrops = 0 ∧ (Stats.Reset stats).OtherDrops = 0 ∧
    (Stats.Reset stats).TotalDrops = 0 := by
  refine ⟨fun r p script n err e h => Read_stats _ _ _ _ _ _ n err e h,
    fun delay frame h hh => handle_stats lib _ delay w stats frame h hh,
    serve_loop_stats lib _ _
      (fun w stats rb pr h => serialEnv_read_stats _ _ _ _ _ _ w stats rb pr h) fuel w stats _ none,
    rfl, rfl, rfl, rfl, rfl, rfl, rfl, rfl, rfl⟩

set_option maxRecDepth 100000 in
theorem Stats_counters_only_grow_witness :
    zeroStats.le { zeroStats with ReadPackets := 1, LongReadWarnings := 1 } = true ∧
      ({ zeroStats with ReadPackets := 1, LongReadWarnings := 1 } : Stats).ReadPackets =
        zeroStats.ReadPackets + 1 :=
  (Stats_counters_only_grow (specLib false) false 512 (fun _ => 1000) 1750000 (fun _ => none)
    (fun _ => .ok [0, 3]) (fun _ _ => none) 0x11 1 longReadWorld zeroStats).1
    serverReader (List.replicate 16 0) [⟨writeSingleRequest ++ [0x11], none, 5⟩] 8 none
    { p := writeSingleRequest ++ [0x11, 0, 0, 0, 0, 0, 0, 0],
      s := { serverReader with last := [0x11], lastReadAt := 5 },
      stats := { zeroStats with ReadPackets := 1, LongReadWarnings := 1 },
      rest := [] }
    (by decide)

theorem finish_bytes (st : ReadState) (rest : List TransportRead) (hlast : st.s.last = [])
    (hrd : st.read ≤ st.p.length)
    (n : Nat) (err : Option Error) (e : ReadEnd) (h : Read.finish st rest = .returned n err e) :
    e.rest = rest ∧ st.p.take st.read = e.p.take n ++ e.s.last ∧
      e.s.last.length ≤ st.p.length := by
  unfold Read.finish at h
  split at h
  · rename_i hgt
    split at h
    · simp only [ReadResult.returned.injEq] at h
      obtain ⟨h1, _, h3⟩ := h
      subst h1 h3
      refine ⟨rfl, ?_, ?_⟩
      · simp only
        have h1 : st.p.take st.expected = (st.p.take st.read).take st.expected := by
          rw [List.take_take, Nat.min_eq_left (by omega)]
        rw [h1, List.take_append_drop]
      · simp only [List.length_drop, List.length_take]
        omega
    · split at h <;>
      · simp only [ReadResult.returned.injEq] at h
        obtain ⟨h1, _, h3⟩ := h
        subst h1 h3
        exact ⟨rfl, by simp [hlast], by simp [hlast]⟩
  · simp only [ReadResult.returned.injEq] at h
    obtain ⟨h1, _, h3⟩ := h
    subst h1 h3
    exact ⟨rfl, by simp [hlast], by simp [hlast]⟩

theorem body_bytes (OverSizeSupport : Bool) (cutoff : Nat → Int) (st : ReadState)
    (script : List TransportRead) (hrd : st.read ≤ st.p.length)
    (hlast : st.s.last ≠ [] → st.read = 0) (hfit : st.s.last.length ≤ st.p.length) :
    (∀ st1 rest1, Read.body OverSizeSupport cutoff st script = .next st1 rest1 →
      ∃ consumed, script = consumed ++ rest1 ∧
        st.p.take st.read ++ st.s.last ++ delivered consumed = st1.p.take st1.read ∧
        st1.s.last = [] ∧ st1.read ≤ st1.p.length ∧ st1.p.length = st.p.length) ∧
    (∀ n err e, Read.body OverSizeSupport cutoff st script = .done (.returned n err e) →
      ∃ consumed, script = consumed ++ e.rest ∧
        st.p.take st.read ++ st.s.last ++ delivered consumed = e.p.take n ++ e.s.last ∧
        e.s.last.length ≤ st.p.length) := by
  unfold Read.body
  split
  · rename_i hl
    have hl1 : st.s.last ≠ [] := by
      intro h0
      simp [h0] at hl
    have h0 := hlast hl1
    have hmin : min st.p.length st.s.last.length = st.s.last.length := Nat.min_eq_right hfit
    obtain ⟨e, he⟩ := more_next OverSizeSupport
      { st with p := st.s.last.take (min st.p.length st.s.last.length) ++
                  st.p.drop (min st.p.length st.s.last.length),
                read := st.read + min st.p.length st.s.last.length,
                s := { st.s with last := [] } } script
    rw [he]
    refine ⟨fun st1 rest1 h => ?_, fun n err e h => by simp at h⟩
    simp only [ReadStep.next.injEq] at h
    obtain ⟨h1, h2⟩ := h
    subst h1 h2
    refine ⟨[], by simp, ?_, rfl, ?_, ?_⟩
    · simp only [h0, hmin, List.take_zero, List.nil_append, delivered, List.map_nil,
        List.flatten_nil, List.append_nil, Nat.zero_add, List.take_length,
        List.take_left']
    · simp only [List.length_append, List.length_take, List.length_drop, h0]
      omega
    · simp only [List.length_append, List.length_take, List.length_drop]
      omega
  · rename_i hl
    have hl1 : st.s.last = [] := by simpa using hl
    cases script with
    | nil => exact ⟨fun st1 rest1 h => by simp at h, fun n err e h => by simp at h⟩
    | cons t rest =>
      simp only
      split
      · exact ⟨fun st1 rest1 h => by simp at h, fun n err e h => by simp at h⟩
      · rename_i hfits
        have hlenT : (st.p.take st.read).length = st.read := by
          simp only [List.length_take]; omega
        have hlen : (st.p.take st.read ++ t.data ++ st.p.drop (st.read + t.data.length)).length
            = st.p.length := by
          simp only [List.length_append, List.length_take, List.length_drop]
          omega
        have htake : (st.p.take st.read ++ t.data ++ st.p.drop (st.read + t.data.length)).take
            (st.read + t.data.length) = st.p.take st.read ++ t.data := by
          have : st.read + t.data.length = (st.p.take st.read ++ t.data).length := by
            simp only [List.length_append, hlenT]
          rw [this, List.take_left']
          simp only [List.length_append, hlenT]
        have hdel : delivered [t] = t.data := by simp [delivered]
        split
        · refine ⟨fun st1 rest1 h => by simp at h, fun n err e h => ?_⟩
          simp only [ReadStep.done.injEq, ReadResult.returned.injEq] at h
          obtain ⟨h1, _, h3⟩ := h
          subst h1 h3
          refine ⟨[t], rfl, ?_, ?_⟩
          · simp only [hl1, List.append_nil, hdel, List.append_assoc]
            rw [List.take_left' hlenT, List.drop_left' hlenT, List.take_left' rfl]
          · simp only [List.length_take, List.length_drop, List.length_append]
            omega
        · split
          · refine ⟨fun st1 rest1 h => by simp at h, fun n err e h => ?_⟩
            simp only [ReadStep.done.injEq, ReadResult.returned.injEq] at h
            obtain ⟨h1, _, h3⟩ := h
            subst h1 h3
            refine ⟨[t], rfl, ?_, by simp [hl1]⟩
            simp only [hl1, List.append_nil, hdel, htake]
          · obtain ⟨e, he⟩ := more_next OverSizeSupport
              { st with p := st.p.take st.read ++ t.data ++ st.p.drop (st.read + t.data.length),
                        read := st.read + t.data.length,
                        s := { st.s with lastReadAt := t.now } } rest
            rw [he]
            refine ⟨fun st1 rest1 h => ?_, fun n err e h => by simp at h⟩
            simp only [ReadStep.next.injEq] at h
            obtain ⟨h1, h2⟩ := h
            subst h1 h2
            refine ⟨[t], rfl, ?_, hl1, by simp only [hlen]; omega, hlen⟩
            simp only [hl1, List.append_nil, hdel, htake]

theorem delivered_append (a b : List TransportRead) :
    delivered (a ++ b) = delivered a ++ delivered b := by
  simp [delivered]

theorem loop_bytes (OverSizeSupport : Bool) (cutoff : Nat → Int) :
    ∀ (fuel : Nat) (script : List TransportRead) (st : ReadState),
      st.read ≤ st.p.length → (st.s.last ≠ [] → st.read = 0 ∧ st.read < st.expected) →
      st.s.last.length ≤ st.p.length →
      ∀ n err e, Read.loop OverSizeSupport cutoff fuel script st = .returned n err e →
        ∃ consumed, script = consumed ++ e.rest ∧
          st.p.take st.read ++ st.s.last ++ delivered consumed = e.p.take n ++ e.s.last ∧
          e.s.last.length ≤ st.p.length := by
  intro fuel
  induction fuel with
  | zero =>
    intro script st _ _ _ n err e h
    simp [Read.loop] at h
  | succ fuel ih =>
    intro script st hrd hlast hfit n err e h
    obtain ⟨hnext, hdone⟩ := body_bytes OverSizeSupport cutoff st script hrd
      (fun hne => (hlast hne).1) hfit
    by_cases hlt : st.read < st.expected
    · cases hb : Read.body OverSizeSupport cutoff st script with
      | next st1 rest1 =>
        obtain ⟨c1, hs1, he1, hl1, hr1, hp1⟩ := hnext st1 rest1 hb
        have hl : Read.loop OverSizeSupport cutoff (fuel + 1) script st =
            Read.loop OverSizeSupport cutoff fuel rest1 st1 := by
          simp only [Read.loop, hlt, if_true, hb]
        rw [hl] at h
        obtain ⟨c2, hs2, he2, hl2⟩ := ih rest1 st1 hr1 (fun hne => absurd hl1 hne)
          (by simp [hl1]) n err e h
        refine ⟨c1 ++ c2, by rw [hs1, hs2, List.append_assoc], ?_, by omega⟩
        rw [delivered_append, ← List.append_assoc, he1, ← he2, hl1, List.append_nil]
      | done r =>
        have hl : Read.loop OverSizeSupport cutoff (fuel + 1) script st = r := by
          simp only [Read.loop, hlt, if_true, hb]
        rw [hl] at h
        subst h
        exact hdone n err e hb
    · have hl : Read.loop OverSizeSupport cutoff (fuel + 1) script st = Read.finish st script := by
        simp only [Read.loop, hlt, if_false]
      rw [hl] at h
      have hempty : st.s.last = [] := by
        by_contra hne
        exact hlt (hlast hne).2
      obtain ⟨h1, h2, h3⟩ := finish_bytes st script hempty hrd n err e h
      refine ⟨[], by simp [h1], ?_, h3⟩
      simp only [hempty, List.append_nil, delivered, List.map_nil, List.flatten_nil, h2]

theorem Read_bytes (OverSizeSupport : Bool) (cutoff : Nat → Int) (s : rtuPacketReader)
    (stats : Stats) (p : List Byte) (script : List TransportRead) (n : Nat)
    (err : Option Error) (e : ReadEnd) (hfit : s.last.length ≤ p.length)
    (h : rtuPacketReader.Read OverSizeSupport cutoff s stats p script = .returned n err e) :
    ∃ consumed, script = consumed ++ e.rest ∧
      s.last ++ delivered consumed = e.p.take n ++ e.s.last ∧
      e.s.last.length ≤ p.length := by
  have := loop_bytes OverSizeSupport cutoff _ script _ (Nat.zero_le _)
    (fun _ => ⟨rfl, by simp [smallestRTUSize]⟩) hfit n err e h
  simpa using this

theorem readCalls_bytes (OverSizeSupport : Bool) (cutoff : Nat → Int) (L : Nat) :
    ∀ (ps : List (List Byte)) (s : rtuPacketReader) (stats : Stats)
      (script : List TransportRead),
      (∀ p ∈ ps, p.length = L) → s.last.length ≤ L →
      ∃ consumed, script = consumed ++ (readCalls OverSizeSupport cutoff ps s stats script).rest ∧
        s.last ++ delivered consumed =
          (readCalls OverSizeSupport cutoff ps s stats script).returned.flatten ++
            (readCalls OverSizeSupport cutoff ps s stats script).s.last ∧
        (readCalls OverSizeSupport cutoff ps s stats script).s.last.length ≤ L := by
  intro ps
  induction ps with
  | nil =>
    intro s stats script _ hfit
    exact ⟨[], by simp [readCalls], by simp [readCalls, delivered], by simpa [readCalls] using hfit⟩
  | cons p ps ih =>
    intro s stats script hps hfit
    have hp : p.length = L := hps p (List.mem_cons_self _ _)
    have hps1 : ∀ q ∈ ps, q.length = L := fun q hq => hps q (List.mem_cons_of_mem _ hq)
    cases hread : rtuPacketReader.Read OverSizeSupport cutoff s stats p script with
    | returned n err e =>
      obtain ⟨c1, hs1, he1, hl1⟩ := Read_bytes OverSizeSupport cutoff s stats p script n err e
        (by omega) hread
      obtain ⟨c2, hs2, he2, hl2⟩ := ih e.s e.stats e.rest hps1 (by omega)
      refine ⟨c1 ++ c2, ?_, ?_, ?_⟩
      · simp only [readCalls, hread]
        rw [List.append_assoc, ← hs2, ← hs1]
      · simp only [readCalls, hread, List.flatten_cons]
        rw [delivered_append, ← List.append_assoc, he1, List.append_assoc, he2,
          List.append_assoc]
      · simpa only [readCalls, hread] using hl2
    | blocked =>
      exact ⟨[], by simp [readCalls, hread], by simp [readCalls, hread, delivered],
        by simpa [readCalls, hread] using hfit⟩
    | fault =>
      exact ⟨[], by simp [readCalls, hread], by simp [readCalls, hread, delivered],
        by simpa [readCalls, hread] using hfit⟩
    | outOfFuel =>
      exact ⟨[], by simp [readCalls, hread], by simp [readCalls, hread, delivered],
        by simpa [readCalls, hread] using hfit⟩

/-- C27: the packet reader neither loses, duplicates nor reorders bytes. For every
sequence of `Read` calls made with buffers of one fixed length `L` on an initially
empty stash, and every transport behaviour: the transport reads split into those made
so far and those still to come, and the concatenation of the byte slices `p[:n]`
returned so far followed by the current stash equals the concatenation of all bytes
that the reads made so far delivered; the stash is never longer than the buffer. -/
theorem Read_conserves_bytes (OverSizeSupport : Bool) (cutoff : Nat → Int) (L : Nat)
    (ps : List (List Byte)) (s : rtuPacketReader) (stats : Stats)
    (script : List TransportRead) (hps : ∀ p ∈ ps, p.length = L) (hstash : s.last = []) :
    ∃ consumed, script = consumed ++ (readCalls OverSizeSupport cutoff ps s stats script).rest ∧
      (readCalls OverSizeSupport cutoff ps s stats script).returned.flatten ++
          (readCalls OverSizeSupport cutoff ps s stats script).s.last = delivered consumed ∧
      (readCalls OverSizeSupport cutoff ps s stats script).s.last.length ≤ L := by
  obtain ⟨c, h1, h2, h3⟩ := readCalls_bytes OverSizeSupport cutoff L ps s stats script hps
    (by simp [hstash])
  refine ⟨c, h1, ?_, h3⟩
  rw [← h2, hstash, List.nil_append]

set_option maxRecDepth 100000 in
theorem Read_conserves_bytes_witness :
    (readCalls false (fun _ => 1000) [List.replicate 16 0, List.replicate 16 0] serverReader
        zeroStats [⟨writeSingleRequest ++ [0x11], none, 5⟩]).returned = [writeSingleRequest] ∧
      ∃ consumed, [⟨writeSingleRequest ++ [0x11], none, 5⟩] = consumed ++
          (readCalls false (fun _ => 1000) [List.replicate 16 0, List.replicate 16 0]
            serverReader zeroStats [⟨writeSingleRequest ++ [0x11], none, 5⟩]).rest ∧
        (readCalls false (fun _ => 1000) [List.replicate 16 0, List.replicate 16 0]
            serverReader zeroStats [⟨writeSingleRequest ++ [0x11], none, 5⟩]).returned.flatten ++
          (readCalls false (fun _ => 1000) [List.replicate 16 0, List.replicate 16 0]
            serverReader zeroStats [⟨writeSingleRequest ++ [0x11], none, 5⟩]).s.last =
          delivered consumed ∧
        (readCalls false (fun _ => 1000) [List.replicate 16 0, List.replicate 16 0]
            serverReader zeroStats [⟨writeSingleRequest ++ [0x11], none, 5⟩]).s.last.length ≤ 16 :=
  ⟨by decide,
    Read_conserves_bytes false (fun _ => 1000) 16 [List.replicate 16 0, List.replicate 16 0]
      serverReader zeroStats [⟨writeSingleRequest ++ [0x11], none, 5⟩] (by decide) (by decide)⟩

theorem headerRange_make (fc : FunctionCode) (a q : Nat) (ha : a < 65536) (hq : q < 65536) :
    headerRange (fc.MakeRequestHeader a q) = (a, q) := by
  simp only [headerRange, FunctionCode.MakeRequestHeader, List.getD_cons_succ,
    List.getD_cons_zero, Fin.ofNat, Fin.val_mk, Prod.mk.injEq]
  omega

theorem splitStep_bounds (fc : FunctionCode) (limit : Nat) (h : 1 ≤ limit) :
    1 ≤ splitStep fc limit ∧ splitStep fc limit ≤ limit := by
  unfold splitStep
  split
  · omega
  · split <;> omega

theorem splitRequests_tiles (fc : FunctionCode) (step limit : Nat) (h1 : 1 ≤ step)
    (h2 : step ≤ limit) :
    ∀ (fuel a q : Nat), q ≤ fuel → a + q ≤ 65536 → q < 65536 →
      tiles limit a q ((splitRequests fc step fuel a q).map headerRange) = true := by
  intro fuel
  induction fuel with
  | zero =>
    intro a q hq _ _
    have : q = 0 := by omega
    subst this
    simp [splitRequests, tiles]
  | succ fuel ih =>
    intro a q hq ha hq16
    simp only [splitRequests]
    split
    · rename_i h0
      subst h0
      simp [tiles]
    · rename_i h0
      split
      · rename_i hle
        rw [List.map_cons, List.map_nil, headerRange_make fc a q (by omega) (by omega)]
        simp only [tiles, beq_self_eq_true, Bool.true_and, Nat.sub_self, Bool.and_eq_true,
          decide_eq_true_eq, beq_iff_eq]
        exact ⟨⟨⟨by omega, by omega⟩, le_refl _⟩, trivial⟩
      · rename_i hgt
        rw [List.map_cons, headerRange_make fc a step (by omega) (by omega)]
        simp only [tiles, beq_self_eq_true, Bool.true_and, Bool.and_eq_true, decide_eq_true_eq]
        exact ⟨⟨⟨h1, h2⟩, by omega⟩, ih (a + step) (q - step) (by omega) (by omega) (by omega)⟩

theorem tiles_sum (limit : Nat) :
    ∀ (rs : List (Nat × Nat)) (a q : Nat), tiles limit a q rs = true →
      (rs.map Prod.snd).sum = q := by
  intro rs
  induction rs with
  | nil =>
    intro a q h
    simp only [tiles, beq_iff_eq] at h
    simp [h]
  | cons r rs ih =>
    intro a q h
    obtain ⟨a1, q1⟩ := r
    simp only [tiles, Bool.and_eq_true, decide_eq_true_eq, beq_iff_eq] at h
    obtain ⟨⟨⟨⟨_, _⟩, _⟩, hle⟩, hrest⟩ := h
    have := ih _ _ hrest
    simp only [List.map_cons, List.sum_cons, this]
    omega

/-- C23 (against the spec-modelled `MakePDURequestHeadersSized`): request splitter
coverage. For every supported function code `fc`, start address, quantity `qty >= 1`
and limit `>= 1` for which `MakePDURequestHeadersSized(fc, start, qty, limit, nil)`
succeeds, the returned headers, in order, carry start addresses and quantities
`(a_i, q_i)` (the quantity being a `uint16`) with `a_0 = start`,
`a_(i+1) = a_i + q_i`, `1 <= q_i <= limit`, and the sum of the `q_i` is `qty`: the
ranges tile `[start, start+qty)` with no gap and no overlap. -/
theorem MakePDURequestHeadersSized_tiles (fc : FunctionCode) (start qty limit : Nat)
    (hs : List PDU) (hqty : 1 ≤ qty) (hq16 : qty < 65536) (hlimit : 1 ≤ limit)
    (hok : MakePDURequestHeadersSized fc start qty limit [] = .ok hs) :
    tiles limit start qty (hs.map headerRange) = true ∧
      ((hs.map headerRange).map Prod.snd).sum = qty ∧ hs ≠ [] := by
  unfold MakePDURequestHeadersSized at hok
  split at hok
  · simp at hok
  · split at hok
    · simp at hok
    · split at hok
      · simp at hok
      · rename_i hrange
        simp only [List.nil_append, Except.ok.injEq] at hok
        subst hok
        obtain ⟨hs1, hs2⟩ := splitStep_bounds fc limit hlimit
        have ht := splitRequests_tiles fc (splitStep fc limit) limit hs1 hs2 qty start qty
          (le_refl _) (by omega) hq16
        refine ⟨ht, tiles_sum limit _ _ _ ht, ?_⟩
        intro hnil
        rw [hnil] at ht
        simp only [List.map_nil, tiles, beq_iff_eq] at ht
        omega

theorem MakePDURequestHeadersSized_tiles_witness :
    MakePDURequestHeadersSized 3 0 5 1 [] =
        .ok [[3, 0, 0, 0, 1], [3, 0, 1, 0, 1], [3, 0, 2, 0, 1], [3, 0, 3, 0, 1], [3, 0, 4, 0, 1]] ∧
      tiles 1 0 5 (([[3, 0, 0, 0, 1], [3, 0, 1, 0, 1], [3, 0, 2, 0, 1], [3, 0, 3, 0, 1],
        [3, 0, 4, 0, 1]] : List PDU).map headerRange) = true :=
  ⟨by rfl, (MakePDURequestHeadersSized_tiles 3 0 5 1
    [[3, 0, 0, 0, 1], [3, 0, 1, 0, 1], [3, 0, 2, 0, 1], [3, 0, 3, 0, 1], [3, 0, 4, 0, 1]]
    (by decide) (by decide) (by decide) (by rfl)).1⟩

theorem loop_read_error {W : Type} (lib : Lib) (s : RTUServer W) (delay : Int) (k : Nat)
    (w : W) (stats : Stats) (rb : List Byte) (pr : PacketRead W) (e : Error)
    (hread : s.env.Read w stats rb = some pr) (herr : pr.err = some e) :
    Serve.loop lib s delay (k + 1) w stats rb none =
      { rounds := [{ frame := pr.rb.take pr.n, err := some e, events := [] }],
        w := pr.w, stats := pr.stats, result := .returned (some e) } := by
  simp [Serve.loop, hread, herr]

theorem loop_returned {W : Type} (lib : Lib) (s : RTUServer W) (delay : Int) (k : Nat)
    (w : W) (stats : Stats) (rb : List Byte) (e : Error) :
    Serve.loop lib s delay k w stats rb (some e) =
      { rounds := [], w := w, stats := stats, result := .returned (some e) } := by
  cases k <;> simp [Serve.loop]

theorem loop_pass {W : Type} (lib : Lib) (s : RTUServer W) (delay : Int) (k : Nat)
    (w : W) (stats : Stats) (rb : List Byte) (pr : PacketRead W) (h : Handled W)
    (hread : s.env.Read w stats rb = some pr) (herr : pr.err = none)
    (hlen : pr.n ≤ pr.rb.length)
    (hh : Serve.handle lib s delay pr.w pr.stats (pr.rb.take pr.n) = some h) :
    Serve.loop lib s delay (k + 1) w stats rb none =
      { rounds := { frame := pr.rb.take pr.n, err := none, events := h.events } ::
          (Serve.loop lib s delay k h.w h.stats pr.rb h.ioErr).rounds,
        w := (Serve.loop lib s delay k h.w h.stats pr.rb h.ioErr).w,
        stats := (Serve.loop lib s delay k h.w h.stats pr.rb h.ioErr).stats,
        result := (Serve.loop lib s delay k h.w h.stats pr.rb h.ioErr).result } := by
  have hlen1 : ¬ pr.rb.length < pr.n := by omega
  simp [Serve.loop, hread, herr, hlen1, hh]

theorem loop_split {W : Type} (lib : Lib) (s : RTUServer W) (delay : Int) :
    ∀ (k : Nat) (w : W) (stats : Stats) (rb : List Byte),
      (Serve.loop lib s delay k w stats rb none).result = .running →
      ∃ rb1, (k = 0 → rb1 = rb) ∧ ∀ m,
        Serve.loop lib s delay (k + m) w stats rb none =
          { rounds := (Serve.loop lib s delay k w stats rb none).rounds ++
              (Serve.loop lib s delay m (Serve.loop lib s delay k w stats rb none).w
                (Serve.loop lib s delay k w stats rb none).stats rb1 none).rounds,
            w := (Serve.loop lib s delay m (Serve.loop lib s delay k w stats rb none).w
                (Serve.loop lib s delay k w stats rb none).stats rb1 none).w,
            stats := (Serve.loop lib s delay m (Serve.loop lib s delay k w stats rb none).w
                (Serve.loop lib s delay k w stats rb none).stats rb1 none).stats,
            result := (Serve.loop lib s delay m (Serve.loop lib s delay k w stats rb none).w
                (Serve.loop lib s delay k w stats rb none).stats rb1 none).result } := by
  intro k
  induction k with
  | zero =>
    intro w stats rb _
    refine ⟨rb, fun _ => rfl, fun m => ?_⟩
    rw [Nat.zero_add]
    simp [Serve.loop]
  | succ k ih =>
    intro w stats rb hrun
    cases hread : s.env.Read w stats rb with
    | none => simp [Serve.loop, hread] at hrun
    | some pr =>
      cases herr : pr.err with
      | some e => simp [Serve.loop, hread, herr] at hrun
      | none =>
        by_cases hlen : pr.rb.length < pr.n
        · simp [Serve.loop, hread, herr, hlen] at hrun
        · cases hh : Serve.handle lib s delay pr.w pr.stats (pr.rb.take pr.n) with
          | none => simp [Serve.loop, hread, herr, hlen, hh] at hrun
          | some h =>
            have hstep := fun j => loop_pass lib s delay j w stats rb pr h hread herr
              (by omega) hh
            cases hio : h.ioErr with
            | some e =>
              rw [hstep k, hio, loop_returned] at hrun
              simp at hrun
            | none =>
              rw [hstep k, hio] at hrun
              simp only at hrun
              obtain ⟨rb1, _, hm⟩ := ih h.w h.stats pr.rb hrun
              refine ⟨rb1, fun h0 => by omega, fun m => ?_⟩
              have e1 : k + 1 + m = (k + m) + 1 := by omega
              rw [e1, hstep (k + m), hstep k, hio, hm m]
              simp

theorem wp_write_world {W : Type} (lib : Lib) (env : Env W) (delay : Int) (h0 : Handled W)
    (pdu : PDU) (slaveId : Byte) (hev : h0.events.all (fun x => !x.isWrite) = true)
    (adu : RTU) (e : Error)
    (hmem : Event.Write adu (some e) ∈ (Serve.wp lib env delay h0 pdu slaveId).events) :
    (Serve.wp lib env delay h0 pdu slaveId).ioErr = some e ∧
      (∃ evs, (Serve.wp lib env delay h0 pdu slaveId).events =
          evs ++ [Event.Write adu (some e)] ∧ evs.all (fun x => !x.isWrite) = true) ∧
      ∃ w0, (env.Write w0 adu).1 = (Serve.wp lib env delay h0 pdu slaveId).w ∧
        (env.Write w0 adu).2 = some e := by
  have hnot : Event.Write adu (some e) ∉ h0.events := by
    intro hin
    have := (List.all_eq_true.mp hev) _ hin
    simp [Event.isWrite] at this
  unfold Serve.wp at hmem ⊢
  split
  · rename_i h0'
    rw [if_pos h0'] at hmem
    exact absurd hmem hnot
  · rename_i h0'
    rw [if_neg h0'] at hmem
    simp only [List.mem_append, List.mem_cons, List.mem_singleton, List.not_mem_nil,
      or_false] at hmem
    rcases hmem with hm | hm | hm
    · exact absurd hm hnot
    · cases hm
    · simp only [Event.Write.injEq] at hm
      obtain ⟨ha, he⟩ := hm
      refine ⟨he.symm, ⟨h0.events ++ [Event.Sleep delay], ?_, ?_⟩, h0.w, ?_, ?_⟩
      · simp only [List.append_assoc, List.singleton_append, ha, he]
      · rw [List.all_append, hev]
        rfl
      · rw [ha]
      · rw [ha, he]

theorem handle_write_world {W : Type} (lib : Lib) (s : RTUServer W) (delay : Int) (w : W)
    (stats : Stats) (r : RTU) (h : Handled W)
    (hh : Serve.handle lib s delay w stats r = some h) (adu : RTU) (e : Error)
    (hmem : Event.Write adu (some e) ∈ h.events) :
    h.ioErr = some e ∧
      (∃ evs, h.events = evs ++ [Event.Write adu (some e)] ∧
        evs.all (fun x => !x.isWrite) = true) ∧
      ∃ w0, (s.env.Write w0 adu).1 = h.w ∧ (s.env.Write w0 adu).2 = some e := by
  unfold Serve.handle at hh
  split at hh
  · split at hh <;> (cases hh; simp at hmem)
  · split at hh
    · simp at hh
    · split at hh
      · cases hh; simp at hmem
      · split at hh
        · cases hh
          exact wp_write_world _ _ _ _ _ _ (by simp) adu e hmem
        · simp only at hh
          split at hh
          · split at hh <;>
              (cases hh; exact wp_write_world _ _ _ _ _ _ (by simp [Event.isWrite]) adu e hmem)
          · split at hh
            · split at hh
              · cases hh
                exact wp_write_world _ _ _ _ _ _ (by simp) adu e hmem
              · split at hh <;>
                  (cases hh
                   exact wp_write_world _ _ _ _ _ _ (by simp [Event.isWrite]) adu e hmem)
            · cases hh; simp at hmem

/-- C9: I/O errors are terminal. (1) Every run of `Serve` has one of two shapes:
either it has not returned (it is still in its loop, blocked in a packet read, or
panicked) and no packet read and no transport write of it returned an error; or it
returned a non-nil error `e`, every pass but the last is free of I/O errors, and the
last pass ends in `e` (its packet read returned `e` and no event followed, or its last
event is the transport write that returned `e`). (2) `Serve` never returns nil.
(3) Whenever a run is still in its loop after `fuel` passes, with `rb` the read buffer
at that point (the fresh buffer when `fuel = 0`): if the next packet read returns a
non-nil error `e`, then `Serve` returns `e`, with one more pass that has no event, in
the world and with the stats that the read left; if the next packet read succeeds and
a transport write made while the frame is processed returns a non-nil error `e`, then
that write is the last event of the pass, the world is the one that write left, and
`Serve` returns `e`; and if no write fails while the frame is processed, whatever
protocol, validation or handler error occurred, `Serve` does not return but is back
at the head of its loop. -/
theorem Serve_io_errors_terminal {W : Type} (lib : Lib) (OverSizeSupport : Bool)
    (OverSizeMaxRTU : Nat) (s : RTUServer W) (fuel : Nat) (w : W) (stats : Stats) :
    (((∀ err, (RTUServer.Serve lib OverSizeSupport OverSizeMaxRTU s fuel w stats).result ≠
        .returned err) ∧
      (RTUServer.Serve lib OverSizeSupport OverSizeMaxRTU s fuel w stats).rounds.all
        Round.clean = true) ∨
    (∃ pre last e,
      (RTUServer.Serve lib OverSizeSupport OverSizeMaxRTU s fuel w stats).rounds = pre ++ [last] ∧
      pre.all Round.clean = true ∧ last.endsIn e ∧
      (RTUServer.Serve lib OverSizeSupport OverSizeMaxRTU s fuel w stats).result =
        .returned (some e))) ∧
    (RTUServer.Serve lib OverSizeSupport OverSizeMaxRTU s fuel w stats).result ≠
      .returned none ∧
    ((RTUServer.Serve lib OverSizeSupport OverSizeMaxRTU s fuel w stats).result = .running →
      ∃ rb : List Byte,
        (fuel = 0 →
          rb = List.replicate (if OverSizeSupport then OverSizeMaxRTU else MaxRTUSize) 0) ∧
        (∀ (pr : PacketRead W) (e : Error) (more : Nat),
          s.env.Read (RTUServer.Serve lib OverSizeSupport OverSizeMaxRTU s fuel w stats).w
            (RTUServer.Serve lib OverSizeSupport OverSizeMaxRTU s fuel w stats).stats rb =
              some pr →
          pr.err = some e →
          RTUServer.Serve lib OverSizeSupport OverSizeMaxRTU s (fuel + (more + 1)) w stats =
            { rounds := (RTUServer.Serve lib OverSizeSupport OverSizeMaxRTU s fuel w stats).rounds ++
                [{ frame := pr.rb.take pr.n, err := some e, events := [] }],
              w := pr.w, stats := pr.stats, result := .returned (some e) }) ∧
        (∀ (pr : PacketRead W) (h : Handled W) (adu : RTU) (e : Error) (more : Nat),
          s.env.Read (RTUServer.Serve lib OverSizeSupport OverSizeMaxRTU s fuel w stats).w
            (RTUServer.Serve lib OverSizeSupport OverSizeMaxRTU s fuel w stats).stats rb =
              some pr →
          pr.err = none → pr.n ≤ pr.rb.length →
          Serve.handle lib s (s.env.MinDelay w) pr.w pr.stats (pr.rb.take pr.n) = some h →
          Event.Write adu (some e) ∈ h.events →
          (∃ evs, h.events = evs ++ [Event.Write adu (some e)] ∧
            evs.all (fun x => !x.isWrite) = true) ∧
          (∃ w0, (s.env.Write w0 adu).1 = h.w ∧ (s.env.Write w0 adu).2 = some e) ∧
          RTUServer.Serve lib OverSizeSupport OverSizeMaxRTU s (fuel + (more + 1)) w stats =
            { rounds := (RTUServer.Serve lib OverSizeSupport OverSizeMaxRTU s fuel w stats).rounds ++
                [{ frame := pr.rb.take pr.n, err := none, events := h.events }],
              w := h.w, stats := h.stats, result := .returned (some e) }) ∧
        (∀ (pr : PacketRead W) (h : Handled W),
          s.env.Read (RTUServer.Serve lib OverSizeSupport OverSizeMaxRTU s fuel w stats).w
            (RTUServer.Serve lib OverSizeSupport OverSizeMaxRTU s fuel w stats).stats rb =
              some pr →
          pr.err = none → pr.n ≤ pr.rb.length →
          Serve.handle lib s (s.env.MinDelay w) pr.w pr.stats (pr.rb.take pr.n) = some h →
          h.events.all (fun x => !x.isFailedWrite) = true →
          RTUServer.Serve lib OverSizeSupport OverSizeMaxRTU s (fuel + 1) w stats =
            { rounds := (RTUServer.Serve lib OverSizeSupport OverSizeMaxRTU s fuel w stats).rounds ++
                [{ frame := pr.rb.take pr.n, err := none, events := h.events }],
              w := h.w, stats := h.stats, result := .running })) := by
  have hshape := loop_io lib s (s.env.MinDelay w) fuel w stats
    (List.replicate (if OverSizeSupport then OverSizeMaxRTU else MaxRTUSize) 0)
  refine ⟨hshape, ?_, ?_⟩
  · rcases hshape with ⟨hne, _⟩ | ⟨_, _, e, _, _, _, hres⟩
    · exact hne none
    · intro hnil
      rw [RTUServer.Serve] at hnil
      rw [hres] at hnil
      cases hnil
  · intro hrun
    unfold RTUServer.Serve at hrun ⊢
    obtain ⟨rb, hrb, hm⟩ := loop_split lib s (s.env.MinDelay w) fuel w stats _ hrun
    refine ⟨rb, hrb, ?_, ?_, ?_⟩
    · intro pr e more hread herr
      rw [hm (more + 1), loop_read_error lib s _ more _ _ rb pr e hread herr]
    · intro pr h adu e more hread herr hlen hh hmem
      obtain ⟨hio, hev, hw⟩ := handle_write_world lib s _ _ _ _ h hh adu e hmem
      refine ⟨hev, hw, ?_⟩
      rw [hm (more + 1), loop_pass lib s _ more _ _ rb pr h hread herr hlen hh, hio,
        loop_returned]
    · intro pr h hread herr hlen hh hclean
      have hio : h.ioErr = none := by
        rcases handle_io lib s _ _ _ _ h hh with ⟨hio, _⟩ | ⟨e, evs, adu, _, hev, _⟩
        · exact hio
        · rw [hev] at hclean
          simp [Event.isFailedWrite] at hclean
      rw [hm 1, loop_pass lib s _ 0 _ _ rb pr h hread herr hlen hh, hio]
      simp [Serve.loop]

set_option maxRecDepth 100000 in
theorem Serve_io_errors_terminal_witness :
    RTUServer.Serve (specLib false) false 512 sampleServer 3 closedWorld zeroStats =
        { rounds := [{ frame := [], err := some (Error.other 6), events := [] }],
          w := closedRead.w, stats := closedRead.stats,
          result := .returned (some (Error.other 6)) } ∧
      RTUServer.Serve (specLib false) false 512 brokenWriteServer 3 sampleWorld zeroStats =
        { rounds := [{ frame := writeSingleRequest, err := none,
                       events := brokenWriteHandled.events }],
          w := brokenWriteHandled.w, stats := brokenWriteHandled.stats,
          result := .returned (some (Error.other 32)) } := by
  obtain ⟨rb1, hrb1, hread, _, _⟩ :=
    (Serve_io_errors_terminal (specLib false) false 512 sampleServer 0 closedWorld
      zeroStats).2.2 rfl
  obtain ⟨rb2, hrb2, _, hwrite, _⟩ :=
    (Serve_io_errors_terminal (specLib false) false 512 brokenWriteServer 0 sampleWorld
      zeroStats).2.2 rfl
  have h1 := hrb1 rfl
  have h2 := hrb2 rfl
  subst h1 h2
  exact ⟨hread closedRead (Error.other 6) 2 (by decide) rfl,
    (hwrite sampleRead brokenWriteHandled writeSingleRequest (Error.other 32) 2 (by decide)
      rfl (by decide) (by rfl) (.tail _ (.tail _ (.head _)))).2.2⟩

theorem validate_single_length (OverSizeSupport : Bool) (p : PDU)
    (hv : PDU.ValidateRequest OverSizeSupport p = none) :
    5 ≤ p.length ∧ ((PDU.GetFunctionCode p).IsSingle = true → p.length = 5) := by
  unfold PDU.ValidateRequest at hv
  simp only at hv
  split at hv
  · simp at hv
  · split at hv
    · simp at hv
    · rename_i h5
      refine ⟨by omega, fun hs => ?_⟩
      rw [if_pos hs] at hv
      split at hv
      · assumption
      · simp at hv

theorem getPDU_makeRTU (id : Byte) (p : PDU) (hp : p ≠ []) :
    RTU.GetPDU (MakeRTU id p) = .ok p := by
  have hlen : 0 < p.length := List.length_pos.mpr hp
  have hl : (MakeRTU id p).length = p.length + 3 := by simp [MakeRTU, crc.Append]
  have hv : crc.Validate (MakeRTU id p) = true := validate_append _ (by simp)
  unfold RTU.GetPDU
  rw [if_neg (by omega), hv]
  simp only [Bool.not_true, Bool.false_eq_true, if_false, hl, Nat.add_sub_cancel]
  simp [MakeRTU, crc.Append]

theorem overSizeWritePDU_valid : PDU.ValidateRequest true overSizeWritePDU = none := by
  have hlen : overSizeWritePDU.length = 406 := by
    rw [overSizeWritePDU, List.length_append, List.length_replicate]
    rfl
  have hfc : PDU.GetFunctionCode overSizeWritePDU = 0x10 := rfl
  have h3 : overSizeWritePDU.getD 3 0 = 0 := rfl
  have h4 : overSizeWritePDU.getD 4 0 = 200 := rfl
  unfold PDU.ValidateRequest
  simp only [hfc, h3, h4, hlen]
  decide

/-- C10 (against the spec-modelled `RTU.GetPDU`, `PDU.ValidateRequest`,
`PDU.MakeWriteReply`, `MakeRTU` and `crc`): write replies echo the request. With
`OverSizeSupport` off or on, for every accepted write request (a function code that
`IsWriteToServer`: 5, 6, 15 or 16) addressed to the server's own non-zero `SlaveID`
for which the handler's `OnWrite` succeeds, `Serve` calls `OnWrite`, sleeps and
transmits one ADU, `MakeRTU(SlaveID, first five bytes of the request PDU)`: the slave
id, then the first five bytes of the request PDU, then two CRC bytes that validate.
For the single-element writes (fc 5 and 6) the transmitted ADU is the request ADU
byte for byte. -/
theorem Serve_write_reply_echoes {W : Type} (OverSizeSupport : Bool) (s : RTUServer W)
    (delay : Int) (w : W) (stats : Stats) (tl : List Byte) (p : PDU) (values : List Byte)
    (hid : s.SlaveID ≠ 0) (hget : RTU.GetPDU (s.SlaveID :: tl) = .ok p)
    (hv : PDU.ValidateRequest OverSizeSupport p = none)
    (hfc : (PDU.GetFunctionCode p).IsWriteToServer = true)
    (hg : PDU.GetRequestValues p = .ok values) (hw : (s.env.OnWrite w p values).2 = none) :
    ∃ adu lo hi,
      Serve.handle (specLib OverSizeSupport) s delay w stats (s.SlaveID :: tl) =
        some { w := (s.env.Write (s.env.OnWrite w p values).1 adu).1
               stats := stats
               events := [.OnWrite p values, .Sleep delay,
                 .Write adu (s.env.Write (s.env.OnWrite w p values).1 adu).2]
               ioErr := (s.env.Write (s.env.OnWrite w p values).1 adu).2 } ∧
      adu = MakeRTU s.SlaveID (p.take 5) ∧
      adu = s.SlaveID :: p.take 5 ++ [lo, hi] ∧ (p.take 5).length = 5 ∧
      crc.Validate adu = true ∧
      ((PDU.GetFunctionCode p).IsSingle = true → adu = s.SlaveID :: tl) := by
  obtain ⟨h5, hsingle⟩ := validate_single_length OverSizeSupport p hv
  have hrd : (PDU.GetFunctionCode p).IsReadToServer = false := by
    simp only [FunctionCode.IsWriteToServer, decide_eq_true_eq] at hfc
    simp only [FunctionCode.IsReadToServer, decide_eq_false_iff_not]
    omega
  refine ⟨MakeRTU s.SlaveID (p.take 5), Fin.ofNat (crc.Sum (s.SlaveID :: p.take 5) % 256),
    Fin.ofNat (crc.Sum (s.SlaveID :: p.take 5) / 256 % 256), ?_, rfl, ?_, ?_, ?_, ?_⟩
  · simp [Serve.handle, specLib, hget, hid, hv, hrd, hfc, hg, hw, Serve.wp, PDU.MakeWriteReply]
  · simp [MakeRTU, crc.Append]
  · simp; omega
  · exact validate_append _ (by simp)
  · intro hs
    have hp5 : p.take 5 = p := List.take_of_length_le (by rw [hsingle hs])
    rw [hp5]
    exact makeRTU_of_getPDU _ _ _ hget


theorem overSizeWrite_getPDU :
    RTU.GetPDU (0x11 :: overSizeWriteTail) = .ok overSizeWritePDU := by
  have e : (0x11 : Byte) :: overSizeWriteTail = MakeRTU 0x11 overSizeWritePDU := by
    rw [overSizeWriteTail, MakeRTU, crc.Append, List.cons_append, List.tail_cons]
  rw [e]
  exact getPDU_makeRTU 0x11 overSizeWritePDU (List.cons_ne_nil _ _)

set_option maxRecDepth 100000 in
theorem Serve_write_reply_echoes_witness :
    (∃ adu lo hi,
      Serve.handle (specLib false) sampleServer 1750000 sampleWorld zeroStats
          (0x11 :: [0x06, 0x00, 0x01, 0x00, 0x03, 0x9A, 0x9B]) =
        some { w := { sampleWorld with written := [adu] }
               stats := zeroStats
               events := [.OnWrite [0x06, 0x00, 0x01, 0x00, 0x03] [0x00, 0x03], .Sleep 1750000,
                 .Write adu none]
               ioErr := none } ∧
      adu = MakeRTU 0x11 [0x06, 0x00, 0x01, 0x00, 0x03] ∧
      adu = 0x11 :: [0x06, 0x00, 0x01, 0x00, 0x03] ++ [lo, hi] ∧
      ([0x06, 0x00, 0x01, 0x00, 0x03] : List Byte).length = 5 ∧
      crc.Validate adu = true ∧
      (FunctionCode.IsSingle 0x06 = true →
        adu = 0x11 :: [0x06, 0x00, 0x01, 0x00, 0x03, 0x9A, 0x9B])) ∧
    (∃ adu lo hi,
      Serve.handle (specLib true) overSizeServer 1750000 quietWorld zeroStats
          (0x11 :: overSizeWriteTail) =
        some { w := { quietWorld with written := [adu] }
               stats := zeroStats
               events := [.OnWrite overSizeWritePDU (List.replicate 400 0), .Sleep 1750000,
                 .Write adu none]
               ioErr := none } ∧
      adu = MakeRTU 0x11 (overSizeWritePDU.take 5) ∧
      adu = 0x11 :: overSizeWritePDU.take 5 ++ [lo, hi] ∧
      (overSizeWritePDU.take 5).length = 5 ∧
      crc.Validate adu = true ∧
      (FunctionCode.IsSingle (PDU.GetFunctionCode overSizeWritePDU) = true →
        adu = 0x11 :: overSizeWriteTail)) ∧
    MakeRTU 0x11 (overSizeWritePDU.take 5) = [0x11, 0x10, 0x00, 0x00, 0x00, 0xC8, 0xC3, 0x0F] :=
  ⟨Serve_write_reply_echoes false sampleServer 1750000 sampleWorld zeroStats
      [0x06, 0x00, 0x01, 0x00, 0x03, 0x9A, 0x9B] [0x06, 0x00, 0x01, 0x00, 0x03] [0x00, 0x03]
      (by decide) (by rfl) (by decide) (by decide) (by rfl) (by rfl),
    Serve_write_reply_echoes true overSizeServer 1750000 quietWorld zeroStats
      overSizeWriteTail overSizeWritePDU (List.replicate 400 0)
      (by decide) overSizeWrite_getPDU overSizeWritePDU_valid (by decide) (by rfl) (by rfl),
    by decide⟩

set_option maxRecDepth 100000 in
theorem read_reply_length_counterexample :
    RTU.GetPDU readRegistersRequest = .ok [0x03, 0x00, 0x6B, 0x00, 0x03] ∧
      PDU.ValidateRequest false [0x03, 0x00, 0x6B, 0x00, 0x03] = none ∧
      Serve.handle (specLib false) sampleServer 1750000 sampleWorld zeroStats
          readRegistersRequest =
        some { w := { sampleWorld with written := [MakeRTU 0x11 [0x03, 0x02, 0x00, 0x03]] }
               stats := zeroStats
               events := [.OnRead [0x03, 0x00, 0x6B, 0x00, 0x03], .Sleep 1750000,
                 .Write (MakeRTU 0x11 [0x03, 0x02, 0x00, 0x03]) none]
               ioErr := none } ∧
      ([0x03, 0x02, 0x00, 0x03] : PDU).length ≠ 2 + 2 * 3 :=
  ⟨by rfl, by decide, by rfl, by decide⟩

/-- C14 (amended, against the spec-modelled `RTU.GetPDU`, `PDU.ValidateRequest`,
`PDU.MakeReadReply` and `MakeRTU`): with `OverSizeSupport` off or on, for every valid
read-holding-registers or read-input-registers request (fc 3 or 4) with quantity `q`
addressed to the server's own non-zero `SlaveID` that `Serve` answers with a
non-exception reply, the reply PDU it transmits is `[fc, len(data) mod 256, data]`,
which is `2 + len(data)` bytes long, where `data` is what `handler.OnRead` returned;
it is exactly `2 + 2q` bytes long for every handler that returns `2q` bytes of
data. -/
theorem Serve_read_reply_length {W : Type} (OverSizeSupport : Bool) (s : RTUServer W)
    (delay : Int) (w : W) (stats : Stats) (tl : List Byte) (p : PDU) (data : List Byte)
    (hid : s.SlaveID ≠ 0) (hget : RTU.GetPDU (s.SlaveID :: tl) = .ok p)
    (hv : PDU.ValidateRequest OverSizeSupport p = none)
    (hfc : (PDU.GetFunctionCode p).val = 3 ∨ (PDU.GetFunctionCode p).val = 4)
    (hdata : (s.env.OnRead w p).2 = .ok data) :
    ∃ reply : PDU,
      Serve.handle (specLib OverSizeSupport) s delay w stats (s.SlaveID :: tl) =
        some { w := (s.env.Write (s.env.OnRead w p).1 (MakeRTU s.SlaveID reply)).1
               stats := stats
               events := [.OnRead p, .Sleep delay, .Write (MakeRTU s.SlaveID reply)
                 (s.env.Write (s.env.OnRead w p).1 (MakeRTU s.SlaveID reply)).2]
               ioErr := (s.env.Write (s.env.OnRead w p).1 (MakeRTU s.SlaveID reply)).2 } ∧
      reply = PDU.GetFunctionCode p :: Fin.ofNat data.length :: data ∧
      reply.length = 2 + data.length ∧
      (data.length = 2 * ((p.getD 3 0).val * 256 + (p.getD 4 0).val) →
        reply.length = 2 + 2 * ((p.getD 3 0).val * 256 + (p.getD 4 0).val)) := by
  have hrd : (PDU.GetFunctionCode p).IsReadToServer = true := by
    simp only [FunctionCode.IsReadToServer, decide_eq_true_eq]
    omega
  refine ⟨PDU.MakeReadReply p data, ?_, rfl, ?_, ?_⟩
  · simp [Serve.handle, specLib, hget, hid, hv, hrd, hdata, Serve.wp]
  · simp [PDU.MakeReadReply]; omega
  · intro h
    rw [PDU.MakeReadReply, List.length_cons, List.length_cons, h]
    omega

set_option maxRecDepth 100000 in
theorem Serve_read_reply_length_witness :
    (∃ reply : PDU,
      Serve.handle (specLib false) sampleServer 1750000 sampleWorld zeroStats
          (0x11 :: [0x03, 0x00, 0x6B, 0x00, 0x03, 0x76, 0x87]) =
        some { w := { sampleWorld with written := [MakeRTU 0x11 reply] }
               stats := zeroStats
               events := [.OnRead [0x03, 0x00, 0x6B, 0x00, 0x03], .Sleep 1750000,
                 .Write (MakeRTU 0x11 reply) none]
               ioErr := none } ∧
      reply = 0x03 :: Fin.ofNat 2 :: [0x00, 0x03] ∧
      reply.length = 2 + 2 ∧
      (2 = 2 * (0 * 256 + 3) → reply.length = 2 + 2 * (0 * 256 + 3))) ∧
    (∃ reply : PDU,
      Serve.handle (specLib true) overSizeServer 1750000 quietWorld zeroStats
          (0x11 :: [0x03, 0x00, 0x00, 0x00, 0xC8, 0x46, 0xCC]) =
        some { w := { quietWorld with written := [MakeRTU 0x11 reply] }
               stats := zeroStats
               events := [.OnRead [0x03, 0x00, 0x00, 0x00, 0xC8], .Sleep 1750000,
                 .Write (MakeRTU 0x11 reply) none]
               ioErr := none } ∧
      reply = 0x03 :: Fin.ofNat (List.replicate 400 (0 : Byte)).length :: List.replicate 400 0 ∧
      reply.length = 2 + (List.replicate 400 (0 : Byte)).length ∧
      ((List.replicate 400 (0 : Byte)).length = 2 * (0 * 256 + 200) →
        reply.length = 2 + 2 * (0 * 256 + 200))) ∧
    (List.replicate 400 (0 : Byte)).length = 2 * (0 * 256 + 200) ∧
    (MakeRTU 0x11 (0x03 :: Fin.ofNat (List.replicate 400 (0 : Byte)).length ::
      List.replicate 400 0)).take 5 = [0x11, 0x03, 0x90, 0x00, 0x00] :=
  ⟨Serve_read_reply_length false sampleServer 1750000 sampleWorld zeroStats
      [0x03, 0x00, 0x6B, 0x00, 0x03, 0x76, 0x87] [0x03, 0x00, 0x6B, 0x00, 0x03] [0x00, 0x03]
      (by decide) (by rfl) (by decide) (by decide) (by rfl),
    Serve_read_reply_length true overSizeServer 1750000 quietWorld zeroStats
      [0x03, 0x00, 0x00, 0x00, 0xC8, 0x46, 0xCC] [0x03, 0x00, 0x00, 0x00, 0xC8]
      (List.replicate 400 0)
      (by decide) (by rfl) (by decide) (by decide) (by rfl),
    List.length_replicate 400 0, by rfl⟩

end modbusone
